import Mathlib

/-!
TempoTapperLib: a verification development.

The file embeds the C sources of the library
(include/tempo_tapper.h, src/tempo_tapper_common.cxx, src/tempo_tapper_arduino.cxx,
src/tempo_tapper_posix.cxx) as Lean functions and proves properties of them.

Conventions of the embedding.

* A function that receives a `tempo_tapper *` and writes through it becomes a function
  from the struct before the call to the struct after the call.
* `current_time` reads a hardware or system clock. The reading is an argument of
  `tt_tap`: it is the value that `current_time(&c_time)` stores in `c_time`.
* `unsigned long` values are natural numbers, and the arithmetic of the Arduino adapter
  on them is reduced modulo `2 ^ w`, where `w` is the width of `unsigned long`.
* `int taps` is an integer. The increment `taps++` is reduced to the range of an `int`
  of `int_bits` bits (two's complement). C leaves the increment of `INT_MAX` undefined;
  the compilers of the supported targets store the wrapped value, and every theorem that
  depends on the counter says how many taps it covers.
* The fields of `struct timeval` are integers. `time_to_us` returns `unsigned long`, so
  its result is reduced modulo `2 ^ W`, where `W` is the width of `unsigned long` on the
  POSIX target. The adapter `posix` computes on the fields without a bound; its
  theorems carry the range conditions under which no field leaves the range of its C
  type. The adapter `posix_fixed` reduces every stored field to its width; it is used
  where a statement is about the fields themselves, and `run_stored_eq` shows where the
  two adapters agree.
* The query functions are also given as computations on the struct behind the pointer
  (`tt_period_us_call`, `tt_bpm_call`), where the reads and writes of the struct are
  explicit and the adapter function `time_to_us` runs on the field whose address it
  receives; `tt_reset_call` is `tt_reset` in the same form.
* `tt_bpm` returns a `float`. The embedding returns the rational number that the float
  division approximates.
-/

namespace TempoTapper

/-! Shared declarations of tempo_tapper.h -/

/-- The macro S_TO_US of tempo_tapper.h: microseconds per second. -/
def S_TO_US : Nat := 1000000

/-- The struct tempo_tapper of tempo_tapper.h, over the time type `τ` of the target. -/
structure tempo_tapper (τ : Type) where
  /-- Holds the sum of all measured periods. -/
  prd_sum : τ
  /-- Holds the clock time of the last tap. -/
  lst_t : τ
  /-- Number of taps; the initial value is -1. -/
  taps : Int
deriving DecidableEq, Repr

/-- The target: the width of `int` and the time adapter functions that
tempo_tapper.h declares and one of the adapter files defines.
`reset_time` maps the old content of the variable to the content written. -/
structure tt_platform (τ : Type) where
  int_bits : Nat
  add_time : τ → τ → τ
  sub_time : τ → τ → τ
  time_to_us : τ → Nat
  reset_time : τ → τ

/-- The value an `int` of `bits` bits holds after an arithmetic result `x` is stored
in it: the representative of `x` modulo `2 ^ bits` in `[-2 ^ (bits - 1), 2 ^ (bits - 1))`. -/
def int_wrap (bits : Nat) (x : Int) : Int :=
  (x + 2 ^ (bits - 1)) % 2 ^ bits - 2 ^ (bits - 1)

/-- The largest value of an `int` of `bits` bits. -/
def INT_MAX (bits : Nat) : Int := 2 ^ (bits - 1) - 1

/-- The smallest number of a list of intervals (0 for the empty list). -/
def smallest : List Nat → Nat
  | [] => 0
  | [a] => a
  | a :: b :: rest => min a (smallest (b :: rest))

/-- The largest number of a list of intervals (0 for the empty list). -/
def largest : List Nat → Nat
  | [] => 0
  | [a] => a
  | a :: b :: rest => max a (largest (b :: rest))

section common

variable {τ : Type}

/-- The function tt_period_us of tempo_tapper_common.cxx. In `us/tapper->taps` the
`int` is converted to `unsigned long`; the division is reached with `taps >= 1` only,
where the conversion keeps the value. -/
def tt_period_us (P : tt_platform τ) (tapper : tempo_tapper τ) : Nat :=
  if tapper.taps < 1 then
    0
  else
    let us := P.time_to_us tapper.prd_sum
    us / tapper.taps.toNat

/-- The function tt_tap of tempo_tapper_common.cxx; `c_time` is the clock reading
that `current_time` delivers. -/
def tt_tap (P : tt_platform τ) (c_time : τ) (tapper : tempo_tapper τ) : tempo_tapper τ :=
  let prd_sum :=
    if tapper.taps ≥ 0 then
      let tdiff := P.sub_time c_time tapper.lst_t
      P.add_time tapper.prd_sum tdiff
    else
      tapper.prd_sum
  { prd_sum := prd_sum
    taps := int_wrap P.int_bits (tapper.taps + 1)
    lst_t := c_time }

/-- The function tt_reset of tempo_tapper_common.cxx. The field lst_t is not written. -/
def tt_reset (P : tt_platform τ) (tapper : tempo_tapper τ) : tempo_tapper τ :=
  { tapper with
    taps := -1
    prd_sum := P.reset_time tapper.prd_sum }

/-- The function tt_new of tempo_tapper_common.cxx. The argument is what `malloc`
returns: `none` for NULL, otherwise a struct with arbitrary content. -/
def tt_new (P : tt_platform τ) (mem : Option (tempo_tapper τ)) : Option (tempo_tapper τ) :=
  match mem with
  | none => none
  | some tapper => some (tt_reset P tapper)

/-- The function tt_bpm of tempo_tapper_common.cxx, with the quotient
`(60 * S_TO_US)/(float)tt_period_us(tapper)` as a rational number. -/
def tt_bpm (P : tt_platform τ) (tapper : tempo_tapper τ) : ℚ :=
  let us := tt_period_us P tapper
  if us = 0 then
    0
  else
    ((60 * S_TO_US : Nat) : ℚ) / (tt_period_us P tapper : ℚ)

/-- A sequence of calls of tt_tap, one for each clock reading of the list, in order. -/
def tap_all (P : tt_platform τ) (tapper : tempo_tapper τ) (ts : List τ) : tempo_tapper τ :=
  ts.foldl (fun s c_time => tt_tap P c_time s) tapper

/-- States in which an instance is handed out: the result of a successful tt_new, or
the result of tt_reset on any state. -/
def fresh (P : tt_platform τ) (s : tempo_tapper τ) : Prop :=
  (∃ mem, tt_new P mem = some s) ∨ (∃ s0, s = tt_reset P s0)

/-- The content of prd_sum after tt_tap has run once for each reading of the list,
all with `taps >= 0`: each call adds `sub_time(now, lst_t)` to the sum and the reading
becomes the next `lst_t`. -/
def accumulate (P : tt_platform τ) (prd_sum lst_t : τ) : List τ → τ
  | [] => prd_sum
  | t :: ts => accumulate P (P.add_time prd_sum (P.sub_time t lst_t)) t ts

/-- Division of C on `unsigned long`: it has no result for a zero divisor. -/
def udiv (a b : Nat) : Option Nat :=
  if b = 0 then none else some (a / b)

/-- Division of a number by a converted period: it has no finite result for a zero
divisor. -/
def fdiv (a b : ℚ) : Option ℚ :=
  if b = 0 then none else some (a / b)

/-- The body of tt_period_us with the division of C: `none` stands for a division
by zero. -/
def tt_period_us_checked (P : tt_platform τ) (tapper : tempo_tapper τ) : Option Nat :=
  if tapper.taps < 1 then
    some 0
  else
    let us := P.time_to_us tapper.prd_sum
    udiv us tapper.taps.toNat

/-- The body of tt_bpm with the divisions of C, in both calls of tt_period_us and in
the quotient itself: `none` stands for a division by zero. -/
def tt_bpm_checked (P : tt_platform τ) (tapper : tempo_tapper τ) : Option ℚ :=
  match tt_period_us_checked P tapper with
  | none => none
  | some us =>
    if us = 0 then
      some 0
    else
      match tt_period_us_checked P tapper with
      | none => none
      | some us2 => fdiv ((60 * S_TO_US : Nat) : ℚ) (us2 : ℚ)

/-- The two query functions of the interface. -/
inductive tt_query where
  | period_us
  | bpm
deriving DecidableEq, Repr

/-- A call that receives `&tapper->prd_sum`: the callee runs on the time value behind
that pointer, and what it leaves there is the field after the call. -/
def on_prd_sum {α : Type} (callee : StateM τ α) : StateM (tempo_tapper τ) α :=
  fun tapper =>
    let r := callee.run tapper.prd_sum
    (r.1, { tapper with prd_sum := r.2 })

/-- The function tt_period_us of tempo_tapper_common.cxx as a computation on the struct
behind the pointer: every `tapper->field` of the body is a read of the current struct,
`time_to_us(&tapper->prd_sum)` runs the adapter function on the field, and the result
comes with the struct as the body leaves it. -/
def tt_period_us_call (time_to_us_call : StateM τ Nat) : StateM (tempo_tapper τ) Nat := do
  if (← get).taps < 1 then
    return 0
  let us ← on_prd_sum time_to_us_call
  return us / (← get).taps.toNat

/-- The function tt_bpm of tempo_tapper_common.cxx as a computation on the struct
behind the pointer; it calls tt_period_us twice, as the source does. -/
def tt_bpm_call (time_to_us_call : StateM τ Nat) : StateM (tempo_tapper τ) ℚ := do
  let us ← tt_period_us_call time_to_us_call
  if us = 0 then
    return 0
  return ((60 * S_TO_US : Nat) : ℚ) / ((← tt_period_us_call time_to_us_call : Nat) : ℚ)

/-- The function tt_reset of tempo_tapper_common.cxx as a computation on the struct
behind the pointer: a write of taps and the call `reset_time(&tapper->prd_sum)`. -/
def tt_reset_call (reset_time_call : StateM τ Unit) : StateM (tempo_tapper τ) Unit := do
  modify fun tapper => { tapper with taps := -1 }
  on_prd_sum reset_time_call

/-- One call of a query function (the period is returned as a rational number). -/
def call_query (time_to_us_call : StateM τ Nat) : tt_query → StateM (tempo_tapper τ) ℚ
  | tt_query.period_us => do return ((← tt_period_us_call time_to_us_call : Nat) : ℚ)
  | tt_query.bpm => tt_bpm_call time_to_us_call

/-- Successive calls of query functions on one instance, each on the struct the
previous call left; the values returned, in order. -/
def call_queries (time_to_us_call : StateM τ Nat) :
    List tt_query → StateM (tempo_tapper τ) (List ℚ)
  | [] => return []
  | q :: qs => do
    let r ← call_query time_to_us_call q
    let rs ← call_queries time_to_us_call qs
    return r :: rs

/-- A call that changes the struct: tt_tap, with the clock reading it obtains, or
tt_reset. -/
inductive tt_op (τ : Type) where
  | tap (c_time : τ)
  | reset

/-- The struct after one call. -/
def apply_op (P : tt_platform τ) (tapper : tempo_tapper τ) : tt_op τ → tempo_tapper τ
  | tt_op.tap c_time => tt_tap P c_time tapper
  | tt_op.reset => tt_reset P tapper

/-- The struct after a sequence of calls of tt_tap and tt_reset, in order. -/
def apply_ops (P : tt_platform τ) (tapper : tempo_tapper τ) (ops : List (tt_op τ)) :
    tempo_tapper τ :=
  ops.foldl (apply_op P) tapper

/-- The number of tt_tap calls after the last tt_reset of a sequence of calls (all of
them when there is no tt_reset). -/
def taps_since_reset (ops : List (tt_op τ)) : Nat :=
  ops.foldl (fun n op => match op with
    | tt_op.tap _ => n + 1
    | tt_op.reset => 0) 0

/-- The delta that a call of tt_tap computes: `sub_time(&c_time, &tapper->lst_t, &tdiff)`
in the branch `taps >= 0`, and none in the other branch. -/
def tap_delta (P : tt_platform τ) (c_time : τ) (tapper : tempo_tapper τ) : Option τ :=
  if tapper.taps ≥ 0 then
    some (P.sub_time c_time tapper.lst_t)
  else
    none

/-- The deltas that the tt_tap calls of a sequence of calls compute, in order. -/
def deltas (P : tt_platform τ) (tapper : tempo_tapper τ) : List (tt_op τ) → List τ
  | [] => []
  | tt_op.tap c_time :: ops =>
    (tap_delta P c_time tapper).toList ++ deltas P (tt_tap P c_time tapper) ops
  | tt_op.reset :: ops => deltas P (tt_reset P tapper) ops

/-- The clock readings that the tt_tap calls of a sequence of calls obtain, in order. -/
def readings : List (tt_op τ) → List τ
  | [] => []
  | tt_op.tap c_time :: ops => c_time :: readings ops
  | tt_op.reset :: ops => readings ops

end common

/-! The Arduino adapter, tempo_tapper_arduino.cxx: `tt_time_t` is `unsigned long`,
of `w` bits. -/

namespace arduino

/-- The function add_time of tempo_tapper_arduino.cxx: `*res = *a + *b`. -/
def add_time (w : Nat) (a b : Nat) : Nat := (a + b) % 2 ^ w

/-- The function sub_time of tempo_tapper_arduino.cxx: `*res = *a - *b`, the
difference modulo `2 ^ w`. -/
def sub_time (w : Nat) (a b : Nat) : Nat := (a + (2 ^ w - b % 2 ^ w)) % 2 ^ w

/-- The function time_to_us of tempo_tapper_arduino.cxx: `return *time`. -/
def time_to_us (time : Nat) : Nat := time

/-- The function reset_time of tempo_tapper_arduino.cxx: `*time = 0`. -/
def reset_time (_time : Nat) : Nat := 0

/-- The function time_to_us of tempo_tapper_arduino.cxx as a computation on the time
value behind the pointer: `return *time`. -/
def time_to_us_call : StateM Nat Nat := do
  return (← get)

/-- The function reset_time of tempo_tapper_arduino.cxx as a computation on the time
value behind the pointer: `*time = 0`. -/
def reset_time_call : StateM Nat Unit := do
  set (0 : Nat)

/-- The Arduino target with `unsigned long` of `w` bits and `int` of `iw` bits. -/
def target (w iw : Nat) : tt_platform Nat where
  int_bits := iw
  add_time := add_time w
  sub_time := sub_time w
  time_to_us := time_to_us
  reset_time := reset_time

/-- The intervals between consecutive readings: `d i = t (i+1) - t i`. -/
def intervals : List Nat → List Nat
  | a :: b :: rest => (b - a) :: intervals (b :: rest)
  | _ => []

/-- Consecutive readings are exactly `d` apart. -/
def spaced (d : Nat) : List Nat → Prop
  | a :: b :: rest => b = a + d ∧ spaced d (b :: rest)
  | _ => True

instance decidable_spaced (d : Nat) : (ts : List Nat) → Decidable (spaced d ts)
  | [] => isTrue trivial
  | [_] => isTrue trivial
  | a :: b :: rest =>
    have := decidable_spaced d (b :: rest)
    inferInstanceAs (Decidable (b = a + d ∧ spaced d (b :: rest)))

/-- Modelled from the spec: the function micros of the Arduino core is not part of the
sources. It returns the microseconds elapsed since the start, kept in an
`unsigned long` tick counter that wraps on overflow: after `elapsed` microseconds the
counter reads `elapsed` modulo `2 ^ w`. -/
def micros (w : Nat) (elapsed : Nat) : Nat := elapsed % 2 ^ w

/-- The function current_time of tempo_tapper_arduino.cxx: `*time = micros()`, called
when `elapsed` microseconds have passed since the start. -/
def current_time (w : Nat) (elapsed : Nat) : Nat := micros w elapsed

end arduino

/-! The POSIX adapter, tempo_tapper_posix.cxx: `tt_time_t` is `struct timeval`. -/

/-- The struct timeval of sys/time.h: seconds and microseconds. The fields are
integers here; the values that a `time_t` of tb bits and a `suseconds_t` of ub bits
hold are the `posix_fixed.representable tb ub` ones, and `timeradd_stored` and
`timersub_stored` below reduce every field they store to these widths. -/
structure timeval where
  tv_sec : Int
  tv_usec : Int
deriving DecidableEq, Repr

/-- Modelled from the spec: the macro timeradd of sys/time.h is not part of the
sources. It is the exact addition on the seconds and microseconds pair: the fields are
added and one second is carried when the microseconds reach 1000000. tt_tap passes
prd_sum both as an operand and as the result; the macro reads each field of the operands
before it writes that field of the result, so the function of the two operands below
describes that call as well. The sums are not reduced to the width of the fields: this
is the macro as long as no field leaves the range of its type (`timeradd_stored_eq`),
and `timeradd_stored` is the macro without that condition. -/
def timeradd (a b : timeval) : timeval :=
  let sec := a.tv_sec + b.tv_sec
  let usec := a.tv_usec + b.tv_usec
  if usec ≥ 1000000 then
    { tv_sec := sec + 1, tv_usec := usec - 1000000 }
  else
    { tv_sec := sec, tv_usec := usec }

/-- Modelled from the spec: the macro timersub of sys/time.h is not part of the
sources. It is the exact subtraction on the seconds and microseconds pair: the fields are
subtracted and one second is borrowed when the microseconds fall below 0. The
differences are not reduced to the width of the fields: this is the macro as long as no
field leaves the range of its type (`timersub_stored_eq`), and `timersub_stored` is the
macro without that condition. -/
def timersub (a b : timeval) : timeval :=
  let sec := a.tv_sec - b.tv_sec
  let usec := a.tv_usec - b.tv_usec
  if usec < 0 then
    { tv_sec := sec - 1, tv_usec := usec + 1000000 }
  else
    { tv_sec := sec, tv_usec := usec }

namespace posix

/-- The function add_time of tempo_tapper_posix.cxx: `timeradd(a, b, res)`. -/
def add_time (a b : timeval) : timeval := timeradd a b

/-- The function sub_time of tempo_tapper_posix.cxx: `timersub(a, b, res)`. -/
def sub_time (a b : timeval) : timeval := timersub a b

/-- The function time_to_us of tempo_tapper_posix.cxx:
`return (time->tv_sec * S_TO_US + time->tv_usec)`, converted to an `unsigned long`
of `W` bits. -/
def time_to_us (W : Nat) (time : timeval) : Nat :=
  ((time.tv_sec * (S_TO_US : Int) + time.tv_usec) % 2 ^ W).toNat

/-- The function reset_time of tempo_tapper_posix.cxx: both fields are set to 0. -/
def reset_time (time : timeval) : timeval :=
  { time with tv_sec := 0, tv_usec := 0 }

/-- The function time_to_us of tempo_tapper_posix.cxx as a computation on the time
value behind the pointer: `return (time->tv_sec * S_TO_US + time->tv_usec)`, converted
to an `unsigned long` of `W` bits. -/
def time_to_us_call (W : Nat) : StateM timeval Nat := do
  return (((← get).tv_sec * (S_TO_US : Int) + (← get).tv_usec) % 2 ^ W).toNat

/-- The function reset_time of tempo_tapper_posix.cxx as a computation on the time
value behind the pointer: `time->tv_sec = 0; time->tv_usec = 0`. -/
def reset_time_call : StateM timeval Unit := do
  modify fun time => { time with tv_sec := 0 }
  modify fun time => { time with tv_usec := 0 }

/-- The POSIX target with `unsigned long` of `W` bits and `int` of `iw` bits. -/
def target (W iw : Nat) : tt_platform timeval where
  int_bits := iw
  add_time := add_time
  sub_time := sub_time
  time_to_us := time_to_us W
  reset_time := reset_time

/-- The number of microseconds a time value stands for. -/
def usec_of (t : timeval) : Int := t.tv_sec * (S_TO_US : Int) + t.tv_usec

/-- A time value is normalised when its microseconds lie in `[0, 1000000)`; the
readings of `gettimeofday` are. -/
def normalised (t : timeval) : Prop := 0 ≤ t.tv_usec ∧ t.tv_usec < 1000000

instance decidable_normalised (t : timeval) : Decidable (normalised t) :=
  inferInstanceAs (Decidable (0 ≤ t.tv_usec ∧ t.tv_usec < 1000000))

/-- The reading `a` is not later than the reading `b`. -/
def not_before (a b : timeval) : Prop := usec_of a ≤ usec_of b

instance decidable_not_before (a b : timeval) : Decidable (not_before a b) :=
  inferInstanceAs (Decidable (usec_of a ≤ usec_of b))

/-- The intervals between consecutive readings, in microseconds. -/
def intervals : List timeval → List Nat
  | a :: b :: rest => (usec_of b - usec_of a).toNat :: intervals (b :: rest)
  | _ => []

/-- Consecutive readings are exactly `d` microseconds apart. -/
def spaced (d : Nat) : List timeval → Prop
  | a :: b :: rest => usec_of b = usec_of a + d ∧ spaced d (b :: rest)
  | _ => True

instance decidable_spaced (d : Nat) : (ts : List timeval) → Decidable (spaced d ts)
  | [] => isTrue trivial
  | [_] => isTrue trivial
  | a :: b :: rest =>
    have := decidable_spaced d (b :: rest)
    inferInstanceAs (Decidable (usec_of b = usec_of a + d ∧ spaced d (b :: rest)))

end posix

/-! The POSIX adapter with the fields of `struct timeval` at their stored width:
`tv_sec` is a `time_t` of `tb` bits and `tv_usec` a `suseconds_t` of `ub` bits, both
signed. The functions above compute on the fields as integers; the functions below
reduce every value an assignment stores to the width of the field, as `taps++` is
reduced to the width of `int`. -/

/-- Modelled from the spec: the macro timeradd of sys/time.h, with every assignment
(`result->tv_sec = ...`, `result->tv_usec = ...`, `++result->tv_sec`,
`result->tv_usec -= 1000000`) storing its value in a field of `tb`, respectively `ub`,
bits. -/
def timeradd_stored (tb ub : Nat) (a b : timeval) : timeval :=
  let sec := int_wrap tb (a.tv_sec + b.tv_sec)
  let usec := int_wrap ub (a.tv_usec + b.tv_usec)
  if usec ≥ 1000000 then
    { tv_sec := int_wrap tb (sec + 1), tv_usec := int_wrap ub (usec - 1000000) }
  else
    { tv_sec := sec, tv_usec := usec }

/-- Modelled from the spec: the macro timersub of sys/time.h, with every assignment
(`result->tv_sec = ...`, `result->tv_usec = ...`, `--result->tv_sec`,
`result->tv_usec += 1000000`) storing its value in a field of `tb`, respectively `ub`,
bits. -/
def timersub_stored (tb ub : Nat) (a b : timeval) : timeval :=
  let sec := int_wrap tb (a.tv_sec - b.tv_sec)
  let usec := int_wrap ub (a.tv_usec - b.tv_usec)
  if usec < 0 then
    { tv_sec := int_wrap tb (sec - 1), tv_usec := int_wrap ub (usec + 1000000) }
  else
    { tv_sec := sec, tv_usec := usec }

namespace posix_fixed

/-- Whether a time value is one a `struct timeval` can hold: tv_sec is a value of a
`time_t` of `tb` bits and tv_usec a value of a `suseconds_t` of `ub` bits. -/
def representable (tb ub : Nat) (t : timeval) : Prop :=
  (-(INT_MAX tb) - 1 ≤ t.tv_sec ∧ t.tv_sec ≤ INT_MAX tb) ∧
  (-(INT_MAX ub) - 1 ≤ t.tv_usec ∧ t.tv_usec ≤ INT_MAX ub)

instance decidable_representable (tb ub : Nat) (t : timeval) :
    Decidable (representable tb ub t) :=
  inferInstanceAs (Decidable ((-(INT_MAX tb) - 1 ≤ t.tv_sec ∧ t.tv_sec ≤ INT_MAX tb) ∧
    (-(INT_MAX ub) - 1 ≤ t.tv_usec ∧ t.tv_usec ≤ INT_MAX ub)))

/-- The function add_time of tempo_tapper_posix.cxx: `timeradd(a, b, res)`. -/
def add_time (tb ub : Nat) (a b : timeval) : timeval := timeradd_stored tb ub a b

/-- The function sub_time of tempo_tapper_posix.cxx: `timersub(a, b, res)`. -/
def sub_time (tb ub : Nat) (a b : timeval) : timeval := timersub_stored tb ub a b

/-- The POSIX target with `unsigned long` of `W` bits, `int` of `iw` bits, `time_t` of
`tb` bits and `suseconds_t` of `ub` bits. time_to_us and reset_time store nothing in a
field of a time value they compute on, so they are those of the adapter above. -/
def target (W iw tb ub : Nat) : tt_platform timeval where
  int_bits := iw
  add_time := add_time tb ub
  sub_time := sub_time tb ub
  time_to_us := posix.time_to_us W
  reset_time := posix.reset_time

end posix_fixed

/-! Auxiliary facts: the `int` counter -/

theorem int_wrap_of_mem_range (bits : Nat) (x : Int) (hb : 1 ≤ bits)
    (hlo : -2 ^ (bits - 1) ≤ x) (hhi : x < 2 ^ (bits - 1)) : int_wrap bits x = x := by
  unfold int_wrap
  have h2 : (2 : Int) ^ bits = 2 * 2 ^ (bits - 1) := by
    obtain ⟨k, rfl⟩ : ∃ k, bits = k + 1 := ⟨bits - 1, by omega⟩
    simp [pow_succ]; ring
  rw [h2, Int.emod_eq_of_lt (by omega) (by omega)]
  omega

theorem int_max_pos_bits (bits : Nat) (h : 1 ≤ INT_MAX bits) : 2 ≤ bits := by
  unfold INT_MAX at h
  by_contra hc
  have : bits = 0 ∨ bits = 1 := by omega
  rcases this with rfl | rfl <;> simp at h

theorem int_wrap_succ (bits : Nat) (k : Int) (h0 : 0 ≤ k) (h : k + 1 ≤ INT_MAX bits) :
    int_wrap bits (k + 1) = k + 1 := by
  have hb : 2 ≤ bits := int_max_pos_bits bits (by omega)
  unfold INT_MAX at h
  apply int_wrap_of_mem_range _ _ (by omega)
  · have : (0 : Int) < 2 ^ (bits - 1) := by positivity
    omega
  · omega

theorem int_wrap_zero (bits : Nat) (hb : 1 ≤ bits) : int_wrap bits 0 = 0 := by
  apply int_wrap_of_mem_range _ _ hb
  · have : (0 : Int) < 2 ^ (bits - 1) := by positivity
    omega
  · positivity

theorem int_wrap_zero_lt_one (bits : Nat) : int_wrap bits 0 < 1 := by
  rcases Nat.eq_zero_or_pos bits with h | h
  · subst h; simp [int_wrap]
  · rw [int_wrap_zero bits h]; exact Int.zero_lt_one

theorem int_wrap_add (bits : Nat) (x y : Int) :
    int_wrap bits (int_wrap bits x + y) = int_wrap bits (x + y) := by
  unfold int_wrap
  have e : (x + 2 ^ (bits - 1)) % 2 ^ bits - 2 ^ (bits - 1) + y + 2 ^ (bits - 1) =
      (x + 2 ^ (bits - 1)) % 2 ^ bits + y := by ring
  rw [e, Int.emod_add_emod]
  congr 2
  ring

theorem int_wrap_half (bits : Nat) (hb : 1 ≤ bits) :
    int_wrap bits (2 ^ (bits - 1)) = -2 ^ (bits - 1) := by
  unfold int_wrap
  have h2 : (2 : Int) ^ (bits - 1) + 2 ^ (bits - 1) = 2 ^ bits := by
    obtain ⟨k, rfl⟩ : ∃ k, bits = k + 1 := ⟨bits - 1, by omega⟩
    simp [pow_succ]; ring
  rw [h2, Int.emod_self]
  simp

/-! Auxiliary facts: lists of readings -/

theorem getLastD_cons_eq {α : Type} (l t : α) (ts : List α) :
    (t :: ts).getLastD l = ts.getLastD t := by
  cases ts <;> rfl

theorem getLastD_mem {α : Type} (l : α) (ts : List α) : ts.getLastD l ∈ l :: ts := by
  induction ts generalizing l with
  | nil => simp [List.getLastD]
  | cons t ts ih =>
    rw [getLastD_cons_eq]
    exact List.mem_cons_of_mem _ (ih t)

theorem getLastD_replicate {α : Type} (c : α) (n : Nat) :
    ∀ l : α, (List.replicate (n + 1) c).getLastD l = c := by
  induction n with
  | zero => intro l; rfl
  | succ n ih =>
    intro l
    have : (List.replicate (n + 1 + 1) c).getLastD l = (List.replicate (n + 1) c).getLastD c := rfl
    rw [this, ih]

theorem pairwise_cons_replicate (a c n : Nat) (h : a ≤ c) :
    (a :: List.replicate n c).Pairwise (· ≤ ·) := by
  rw [List.pairwise_cons]
  refine ⟨fun x hx => ?_, ?_⟩
  · rw [List.eq_of_mem_replicate hx]; exact h
  · rw [List.pairwise_replicate]; right; exact le_refl _

/-! Auxiliary facts: the shared code -/

section common_facts

variable {τ : Type}

theorem tap_all_cons (P : tt_platform τ) (s : tempo_tapper τ) (t : τ) (ts : List τ) :
    tap_all P s (t :: ts) = tap_all P (tt_tap P t s) ts := rfl

theorem tap_all_append (P : tt_platform τ) (s : tempo_tapper τ) (ts us : List τ) :
    tap_all P s (ts ++ us) = tap_all P (tap_all P s ts) us := by
  simp [tap_all, List.foldl_append]

theorem fresh_taps (P : tt_platform τ) (s : tempo_tapper τ) (h : fresh P s) : s.taps = -1 := by
  rcases h with ⟨mem, h⟩ | ⟨s0, h⟩
  · cases mem with
    | none => simp [tt_new] at h
    | some m => simp only [tt_new, Option.some.injEq] at h; rw [← h]; rfl
  · rw [h]; rfl

theorem fresh_prd_sum (P : tt_platform τ) (s : tempo_tapper τ) (h : fresh P s) :
    ∃ x, s.prd_sum = P.reset_time x := by
  rcases h with ⟨mem, h⟩ | ⟨s0, h⟩
  · cases mem with
    | none => simp [tt_new] at h
    | some m => simp only [tt_new, Option.some.injEq] at h; exact ⟨m.prd_sum, by rw [← h]; rfl⟩
  · exact ⟨s0.prd_sum, by rw [h]; rfl⟩

theorem period_zero_of_taps (P : tt_platform τ) (s : tempo_tapper τ) (h : s.taps < 1) :
    tt_period_us P s = 0 := by
  simp [tt_period_us, h]

theorem bpm_zero_of_period (P : tt_platform τ) (s : tempo_tapper τ)
    (h : tt_period_us P s = 0) : tt_bpm P s = 0 := by
  simp [tt_bpm, h]

theorem bpm_of_period (P : tt_platform τ) (s : tempo_tapper τ)
    (h : tt_period_us P s ≠ 0) : tt_bpm P s = 60000000 / (tt_period_us P s : ℚ) := by
  simp only [tt_bpm, h, if_false, S_TO_US]
  norm_num

theorem tt_tap_of_nonneg (P : tt_platform τ) (s : tempo_tapper τ) (t : τ) (h0 : 0 ≤ s.taps)
    (hmax : s.taps + 1 ≤ INT_MAX P.int_bits) :
    tt_tap P t s =
      { prd_sum := P.add_time s.prd_sum (P.sub_time t s.lst_t), lst_t := t,
        taps := s.taps + 1 } := by
  simp [tt_tap, h0, int_wrap_succ _ _ h0 hmax]

theorem tap_all_of_nonneg (P : tt_platform τ) (ts : List τ) :
    ∀ s : tempo_tapper τ, 0 ≤ s.taps → s.taps + ts.length ≤ INT_MAX P.int_bits →
      tap_all P s ts =
        { prd_sum := accumulate P s.prd_sum s.lst_t ts
          lst_t := ts.getLastD s.lst_t
          taps := s.taps + ts.length } := by
  induction ts with
  | nil => intro s _ _; simp [tap_all, accumulate]
  | cons t ts ih =>
    intro s h0 hmax
    have hlen : ((t :: ts).length : Int) = (ts.length : Int) + 1 := by simp
    rw [tap_all_cons, tt_tap_of_nonneg P s t h0 (by omega),
      ih _ (by simp; omega) (by simp; omega)]
    simp only [accumulate, getLastD_cons_eq, tempo_tapper.mk.injEq, true_and]
    omega

theorem tt_tap_fresh (P : tt_platform τ) (s : tempo_tapper τ) (h : fresh P s) (t : τ)
    (hb : 1 ≤ P.int_bits) :
    tt_tap P t s = { prd_sum := s.prd_sum, lst_t := t, taps := 0 } := by
  have ht := fresh_taps P s h
  simp [tt_tap, ht, int_wrap_zero _ hb]

theorem tap_all_fresh (P : tt_platform τ) (s : tempo_tapper τ) (h : fresh P s) (t : τ)
    (rest : List τ) (h1 : 1 ≤ rest.length) (hmax : (rest.length : Int) ≤ INT_MAX P.int_bits) :
    tap_all P s (t :: rest) =
      { prd_sum := accumulate P s.prd_sum t rest
        lst_t := rest.getLastD t
        taps := rest.length } := by
  have hb : 2 ≤ P.int_bits := int_max_pos_bits _ (by omega)
  rw [tap_all_cons, tt_tap_fresh P s h t (by omega),
    tap_all_of_nonneg P rest _ (by simp) (by simpa using hmax)]
  simp

theorem tap_all_taps (P : tt_platform τ) (ts : List τ) :
    ∀ s : tempo_tapper τ, ts ≠ [] →
      (tap_all P s ts).taps = int_wrap P.int_bits (s.taps + ts.length) := by
  induction ts with
  | nil => intro s h; exact absurd rfl h
  | cons t ts ih =>
    intro s _
    rw [tap_all_cons]
    by_cases hts : ts = []
    · subst hts
      simp [tap_all, tt_tap]
    · rw [ih _ hts]
      simp only [tt_tap, List.length_cons]
      rw [int_wrap_add]
      congr 1
      push_cast
      ring

theorem period_zero_of_wrapped (P : tt_platform τ) (s : tempo_tapper τ)
    (hf : fresh P s) (ts : List τ) (hb : 1 ≤ P.int_bits)
    (hlen : (ts.length : Int) = 2 ^ (P.int_bits - 1) + 1) :
    (tap_all P s ts).taps = -2 ^ (P.int_bits - 1) ∧ tt_period_us P (tap_all P s ts) = 0 := by
  have hne : ts ≠ [] := by
    rintro rfl
    have : (0 : Int) < 2 ^ (P.int_bits - 1) := by positivity
    simp at hlen
    omega
  have ht : (tap_all P s ts).taps = -2 ^ (P.int_bits - 1) := by
    rw [tap_all_taps P ts s hne, fresh_taps P s hf, hlen]
    have e : (-1 : Int) + (2 ^ (P.int_bits - 1) + 1) = 2 ^ (P.int_bits - 1) := by ring
    rw [e, int_wrap_half _ hb]
  refine ⟨ht, period_zero_of_taps P _ ?_⟩
  rw [ht]
  have : (0 : Int) < 2 ^ (P.int_bits - 1) := by positivity
  omega

end common_facts

/-! Auxiliary facts: the Arduino adapter -/

namespace arduino

theorem sub_time_of_le (w a b : Nat) (hba : b ≤ a) (ha : a < 2 ^ w) :
    sub_time w a b = a - b := by
  unfold sub_time
  have hb : b % 2 ^ w = b := Nat.mod_eq_of_lt (by omega)
  have key : a + (2 ^ w - b) = (a - b) + 2 ^ w := by omega
  rw [hb, key, Nat.add_mod_right, Nat.mod_eq_of_lt (by omega)]

theorem add_time_of_lt (w a b : Nat) (h : a + b < 2 ^ w) : add_time w a b = a + b := by
  unfold add_time
  exact Nat.mod_eq_of_lt h

theorem le_getLastD (l : Nat) (ts : List Nat) (hs : (l :: ts).Pairwise (· ≤ ·)) :
    l ≤ ts.getLastD l := by
  rcases List.mem_cons.mp (getLastD_mem l ts) with h | h
  · omega
  · exact (List.pairwise_cons.mp hs).1 _ h

theorem intervals_sum_ticks (ts : List Nat) :
    ∀ l : Nat, (l :: ts).Pairwise (· ≤ ·) → (intervals (l :: ts)).sum + l = ts.getLastD l := by
  induction ts with
  | nil => intro l _; simp [intervals, List.getLastD]
  | cons t ts ih =>
    intro l hs
    have hlt : l ≤ t := (List.pairwise_cons.mp hs).1 t (List.mem_cons_self _ _)
    have := ih t (List.pairwise_cons.mp hs).2
    simp only [intervals, List.sum_cons, getLastD_cons_eq]
    omega

theorem intervals_sum_replicate (a c n : Nat) (h : a ≤ c) (hn : 0 < n) :
    (intervals (a :: List.replicate n c)).sum = c - a := by
  obtain ⟨k, rfl⟩ : ∃ k, n = k + 1 := ⟨n - 1, by omega⟩
  have hs := intervals_sum_ticks (List.replicate (k + 1) c) a (pairwise_cons_replicate a c _ h)
  rw [getLastD_replicate] at hs
  omega

theorem accumulate_eq (w iw : Nat) (ts : List Nat) :
    ∀ p l : Nat, (∀ t ∈ ts, t < 2 ^ w) → (l :: ts).Pairwise (· ≤ ·) →
      p + (ts.getLastD l - l) < 2 ^ w →
      accumulate (target w iw) p l ts = p + (ts.getLastD l - l) := by
  induction ts with
  | nil => intro p l _ _ _; simp [accumulate, List.getLastD]
  | cons t ts ih =>
    intro p l hw hs hsum
    have hs2 := (List.pairwise_cons.mp hs).2
    have hlt : l ≤ t := (List.pairwise_cons.mp hs).1 t (List.mem_cons_self _ _)
    have htl : t ≤ ts.getLastD t := le_getLastD t ts hs2
    have ht : t < 2 ^ w := hw t (List.mem_cons_self _ _)
    rw [getLastD_cons_eq] at hsum ⊢
    have hsub : (target w iw).sub_time t l = t - l := sub_time_of_le w t l hlt ht
    have hadd : (target w iw).add_time p (t - l) = p + (t - l) :=
      add_time_of_lt w p (t - l) (by omega)
    simp only [accumulate, hsub, hadd]
    rw [ih (p + (t - l)) t (fun x hx => hw x (List.mem_cons_of_mem _ hx)) hs2 (by omega)]
    omega

theorem period_after_taps_ticks (w iw : Nat) (s : tempo_tapper Nat)
    (hf : fresh (target w iw) s) (ts : List Nat) (hN : 2 ≤ ts.length)
    (hmax : (ts.length : Int) - 1 ≤ INT_MAX iw) (hw : ∀ t ∈ ts, t < 2 ^ w)
    (hs : ts.Pairwise (· ≤ ·)) :
    tt_period_us (target w iw) (tap_all (target w iw) s ts) =
      (intervals ts).sum / (ts.length - 1) := by
  match ts, hN with
  | t :: rest, hN =>
    have h1 : 1 ≤ rest.length := by simpa using hN
    have hlen : ((t :: rest).length : Int) = rest.length + 1 := by simp
    rw [tap_all_fresh _ s hf t rest h1 (by rw [hlen] at hmax; simpa using hmax)]
    obtain ⟨x, hx⟩ := fresh_prd_sum _ s hf
    have hp : s.prd_sum = 0 := by rw [hx]; rfl
    have hsum := intervals_sum_ticks rest t hs
    have hlast : rest.getLastD t < 2 ^ w := hw _ (getLastD_mem t rest)
    have hacc := accumulate_eq w iw rest 0 t
      (fun y hy => hw y (List.mem_cons_of_mem _ hy)) hs (by omega)
    have hnot : ¬ ((rest.length : Int) < 1) := by omega
    simp only [tt_period_us, hp, hacc, hnot, if_false, Int.toNat_ofNat, List.length_cons,
      Nat.add_sub_cancel]
    have : (intervals (t :: rest)).sum = rest.getLastD t - t := by omega
    rw [this]
    simp [target, time_to_us]

theorem spaced_le_ticks (d : Nat) (ts : List Nat) :
    ∀ l : Nat, spaced d (l :: ts) → ∀ x ∈ ts, l ≤ x := by
  induction ts with
  | nil => intro l _ x hx; simp at hx
  | cons t ts ih =>
    intro l h x hx
    obtain ⟨h1, h2⟩ := h
    rcases List.mem_cons.mp hx with e | e
    · omega
    · have := ih t h2 x e
      omega

theorem spaced_pairwise_ticks (d : Nat) (ts : List Nat) (h : spaced d ts) :
    ts.Pairwise (· ≤ ·) := by
  induction ts with
  | nil => exact List.Pairwise.nil
  | cons t ts ih =>
    rw [List.pairwise_cons]
    refine ⟨spaced_le_ticks d ts t h, ih ?_⟩
    cases ts with
    | nil => trivial
    | cons u us => exact h.2

theorem spaced_intervals_sum_ticks (d : Nat) (ts : List Nat) (h : spaced d ts) :
    (intervals ts).sum = (ts.length - 1) * d := by
  induction ts with
  | nil => simp [intervals]
  | cons t ts ih =>
    cases ts with
    | nil => simp [intervals]
    | cons u us =>
      obtain ⟨h1, h2⟩ := h
      have := ih h2
      simp only [intervals, List.sum_cons, List.length_cons, Nat.add_sub_cancel] at this ⊢
      rw [this, h1]
      have e : t + d - t = d := by omega
      rw [e]
      ring

theorem spaced_range (d n : Nat) : ∀ a : Nat, spaced d (List.range' a n d) := by
  induction n with
  | zero => intro a; trivial
  | succ n ih =>
    intro a
    cases n with
    | zero => trivial
    | succ m =>
      have := ih (a + d)
      simp only [List.range'_succ] at this ⊢
      exact ⟨rfl, this⟩

end arduino

/-! Auxiliary facts: the POSIX adapter -/

namespace posix

theorem sub_time_exact (a b : timeval) (ha : normalised a) (hb : normalised b) :
    normalised (sub_time a b) ∧ usec_of (sub_time a b) = usec_of a - usec_of b := by
  unfold normalised at *
  unfold sub_time timersub usec_of S_TO_US
  by_cases h : a.tv_usec - b.tv_usec < 0
  · simp only [h, if_true]; constructor <;> [constructor; skip] <;> push_cast <;> omega
  · simp only [h, if_false]; constructor <;> [constructor; skip] <;> push_cast <;> omega

theorem add_time_exact (a b : timeval) (ha : normalised a) (hb : normalised b) :
    normalised (add_time a b) ∧ usec_of (add_time a b) = usec_of a + usec_of b := by
  unfold normalised at *
  unfold add_time timeradd usec_of S_TO_US
  by_cases h : a.tv_usec + b.tv_usec ≥ 1000000
  · simp only [h, if_true]; constructor <;> [constructor; skip] <;> push_cast <;> omega
  · simp only [h, if_false]; constructor <;> [constructor; skip] <;> push_cast <;> omega

theorem normalised_zero : normalised ⟨0, 0⟩ := by
  unfold normalised; simp

theorem usec_of_zero : usec_of ⟨0, 0⟩ = 0 := by
  simp [usec_of]

theorem accumulate_exact (W iw : Nat) (ts : List timeval) :
    ∀ p l : timeval, normalised p → normalised l → (∀ t ∈ ts, normalised t) →
      normalised (accumulate (target W iw) p l ts) ∧
      usec_of (accumulate (target W iw) p l ts) =
        usec_of p + (usec_of (ts.getLastD l) - usec_of l) := by
  induction ts with
  | nil => intro p l hp _ _; simp [accumulate, List.getLastD, hp]
  | cons t ts ih =>
    intro p l hp hl hn
    have ht : normalised t := hn t (List.mem_cons_self _ _)
    have hsub := sub_time_exact t l ht hl
    have hadd := add_time_exact p (sub_time t l) hp hsub.1
    have := ih (add_time p (sub_time t l)) t hadd.1 ht
      (fun x hx => hn x (List.mem_cons_of_mem _ hx))
    simp only [accumulate, getLastD_cons_eq]
    refine ⟨this.1, ?_⟩
    have e := this.2
    simp only [target] at e ⊢
    rw [e, hadd.2, hsub.2]
    omega

theorem time_to_us_of_lt (W : Nat) (t : timeval) (h0 : 0 ≤ usec_of t) (h : usec_of t < 2 ^ W) :
    (time_to_us W t : Int) = usec_of t := by
  unfold time_to_us
  unfold usec_of at h0 h
  rw [Int.emod_eq_of_lt h0 h, Int.toNat_of_nonneg h0]
  rfl

theorem intervals_sum_tv (ts : List timeval) :
    ∀ l : timeval, (l :: ts).Pairwise not_before →
      ((intervals (l :: ts)).sum : Int) = usec_of (ts.getLastD l) - usec_of l := by
  induction ts with
  | nil => intro l _; simp [intervals, List.getLastD]
  | cons t ts ih =>
    intro l hs
    have hlt : usec_of l ≤ usec_of t := (List.pairwise_cons.mp hs).1 t (List.mem_cons_self _ _)
    have := ih t (List.pairwise_cons.mp hs).2
    simp only [intervals, List.sum_cons, getLastD_cons_eq]
    rw [Nat.cast_add, this, Int.toNat_of_nonneg (by omega)]
    omega

theorem period_after_taps_tv (W iw : Nat) (s : tempo_tapper timeval)
    (hf : fresh (target W iw) s) (ts : List timeval) (hN : 2 ≤ ts.length)
    (hmax : (ts.length : Int) - 1 ≤ INT_MAX iw) (hn : ∀ t ∈ ts, normalised t)
    (hs : ts.Pairwise not_before) (hW : ((intervals ts).sum : Int) < 2 ^ W) :
    tt_period_us (target W iw) (tap_all (target W iw) s ts) =
      (intervals ts).sum / (ts.length - 1) := by
  match ts, hN with
  | t :: rest, hN =>
    have h1 : 1 ≤ rest.length := by simpa using hN
    have hlen : ((t :: rest).length : Int) = rest.length + 1 := by simp
    rw [tap_all_fresh _ s hf t rest h1 (by rw [hlen] at hmax; simpa using hmax)]
    obtain ⟨x, hx⟩ := fresh_prd_sum _ s hf
    have hp : s.prd_sum = ⟨0, 0⟩ := by rw [hx]; rfl
    have hsum := intervals_sum_tv rest t hs
    have hacc := accumulate_exact W iw rest ⟨0, 0⟩ t normalised_zero
      (hn t (List.mem_cons_self _ _)) (fun y hy => hn y (List.mem_cons_of_mem _ hy))
    have hval : usec_of (accumulate (target W iw) ⟨0, 0⟩ t rest) =
        ((intervals (t :: rest)).sum : Int) := by
      rw [hacc.2, hsum, usec_of_zero]; omega
    have hto := time_to_us_of_lt W (accumulate (target W iw) ⟨0, 0⟩ t rest)
      (by rw [hval]; exact Int.natCast_nonneg _) (by rw [hval]; exact hW)
    rw [hval] at hto
    have hto2 : time_to_us W (accumulate (target W iw) ⟨0, 0⟩ t rest) =
        (intervals (t :: rest)).sum := by exact_mod_cast hto
    have hnot : ¬ ((rest.length : Int) < 1) := by omega
    simp only [tt_period_us, hp, hnot, if_false, Int.toNat_ofNat, List.length_cons,
      Nat.add_sub_cancel]
    show time_to_us W _ / _ = _
    rw [hto2]

theorem spaced_le_tv (d : Nat) (ts : List timeval) :
    ∀ l : timeval, spaced d (l :: ts) → ∀ x ∈ ts, not_before l x := by
  induction ts with
  | nil => intro l _ x hx; simp at hx
  | cons t ts ih =>
    intro l h x hx
    obtain ⟨h1, h2⟩ := h
    unfold not_before
    rcases List.mem_cons.mp hx with e | e
    · rw [e]; omega
    · have := ih t h2 x e
      unfold not_before at this
      omega

theorem spaced_pairwise_tv (d : Nat) (ts : List timeval) (h : spaced d ts) :
    ts.Pairwise not_before := by
  induction ts with
  | nil => exact List.Pairwise.nil
  | cons t ts ih =>
    rw [List.pairwise_cons]
    refine ⟨spaced_le_tv d ts t h, ih ?_⟩
    cases ts with
    | nil => trivial
    | cons u us => exact h.2

theorem spaced_intervals_sum_tv (d : Nat) (ts : List timeval) (h : spaced d ts) :
    (intervals ts).sum = (ts.length - 1) * d := by
  induction ts with
  | nil => simp [intervals]
  | cons t ts ih =>
    cases ts with
    | nil => simp [intervals]
    | cons u us =>
      obtain ⟨h1, h2⟩ := h
      have := ih h2
      simp only [intervals, List.sum_cons, List.length_cons, Nat.add_sub_cancel] at this ⊢
      rw [this, h1]
      have e : (usec_of t + (d : Int) - usec_of t).toNat = d := by
        have : usec_of t + (d : Int) - usec_of t = (d : Int) := by ring
        rw [this]; exact Int.toNat_ofNat d
      rw [e]
      ring

end posix

/-! Auxiliary facts: fresh instances and taps at a constant interval -/

section fresh_facts

variable {τ : Type}

theorem fresh_of_new (P : tt_platform τ) (mem : Option (tempo_tapper τ)) (s : tempo_tapper τ)
    (h : tt_new P mem = some s) : fresh P s :=
  Or.inl ⟨mem, h⟩

theorem fresh_reset (P : tt_platform τ) (s : tempo_tapper τ) : fresh P (tt_reset P s) :=
  Or.inr ⟨s, rfl⟩

theorem queries_fresh (P : tt_platform τ) (s : tempo_tapper τ) (h : fresh P s) :
    tt_period_us P s = 0 ∧ tt_bpm P s = 0 := by
  have hp : tt_period_us P s = 0 :=
    period_zero_of_taps P s (by rw [fresh_taps P s h]; decide)
  exact ⟨hp, bpm_zero_of_period P s hp⟩

theorem queries_tap_fresh (P : tt_platform τ) (s : tempo_tapper τ) (h : fresh P s) (t : τ) :
    tt_period_us P (tt_tap P t s) = 0 ∧ tt_bpm P (tt_tap P t s) = 0 := by
  have ht : (tt_tap P t s).taps < 1 := by
    simp only [tt_tap, fresh_taps P s h]
    exact int_wrap_zero_lt_one _
  have hp := period_zero_of_taps P _ ht
  exact ⟨hp, bpm_zero_of_period P _ hp⟩

theorem tt_tap_fresh_eq (P : tt_platform τ) (hc : ∀ x y, P.reset_time x = P.reset_time y)
    (a b : tempo_tapper τ) (ha : fresh P a) (hb : fresh P b) (t : τ) :
    tt_tap P t a = tt_tap P t b := by
  obtain ⟨x, hx⟩ := fresh_prd_sum P a ha
  obtain ⟨y, hy⟩ := fresh_prd_sum P b hb
  simp [tt_tap, fresh_taps P a ha, fresh_taps P b hb, hx, hy, hc x y]

theorem queries_fresh_eq (P : tt_platform τ) (hc : ∀ x y, P.reset_time x = P.reset_time y)
    (a b : tempo_tapper τ) (ha : fresh P a) (hb : fresh P b) (ts : List τ) :
    tt_period_us P (tap_all P a ts) = tt_period_us P (tap_all P b ts) ∧
    tt_bpm P (tap_all P a ts) = tt_bpm P (tap_all P b ts) := by
  cases ts with
  | nil =>
    have h1 := queries_fresh P a ha
    have h2 := queries_fresh P b hb
    exact ⟨by rw [show tap_all P a [] = a from rfl, show tap_all P b [] = b from rfl, h1.1, h2.1],
      by rw [show tap_all P a [] = a from rfl, show tap_all P b [] = b from rfl, h1.2, h2.2]⟩
  | cons t rest =>
    rw [tap_all_cons, tap_all_cons, tt_tap_fresh_eq P hc a b ha hb t]
    exact ⟨rfl, rfl⟩

theorem queries_fresh_short (P : tt_platform τ) (s : tempo_tapper τ) (h : fresh P s)
    (ts : List τ) (hlen : ts.length < 2) :
    tt_period_us P (tap_all P s ts) = 0 ∧ tt_bpm P (tap_all P s ts) = 0 := by
  match ts, hlen with
  | [], _ => exact queries_fresh P s h
  | [t], _ => exact queries_tap_fresh P s h t

theorem period_checked_eq (P : tt_platform τ) (s : tempo_tapper τ) :
    tt_period_us_checked P s = some (tt_period_us P s) := by
  unfold tt_period_us_checked tt_period_us udiv
  by_cases h : s.taps < 1
  · simp [h]
  · have : s.taps.toNat ≠ 0 := by omega
    simp [h, this]

theorem bpm_checked_eq (P : tt_platform τ) (s : tempo_tapper τ) :
    tt_bpm_checked P s = some (tt_bpm P s) := by
  unfold tt_bpm_checked tt_bpm fdiv
  rw [period_checked_eq]
  by_cases h : tt_period_us P s = 0
  · simp [h]
  · have : ((tt_period_us P s : Nat) : ℚ) ≠ 0 := by exact_mod_cast h
    simp [h, this]

theorem on_prd_sum_run {α : Type} (callee : StateM τ α) (f : τ → α)
    (h : ∀ t, callee.run t = (f t, t)) (s : tempo_tapper τ) :
    (on_prd_sum callee).run s = (f s.prd_sum, s) := by
  have := h s.prd_sum
  simp only [StateT.run] at this
  simp [on_prd_sum, StateT.run, this]

theorem tt_period_us_call_run (P : tt_platform τ) (time_to_us_call : StateM τ Nat)
    (h : ∀ t, time_to_us_call.run t = (P.time_to_us t, t)) (s : tempo_tapper τ) :
    (tt_period_us_call time_to_us_call).run s = (tt_period_us P s, s) := by
  have hc := on_prd_sum_run time_to_us_call P.time_to_us h s
  simp only [StateT.run] at hc
  unfold tt_period_us_call tt_period_us
  by_cases h1 : s.taps < 1
  · simp [h1, StateT.run, bind, StateT.bind, get, getThe, MonadStateOf.get, StateT.get, pure,
      StateT.pure]
  · simp [h1, hc, StateT.run, bind, StateT.bind, get, getThe, MonadStateOf.get, StateT.get,
      pure, StateT.pure]

theorem tt_bpm_call_run (P : tt_platform τ) (time_to_us_call : StateM τ Nat)
    (h : ∀ t, time_to_us_call.run t = (P.time_to_us t, t)) (s : tempo_tapper τ) :
    (tt_bpm_call time_to_us_call).run s = (tt_bpm P s, s) := by
  have hp := tt_period_us_call_run P time_to_us_call h s
  simp only [StateT.run] at hp
  unfold tt_bpm_call tt_bpm
  by_cases h0 : tt_period_us P s = 0
  · simp [h0, hp, StateT.run, bind, StateT.bind, pure, StateT.pure]
  · simp [h0, hp, StateT.run, bind, StateT.bind, pure, StateT.pure]

theorem tt_reset_call_run (P : tt_platform τ) (reset_time_call : StateM τ Unit)
    (h : ∀ t, reset_time_call.run t = ((), P.reset_time t)) (s : tempo_tapper τ) :
    (tt_reset_call reset_time_call).run s = ((), tt_reset P s) := by
  have hr := h s.prd_sum
  simp only [StateT.run] at hr
  unfold tt_reset_call tt_reset on_prd_sum
  simp [StateT.run, bind, StateT.bind, modify, modifyGet, MonadStateOf.modifyGet,
    StateT.modifyGet, hr]

theorem call_query_run (P : tt_platform τ) (time_to_us_call : StateM τ Nat)
    (h : ∀ t, time_to_us_call.run t = (P.time_to_us t, t)) (s : tempo_tapper τ)
    (q : tt_query) :
    (call_query time_to_us_call q).run s =
      (match q with
        | tt_query.period_us => ((tt_period_us P s : Nat) : ℚ)
        | tt_query.bpm => tt_bpm P s, s) := by
  cases q
  · have hp := tt_period_us_call_run P time_to_us_call h s
    simp only [StateT.run] at hp
    simp [call_query, hp, StateT.run, bind, StateT.bind, pure, StateT.pure]
  · exact tt_bpm_call_run P time_to_us_call h s

theorem call_queries_run (P : tt_platform τ) (time_to_us_call : StateM τ Nat)
    (h : ∀ t, time_to_us_call.run t = (P.time_to_us t, t)) (s : tempo_tapper τ)
    (qs : List tt_query) :
    (call_queries time_to_us_call qs).run s =
      (qs.map (fun q => ((call_query time_to_us_call q).run s).1), s) := by
  induction qs with
  | nil => rfl
  | cons q qs ih =>
    have hq := call_query_run P time_to_us_call h s q
    simp only [StateT.run] at hq ih
    simp [call_queries, hq, ih, StateT.run, bind, StateT.bind, pure, StateT.pure]

theorem arduino.time_to_us_call_run_ticks (t : Nat) :
    arduino.time_to_us_call.run t = (arduino.time_to_us t, t) := rfl

theorem posix.time_to_us_call_run_tv (W : Nat) (t : timeval) :
    (posix.time_to_us_call W).run t = (posix.time_to_us W t, t) := rfl

theorem arduino.reset_time_call_run_ticks (t : Nat) :
    arduino.reset_time_call.run t = ((), arduino.reset_time t) := rfl

theorem posix.reset_time_call_run_tv (t : timeval) :
    posix.reset_time_call.run t = ((), posix.reset_time t) := rfl

/-- A call of tt_reset does write the struct: the embedding of calls sees the writes of
a body that has some, in the function itself and in the adapter function it calls. -/
theorem tt_reset_call_writes :
    ((tt_reset_call arduino.reset_time_call).run ⟨900, 77, 3⟩).2 = ⟨0, 77, -1⟩ ∧
    ((on_prd_sum arduino.reset_time_call).run ⟨900, 77, 3⟩).2 = ⟨0, 77, 3⟩ ∧
    ((tt_reset_call posix.reset_time_call).run ⟨⟨9, 1⟩, ⟨7, 7⟩, 3⟩).2 =
      ⟨⟨0, 0⟩, ⟨7, 7⟩, -1⟩ := by
  refine ⟨?_, ?_, ?_⟩
  · rw [tt_reset_call_run (arduino.target 32 16) _ arduino.reset_time_call_run_ticks]
    rfl
  · rfl
  · rw [tt_reset_call_run (posix.target 64 32) _ posix.reset_time_call_run_tv]
    rfl

end fresh_facts

theorem arduino.period_spaced_ticks (w iw : Nat) (s : tempo_tapper Nat)
    (hf : fresh (arduino.target w iw) s) (ts : List Nat) (d : Nat) (hN : 2 ≤ ts.length)
    (hmax : (ts.length : Int) - 1 ≤ INT_MAX iw) (hw : ∀ t ∈ ts, t < 2 ^ w)
    (hsp : arduino.spaced d ts) :
    tt_period_us (arduino.target w iw) (tap_all (arduino.target w iw) s ts) = d := by
  rw [arduino.period_after_taps_ticks w iw s hf ts hN hmax hw (arduino.spaced_pairwise_ticks d ts hsp),
    arduino.spaced_intervals_sum_ticks d ts hsp]
  exact Nat.mul_div_cancel_left d (by omega)

theorem posix.period_spaced_tv (W iw : Nat) (s : tempo_tapper timeval)
    (hf : fresh (posix.target W iw) s) (ts : List timeval) (d : Nat) (hN : 2 ≤ ts.length)
    (hmax : (ts.length : Int) - 1 ≤ INT_MAX iw) (hn : ∀ t ∈ ts, posix.normalised t)
    (hsp : posix.spaced d ts) (hW : (((ts.length - 1) * d : Nat) : Int) < 2 ^ W) :
    tt_period_us (posix.target W iw) (tap_all (posix.target W iw) s ts) = d := by
  rw [posix.period_after_taps_tv W iw s hf ts hN hmax hn (posix.spaced_pairwise_tv d ts hsp)
      (by rw [posix.spaced_intervals_sum_tv d ts hsp]; exact hW),
    posix.spaced_intervals_sum_tv d ts hsp]
  exact Nat.mul_div_cancel_left d (by omega)

/-! Auxiliary facts: taps that all fall on one clock reading -/

theorem arduino.same_reading_sum_ticks (w iw : Nat) (t : Nat) (ht : t < 2 ^ w) (n : Nat) :
    ∀ s : tempo_tapper Nat, s.prd_sum = 0 → (0 ≤ s.taps → s.lst_t = t) →
      (tap_all (arduino.target w iw) s (List.replicate n t)).prd_sum = 0 := by
  induction n with
  | zero => intro s h _; exact h
  | succ n ih =>
    intro s h0 hl
    rw [List.replicate_succ, tap_all_cons]
    apply ih
    · by_cases hc : 0 ≤ s.taps
      · have e : arduino.sub_time w t t = 0 := by
          rw [arduino.sub_time_of_le w t t (le_refl t) ht]; omega
        have e2 : arduino.add_time w 0 0 = 0 := by simp [arduino.add_time]
        simp only [tt_tap, hc, ge_iff_le, if_true, hl hc, h0]
        show arduino.add_time w 0 (arduino.sub_time w t t) = 0
        rw [e, e2]
      · simp only [tt_tap, ge_iff_le, hc, if_false, h0]
    · intro _; rfl

theorem posix.same_reading_sum_tv (W iw : Nat) (t : timeval) (n : Nat) :
    ∀ s : tempo_tapper timeval, s.prd_sum = ⟨0, 0⟩ → (0 ≤ s.taps → s.lst_t = t) →
      (tap_all (posix.target W iw) s (List.replicate n t)).prd_sum = ⟨0, 0⟩ := by
  induction n with
  | zero => intro s h _; exact h
  | succ n ih =>
    intro s h0 hl
    rw [List.replicate_succ, tap_all_cons]
    apply ih
    · by_cases hc : 0 ≤ s.taps
      · have e : posix.sub_time t t = ⟨0, 0⟩ := by
          simp [posix.sub_time, timersub]
        have e2 : posix.add_time ⟨0, 0⟩ ⟨0, 0⟩ = ⟨0, 0⟩ := by
          simp [posix.add_time, timeradd]
        simp only [tt_tap, hc, ge_iff_le, if_true, hl hc, h0]
        show posix.add_time ⟨0, 0⟩ (posix.sub_time t t) = ⟨0, 0⟩
        rw [e, e2]
      · simp only [tt_tap, ge_iff_le, hc, if_false, h0]
    · intro _; rfl

theorem queries_zero_of_sum_lt {τ : Type} (P : tt_platform τ) (s : tempo_tapper τ)
    (h : (P.time_to_us s.prd_sum : Int) < s.taps) :
    tt_period_us P s = 0 ∧ tt_bpm P s = 0 := by
  have hp : tt_period_us P s = 0 := by
    unfold tt_period_us
    by_cases hc : s.taps < 1
    · simp [hc]
    · simp only [hc, if_false]
      exact Nat.div_eq_of_lt (by omega)
  exact ⟨hp, bpm_zero_of_period P s hp⟩

theorem queries_zero_of_sum_zero {τ : Type} (P : tt_platform τ) (s : tempo_tapper τ)
    (h : P.time_to_us s.prd_sum = 0) :
    tt_period_us P s = 0 ∧ tt_bpm P s = 0 := by
  have hp : tt_period_us P s = 0 := by
    unfold tt_period_us
    by_cases hc : s.taps < 1
    · simp [hc]
    · simp [hc, h]
  exact ⟨hp, bpm_zero_of_period P s hp⟩

theorem period_bounds {τ : Type} (P : tt_platform τ) (s : tempo_tapper τ) (h : 1 ≤ s.taps) :
    tt_period_us P s = P.time_to_us s.prd_sum / s.taps.toNat ∧
    (tt_period_us P s : Int) * s.taps ≤ P.time_to_us s.prd_sum ∧
    (P.time_to_us s.prd_sum : Int) < ((tt_period_us P s : Int) + 1) * s.taps := by
  have hc : ¬ s.taps < 1 := by omega
  have hp : tt_period_us P s = P.time_to_us s.prd_sum / s.taps.toNat := by
    simp [tt_period_us, hc]
  obtain ⟨n, hn⟩ : ∃ n : Nat, s.taps = n := ⟨s.taps.toNat, by omega⟩
  have hn0 : 0 < n := by omega
  rw [hp, hn, Int.toNat_ofNat]
  refine ⟨rfl, ?_, ?_⟩
  · exact_mod_cast Nat.div_mul_le_self _ n
  · exact_mod_cast (Nat.div_lt_iff_lt_mul hn0).mp (Nat.lt_succ_self _)

/-! Auxiliary facts: the tick counter across a wrap -/

theorem arduino.sub_time_across_wrap (w elapsed0 e : Nat) (he : e < 2 ^ w) :
    arduino.sub_time w (arduino.current_time w (elapsed0 + e))
      (arduino.current_time w elapsed0) = e := by
  unfold arduino.sub_time arduino.current_time arduino.micros
  have hM : 0 < 2 ^ w := by positivity
  have hr : elapsed0 % 2 ^ w < 2 ^ w := Nat.mod_lt _ hM
  have hdiv := Nat.div_add_mod elapsed0 (2 ^ w)
  rw [Nat.mod_mod, Nat.mod_add_mod]
  have key : elapsed0 + e + (2 ^ w - elapsed0 % 2 ^ w) =
      e + 2 ^ w * (elapsed0 / 2 ^ w + 1) := by
    rw [Nat.mul_add, Nat.mul_one]
    omega
  rw [key, Nat.add_mul_mod_self_left, Nat.mod_eq_of_lt he]

theorem arduino.bpm_two_taps_wrapped (w iw : Nat) (s : tempo_tapper Nat)
    (hf : fresh (arduino.target w iw) s) (T d : Nat) (hd : 1 ≤ d) (hw : d < 2 ^ w)
    (hmax : 1 ≤ INT_MAX iw) :
    tt_period_us (arduino.target w iw) (tap_all (arduino.target w iw) s
      [arduino.current_time w T, arduino.current_time w (T + d)]) = d ∧
    tt_bpm (arduino.target w iw) (tap_all (arduino.target w iw) s
      [arduino.current_time w T, arduino.current_time w (T + d)]) = 60000000 / (d : ℚ) := by
  obtain ⟨x, hx⟩ := fresh_prd_sum _ s hf
  have hs : s.prd_sum = 0 := hx
  have hp : tt_period_us (arduino.target w iw) (tap_all (arduino.target w iw) s
      [arduino.current_time w T, arduino.current_time w (T + d)]) = d := by
    rw [tap_all_fresh _ s hf _ [_] (le_refl 1) (by simpa using hmax)]
    simp only [accumulate, tt_period_us, List.length_singleton]
    show (if ((1 : Nat) : Int) < 1 then 0 else
      arduino.time_to_us (arduino.add_time w s.prd_sum (arduino.sub_time w _ _)) /
        (((1 : Nat) : Int)).toNat) = d
    rw [arduino.sub_time_across_wrap w T d hw, hs]
    simp [arduino.time_to_us, arduino.add_time, Nat.mod_eq_of_lt hw]
  refine ⟨hp, ?_⟩
  rw [bpm_of_period _ _ (by rw [hp]; omega), hp]

theorem arduino.bpm_two_taps_ticks (w iw : Nat) (s : tempo_tapper Nat)
    (hf : fresh (arduino.target w iw) s) (t d : Nat) (hd : 1 ≤ d) (hw : t + d < 2 ^ w)
    (hmax : 1 ≤ INT_MAX iw) :
    tt_period_us (arduino.target w iw) (tap_all (arduino.target w iw) s [t, t + d]) = d ∧
    tt_bpm (arduino.target w iw) (tap_all (arduino.target w iw) s [t, t + d]) =
      60000000 / (d : ℚ) := by
  have hp := arduino.period_spaced_ticks w iw s hf [t, t + d] d (le_refl 2)
    (by simpa using hmax)
    (by intro x hx; simp only [List.mem_cons, List.mem_singleton, List.not_mem_nil,
          or_false] at hx; omega)
    ⟨rfl, trivial⟩
  refine ⟨hp, ?_⟩
  rw [bpm_of_period _ _ (by rw [hp]; omega), hp]

theorem posix.bpm_two_taps_tv (W iw : Nat) (s : tempo_tapper timeval)
    (hf : fresh (posix.target W iw) s) (a b : timeval) (d : Nat) (hd : 1 ≤ d)
    (ha : posix.normalised a) (hb : posix.normalised b)
    (hab : posix.usec_of b = posix.usec_of a + d) (hW : (d : Int) < 2 ^ W)
    (hmax : 1 ≤ INT_MAX iw) :
    tt_period_us (posix.target W iw) (tap_all (posix.target W iw) s [a, b]) = d ∧
    tt_bpm (posix.target W iw) (tap_all (posix.target W iw) s [a, b]) =
      60000000 / (d : ℚ) := by
  have hp := posix.period_spaced_tv W iw s hf [a, b] d (le_refl 2)
    (by simpa using hmax)
    (by intro x hx; simp only [List.mem_cons, List.mem_singleton, List.not_mem_nil,
          or_false] at hx; rcases hx with e | e <;> rw [e] <;> assumption)
    ⟨hab, trivial⟩ (by simpa using hW)
  refine ⟨hp, ?_⟩
  rw [bpm_of_period _ _ (by rw [hp]; omega), hp]

/-! The claims -/

/-- Claim C1, amended: on both targets, after construct (or reset) followed by N taps
at non-decreasing clock readings, where 2 ≤ N and the counter stays within `int`
(N - 1 ≤ INT_MAX), tt_period_us returns the floor of (d1 + ... + d(N-1)) / (N - 1),
where di is the interval between reading i and reading i+1. On the POSIX target the sum
of the intervals has to fit `unsigned long`; on the Arduino target it always does. -/
theorem C1_period_is_truncated_mean :
    (∀ (w iw : Nat) (s : tempo_tapper Nat) (ts : List Nat),
      fresh (arduino.target w iw) s → 2 ≤ ts.length →
      (ts.length : Int) - 1 ≤ INT_MAX iw →
      (∀ t ∈ ts, t < 2 ^ w) → ts.Pairwise (· ≤ ·) →
      tt_period_us (arduino.target w iw) (tap_all (arduino.target w iw) s ts) =
        (arduino.intervals ts).sum / (ts.length - 1)) ∧
    (∀ (W iw : Nat) (s : tempo_tapper timeval) (ts : List timeval),
      fresh (posix.target W iw) s → 2 ≤ ts.length →
      (ts.length : Int) - 1 ≤ INT_MAX iw →
      (∀ t ∈ ts, posix.normalised t) → ts.Pairwise posix.not_before →
      ((posix.intervals ts).sum : Int) < 2 ^ W →
      tt_period_us (posix.target W iw) (tap_all (posix.target W iw) s ts) =
        (posix.intervals ts).sum / (ts.length - 1)) :=
  ⟨fun w iw s ts hf hN hmax hw hs => arduino.period_after_taps_ticks w iw s hf ts hN hmax hw hs,
   fun W iw s ts hf hN hmax hn hs hW => posix.period_after_taps_tv W iw s hf ts hN hmax hn hs hW⟩

/-- Witness for C1: three taps with intervals 1 and 2 give the period 1, not 2, on an
Arduino target (32-bit `unsigned long`, 16-bit `int`) and on a POSIX target (64-bit
`unsigned long`, 32-bit `int`), whatever the struct held before the reset. -/
theorem C1_period_is_truncated_mean_witness :
    tt_period_us (arduino.target 32 16)
        (tap_all (arduino.target 32 16) (tt_reset (arduino.target 32 16) ⟨7, 9, 4⟩)
          [10, 11, 13]) = (1 + 2) / 2 ∧
    tt_period_us (posix.target 64 32)
        (tap_all (posix.target 64 32) (tt_reset (posix.target 64 32) ⟨⟨7, 9⟩, ⟨1, 2⟩, 4⟩)
          [⟨5, 999999⟩, ⟨6, 0⟩, ⟨6, 2⟩]) = (1 + 2) / 2 :=
  ⟨C1_period_is_truncated_mean.1 32 16 (tt_reset (arduino.target 32 16) ⟨7, 9, 4⟩)
      [10, 11, 13] (Or.inr ⟨_, rfl⟩) (by decide) (by norm_num [INT_MAX]) (by decide)
      (by decide),
   C1_period_is_truncated_mean.2 64 32 (tt_reset (posix.target 64 32) ⟨⟨7, 9⟩, ⟨1, 2⟩, 4⟩)
      [⟨5, 999999⟩, ⟨6, 0⟩, ⟨6, 2⟩] (Or.inr ⟨_, rfl⟩) (by decide) (by norm_num [INT_MAX])
      (by decide) (by decide) (by decide)⟩

/-- Counterexample for C1 as stated (every N ≥ 2, every non-decreasing readings).
First, on a target with 32-bit `int` and 32-bit `unsigned long`, 2^31 + 1 taps at the
non-decreasing readings 0, 2^31, ..., 2^31 give intervals whose sum divided by N - 1
is 1, while the counter has left the range of `int` and tt_period_us returns 0.
Second, on a POSIX target with 32-bit `unsigned long`, three taps with two intervals
of 2^31 microseconds have the mean 2^31 = 2147483648, while the sum 2^32 does not fit
`unsigned long` and tt_period_us returns 0. -/
theorem C1_fails_beyond_machine_range :
    (2 ≤ (0 :: List.replicate (2 ^ 31) (2 ^ 31)).length ∧
      (∀ t ∈ 0 :: List.replicate (2 ^ 31) (2 ^ 31), t < 2 ^ 32) ∧
      (0 :: List.replicate (2 ^ 31) (2 ^ 31)).Pairwise (· ≤ ·) ∧
      tt_period_us (arduino.target 32 32)
          (tap_all (arduino.target 32 32) (tt_reset (arduino.target 32 32) ⟨0, 0, 0⟩)
            (0 :: List.replicate (2 ^ 31) (2 ^ 31))) = 0 ∧
      (arduino.intervals (0 :: List.replicate (2 ^ 31) (2 ^ 31))).sum /
          ((0 :: List.replicate (2 ^ 31) (2 ^ 31)).length - 1) = 1) ∧
    (2 ≤ [(⟨0, 0⟩ : timeval), ⟨2147, 483648⟩, ⟨4294, 967296⟩].length ∧
      (∀ t ∈ [(⟨0, 0⟩ : timeval), ⟨2147, 483648⟩, ⟨4294, 967296⟩], posix.normalised t) ∧
      [(⟨0, 0⟩ : timeval), ⟨2147, 483648⟩, ⟨4294, 967296⟩].Pairwise posix.not_before ∧
      tt_period_us (posix.target 32 32)
          (tap_all (posix.target 32 32) (tt_reset (posix.target 32 32) ⟨⟨0, 0⟩, ⟨0, 0⟩, 0⟩)
            [⟨0, 0⟩, ⟨2147, 483648⟩, ⟨4294, 967296⟩]) = 0 ∧
      (posix.intervals [⟨0, 0⟩, ⟨2147, 483648⟩, ⟨4294, 967296⟩]).sum /
          ([(⟨0, 0⟩ : timeval), ⟨2147, 483648⟩, ⟨4294, 967296⟩].length - 1) =
        2147483648) := by
  refine ⟨⟨?_, ?_, pairwise_cons_replicate 0 _ _ (Nat.zero_le _), ?_, ?_⟩, by decide⟩
  · rw [List.length_cons, List.length_replicate]; norm_num
  · intro t ht
    rcases List.mem_cons.mp ht with h | h
    · rw [h]; norm_num
    · rw [List.eq_of_mem_replicate h]; norm_num
  · refine (period_zero_of_wrapped (arduino.target 32 32) _ (Or.inr ⟨_, rfl⟩) _ ?_ ?_).2
    · show 1 ≤ 32
      norm_num
    · rw [List.length_cons, List.length_replicate]
      show ((2 ^ 31 + 1 : Nat) : Int) = 2 ^ (32 - 1) + 1
      norm_num
  · rw [arduino.intervals_sum_replicate 0 _ _ (Nat.zero_le _) (by norm_num),
      List.length_cons, List.length_replicate]
    norm_num

/-- Claim C2, amended: on both targets, after construct (or reset) followed by N taps
whose consecutive clock readings are exactly d microseconds apart, where 2 ≤ N and the
counter stays within `int` (N - 1 ≤ INT_MAX), tt_period_us returns exactly d; in
particular after two taps separated by d. On the POSIX target (N - 1) * d has to fit
`unsigned long`; on the Arduino target the readings are `unsigned long` values, so it
does. -/
theorem C2_constant_interval_period :
    (∀ (w iw : Nat) (s : tempo_tapper Nat) (ts : List Nat) (d : Nat),
      fresh (arduino.target w iw) s → 2 ≤ ts.length →
      (ts.length : Int) - 1 ≤ INT_MAX iw →
      (∀ t ∈ ts, t < 2 ^ w) → arduino.spaced d ts →
      tt_period_us (arduino.target w iw) (tap_all (arduino.target w iw) s ts) = d) ∧
    (∀ (W iw : Nat) (s : tempo_tapper timeval) (ts : List timeval) (d : Nat),
      fresh (posix.target W iw) s → 2 ≤ ts.length →
      (ts.length : Int) - 1 ≤ INT_MAX iw →
      (∀ t ∈ ts, posix.normalised t) → posix.spaced d ts →
      (((ts.length - 1) * d : Nat) : Int) < 2 ^ W →
      tt_period_us (posix.target W iw) (tap_all (posix.target W iw) s ts) = d) :=
  ⟨fun w iw s ts d hf hN hmax hw hsp => arduino.period_spaced_ticks w iw s hf ts d hN hmax hw hsp,
   fun W iw s ts d hf hN hmax hn hsp hW =>
     posix.period_spaced_tv W iw s hf ts d hN hmax hn hsp hW⟩

/-- Witness for C2: two taps 500000 microseconds apart and four taps 250 microseconds
apart, on an Arduino target and on a POSIX target. -/
theorem C2_constant_interval_period_witness :
    tt_period_us (arduino.target 32 16)
        (tap_all (arduino.target 32 16) (tt_reset (arduino.target 32 16) ⟨7, 9, 4⟩)
          [100, 500100]) = 500000 ∧
    tt_period_us (posix.target 64 32)
        (tap_all (posix.target 64 32) (tt_reset (posix.target 64 32) ⟨⟨7, 9⟩, ⟨1, 2⟩, 4⟩)
          [⟨5, 999500⟩, ⟨5, 999750⟩, ⟨6, 0⟩, ⟨6, 250⟩]) = 250 :=
  ⟨C2_constant_interval_period.1 32 16 (tt_reset (arduino.target 32 16) ⟨7, 9, 4⟩)
      [100, 500100] 500000 (Or.inr ⟨_, rfl⟩) (by decide) (by norm_num [INT_MAX]) (by decide)
      (by decide),
   C2_constant_interval_period.2 64 32 (tt_reset (posix.target 64 32) ⟨⟨7, 9⟩, ⟨1, 2⟩, 4⟩)
      [⟨5, 999500⟩, ⟨5, 999750⟩, ⟨6, 0⟩, ⟨6, 250⟩] 250 (Or.inr ⟨_, rfl⟩) (by decide)
      (by norm_num [INT_MAX]) (by decide) (by decide) (by decide)⟩

/-- Counterexample for C2 as stated (every N ≥ 2, every interval d). First, on a
target with 32-bit `int` and 32-bit `unsigned long`, 2^31 + 1 taps at the readings
0, 1, 2, ..., 2^31, which are exactly 1 microsecond apart, leave tt_period_us at 0 and
not at 1. Second, on a POSIX target with 32-bit `unsigned long`, three taps exactly
2^31 = 2147483648 microseconds apart give 0: the sum 2^32 does not fit
`unsigned long`. -/
theorem C2_fails_beyond_machine_range :
    (2 ≤ (List.range' 0 (2 ^ 31 + 1) 1).length ∧
      (∀ t ∈ List.range' 0 (2 ^ 31 + 1) 1, t < 2 ^ 32) ∧
      arduino.spaced 1 (List.range' 0 (2 ^ 31 + 1) 1) ∧
      tt_period_us (arduino.target 32 32)
          (tap_all (arduino.target 32 32) (tt_reset (arduino.target 32 32) ⟨0, 0, 0⟩)
            (List.range' 0 (2 ^ 31 + 1) 1)) = 0) ∧
    (2 ≤ [(⟨0, 0⟩ : timeval), ⟨2147, 483648⟩, ⟨4294, 967296⟩].length ∧
      (∀ t ∈ [(⟨0, 0⟩ : timeval), ⟨2147, 483648⟩, ⟨4294, 967296⟩], posix.normalised t) ∧
      posix.spaced 2147483648 [⟨0, 0⟩, ⟨2147, 483648⟩, ⟨4294, 967296⟩] ∧
      tt_period_us (posix.target 32 32)
          (tap_all (posix.target 32 32) (tt_reset (posix.target 32 32) ⟨⟨0, 0⟩, ⟨0, 0⟩, 0⟩)
            [⟨0, 0⟩, ⟨2147, 483648⟩, ⟨4294, 967296⟩]) = 0) := by
  refine ⟨⟨?_, ?_, arduino.spaced_range 1 _ 0, ?_⟩, by decide⟩
  · rw [List.length_range']; norm_num
  · intro t ht
    obtain ⟨i, hi, rfl⟩ := List.mem_range'.mp ht
    have : (2 : Nat) ^ 31 + 1 < 2 ^ 32 := by norm_num
    omega
  · refine (period_zero_of_wrapped (arduino.target 32 32) _ (Or.inr ⟨_, rfl⟩) _ ?_ ?_).2
    · show 1 ≤ 32
      norm_num
    · rw [List.length_range']
      show ((2 ^ 31 + 1 : Nat) : Int) = 2 ^ (32 - 1) + 1
      norm_num

/-- Claim C3: for every instance returned by a successful tt_new and for every state
produced by tt_reset, tt_period_us returns 0 and tt_bpm returns 0, on every target and
whatever the struct held before (lst_t included, which neither function writes). -/
theorem C3_fresh_queries_zero {τ : Type} (P : tt_platform τ) :
    (∀ (mem : Option (tempo_tapper τ)) (s : tempo_tapper τ), tt_new P mem = some s →
      tt_period_us P s = 0 ∧ tt_bpm P s = 0) ∧
    (∀ s0 : tempo_tapper τ,
      tt_period_us P (tt_reset P s0) = 0 ∧ tt_bpm P (tt_reset P s0) = 0) :=
  ⟨fun mem s h => queries_fresh P s (fresh_of_new P mem s h),
   fun s0 => queries_fresh P (tt_reset P s0) (fresh_reset P s0)⟩

/-- Witness for C3: tt_new on a block that malloc returned with arbitrary content. -/
theorem C3_fresh_queries_zero_witness :
    tt_new (arduino.target 32 16) (some ⟨123, 456, 789⟩) = some ⟨0, 456, -1⟩ ∧
    tt_period_us (arduino.target 32 16) ⟨0, 456, -1⟩ = 0 ∧
    tt_bpm (arduino.target 32 16) ⟨0, 456, -1⟩ = 0 :=
  ⟨rfl, (C3_fresh_queries_zero (arduino.target 32 16)).1 (some ⟨123, 456, 789⟩)
    ⟨0, 456, -1⟩ rfl⟩

/-- Claim C4: for every clock reading t, after construct (or reset) followed by exactly
one tap at t, tt_period_us returns 0 and tt_bpm returns 0, on every target. -/
theorem C4_one_tap_queries_zero {τ : Type} (P : tt_platform τ) (s : tempo_tapper τ) (t : τ)
    (h : fresh P s) :
    tt_period_us P (tt_tap P t s) = 0 ∧ tt_bpm P (tt_tap P t s) = 0 :=
  queries_tap_fresh P s h t

/-- Witness for C4: one tap at the reading 1000 after a reset. -/
theorem C4_one_tap_queries_zero_witness :
    tt_period_us (arduino.target 32 16)
        (tt_tap (arduino.target 32 16) 1000 (tt_reset (arduino.target 32 16) ⟨5, 6, 7⟩)) = 0 ∧
    tt_bpm (arduino.target 32 16)
        (tt_tap (arduino.target 32 16) 1000 (tt_reset (arduino.target 32 16) ⟨5, 6, 7⟩)) = 0 :=
  C4_one_tap_queries_zero (arduino.target 32 16) (tt_reset (arduino.target 32 16) ⟨5, 6, 7⟩)
    1000 (Or.inr ⟨⟨5, 6, 7⟩, rfl⟩)

/-- Claim C5: on both targets, for every state s and every finite sequence of tap
readings, tt_period_us and tt_bpm after tt_reset(s) followed by those taps equal the
values after a successful tt_new followed by the same taps, so the lst_t that reset
leaves behind has no influence; and on every target both are 0 as long as fewer than
two taps have occurred after the reset. -/
theorem C5_reset_equals_construct :
    (∀ (w iw : Nat) (s s1 : tempo_tapper Nat) (mem : Option (tempo_tapper Nat))
        (ts : List Nat), tt_new (arduino.target w iw) mem = some s1 →
      tt_period_us (arduino.target w iw)
          (tap_all (arduino.target w iw) (tt_reset (arduino.target w iw) s) ts) =
        tt_period_us (arduino.target w iw) (tap_all (arduino.target w iw) s1 ts) ∧
      tt_bpm (arduino.target w iw)
          (tap_all (arduino.target w iw) (tt_reset (arduino.target w iw) s) ts) =
        tt_bpm (arduino.target w iw) (tap_all (arduino.target w iw) s1 ts)) ∧
    (∀ (W iw : Nat) (s s1 : tempo_tapper timeval) (mem : Option (tempo_tapper timeval))
        (ts : List timeval), tt_new (posix.target W iw) mem = some s1 →
      tt_period_us (posix.target W iw)
          (tap_all (posix.target W iw) (tt_reset (posix.target W iw) s) ts) =
        tt_period_us (posix.target W iw) (tap_all (posix.target W iw) s1 ts) ∧
      tt_bpm (posix.target W iw)
          (tap_all (posix.target W iw) (tt_reset (posix.target W iw) s) ts) =
        tt_bpm (posix.target W iw) (tap_all (posix.target W iw) s1 ts)) ∧
    (∀ (τ : Type) (P : tt_platform τ) (s : tempo_tapper τ) (ts : List τ), ts.length < 2 →
      tt_period_us P (tap_all P (tt_reset P s) ts) = 0 ∧
      tt_bpm P (tap_all P (tt_reset P s) ts) = 0) :=
  ⟨fun w iw s s1 mem ts h =>
     queries_fresh_eq (arduino.target w iw) (fun _ _ => rfl) _ _
       (fresh_reset _ s) (fresh_of_new _ mem s1 h) ts,
   fun W iw s s1 mem ts h =>
     queries_fresh_eq (posix.target W iw) (fun _ _ => rfl) _ _
       (fresh_reset _ s) (fresh_of_new _ mem s1 h) ts,
   fun _ P s ts hlen => queries_fresh_short P (tt_reset P s) (fresh_reset P s) ts hlen⟩

/-- Witness for C5: a state with three recorded taps is reset and tapped three times;
the queries agree with those of a new instance tapped at the same readings, and after
one tap they are 0. -/
theorem C5_reset_equals_construct_witness :
    (tt_period_us (arduino.target 32 16)
        (tap_all (arduino.target 32 16)
          (tt_reset (arduino.target 32 16) ⟨900, 77, 3⟩) [10, 20, 40]) =
      tt_period_us (arduino.target 32 16)
        (tap_all (arduino.target 32 16) ⟨0, 5, -1⟩ [10, 20, 40]) ∧
     tt_bpm (arduino.target 32 16)
        (tap_all (arduino.target 32 16)
          (tt_reset (arduino.target 32 16) ⟨900, 77, 3⟩) [10, 20, 40]) =
      tt_bpm (arduino.target 32 16)
        (tap_all (arduino.target 32 16) ⟨0, 5, -1⟩ [10, 20, 40])) ∧
    (tt_period_us (posix.target 64 32)
        (tap_all (posix.target 64 32)
          (tt_reset (posix.target 64 32) ⟨⟨9, 1⟩, ⟨7, 7⟩, 3⟩) [⟨1, 0⟩, ⟨2, 5⟩]) =
      tt_period_us (posix.target 64 32)
        (tap_all (posix.target 64 32) ⟨⟨0, 0⟩, ⟨3, 3⟩, -1⟩ [⟨1, 0⟩, ⟨2, 5⟩]) ∧
     tt_bpm (posix.target 64 32)
        (tap_all (posix.target 64 32)
          (tt_reset (posix.target 64 32) ⟨⟨9, 1⟩, ⟨7, 7⟩, 3⟩) [⟨1, 0⟩, ⟨2, 5⟩]) =
      tt_bpm (posix.target 64 32)
        (tap_all (posix.target 64 32) ⟨⟨0, 0⟩, ⟨3, 3⟩, -1⟩ [⟨1, 0⟩, ⟨2, 5⟩])) ∧
    (tt_period_us (arduino.target 32 16)
        (tap_all (arduino.target 32 16)
          (tt_reset (arduino.target 32 16) ⟨900, 77, 3⟩) [10]) = 0 ∧
     tt_bpm (arduino.target 32 16)
        (tap_all (arduino.target 32 16)
          (tt_reset (arduino.target 32 16) ⟨900, 77, 3⟩) [10]) = 0) :=
  ⟨C5_reset_equals_construct.1 32 16 ⟨900, 77, 3⟩ ⟨0, 5, -1⟩ (some ⟨1, 5, 2⟩) [10, 20, 40] rfl,
   C5_reset_equals_construct.2.1 64 32 ⟨⟨9, 1⟩, ⟨7, 7⟩, 3⟩ ⟨⟨0, 0⟩, ⟨3, 3⟩, -1⟩
     (some ⟨⟨4, 4⟩, ⟨3, 3⟩, 8⟩) [⟨1, 0⟩, ⟨2, 5⟩] rfl,
   C5_reset_equals_construct.2.2 Nat (arduino.target 32 16) ⟨900, 77, 3⟩ [10] (by decide)⟩

/-- Claim C6: tt_period_us and tt_bpm are pure queries. On both adapters and in every
state, running the body of either on the struct behind the pointer, with the adapter
function time_to_us running on the field prd_sum whose address it receives, returns
the value of the function and leaves the struct (taps, prd_sum and lst_t) as it was.
So any number of successive calls of either, each running on the struct the previous
call left, leave the struct unchanged and return, call by call, what a single call of
the same query returns in the initial state. -/
theorem C6_queries_are_pure :
    (∀ (w iw : Nat) (s : tempo_tapper Nat),
      (tt_period_us_call arduino.time_to_us_call).run s =
        (tt_period_us (arduino.target w iw) s, s) ∧
      (tt_bpm_call arduino.time_to_us_call).run s = (tt_bpm (arduino.target w iw) s, s) ∧
      (∀ qs : List tt_query,
        (call_queries arduino.time_to_us_call qs).run s =
          (qs.map (fun q => ((call_query arduino.time_to_us_call q).run s).1), s))) ∧
    (∀ (W iw : Nat) (s : tempo_tapper timeval),
      (tt_period_us_call (posix.time_to_us_call W)).run s =
        (tt_period_us (posix.target W iw) s, s) ∧
      (tt_bpm_call (posix.time_to_us_call W)).run s = (tt_bpm (posix.target W iw) s, s) ∧
      (∀ qs : List tt_query,
        (call_queries (posix.time_to_us_call W) qs).run s =
          (qs.map (fun q => ((call_query (posix.time_to_us_call W) q).run s).1), s))) :=
  ⟨fun w iw s =>
    ⟨tt_period_us_call_run (arduino.target w iw) _ arduino.time_to_us_call_run_ticks s,
     tt_bpm_call_run (arduino.target w iw) _ arduino.time_to_us_call_run_ticks s,
     call_queries_run (arduino.target w iw) _ arduino.time_to_us_call_run_ticks s⟩,
   fun W iw s =>
    ⟨tt_period_us_call_run (posix.target W iw) _ (posix.time_to_us_call_run_tv W) s,
     tt_bpm_call_run (posix.target W iw) _ (posix.time_to_us_call_run_tv W) s,
     call_queries_run (posix.target W iw) _ (posix.time_to_us_call_run_tv W) s⟩⟩

/-- Claim C7: the scenario construct, tap at 0, tap at 500000 microseconds gives the
period 500000 and 120 beats per minute; a third tap at 1000000 microseconds still gives
500000; tt_reset then gives 0. It holds on every Arduino and every POSIX target whose
`unsigned long` can hold 1000000 and whose `int` can hold 2. -/
theorem C7_scenario :
    (∀ (w iw : Nat) (mem : Option (tempo_tapper Nat)) (s : tempo_tapper Nat),
      1000000 < 2 ^ w → 2 ≤ INT_MAX iw → tt_new (arduino.target w iw) mem = some s →
      tt_period_us (arduino.target w iw)
          (tap_all (arduino.target w iw) s [0, 500000]) = 500000 ∧
      tt_bpm (arduino.target w iw) (tap_all (arduino.target w iw) s [0, 500000]) = 120 ∧
      tt_period_us (arduino.target w iw)
          (tt_tap (arduino.target w iw) 1000000
            (tap_all (arduino.target w iw) s [0, 500000])) = 500000 ∧
      tt_period_us (arduino.target w iw)
          (tt_reset (arduino.target w iw)
            (tt_tap (arduino.target w iw) 1000000
              (tap_all (arduino.target w iw) s [0, 500000]))) = 0) ∧
    (∀ (W iw : Nat) (mem : Option (tempo_tapper timeval)) (s : tempo_tapper timeval),
      1000000 < 2 ^ W → 2 ≤ INT_MAX iw → tt_new (posix.target W iw) mem = some s →
      tt_period_us (posix.target W iw)
          (tap_all (posix.target W iw) s [⟨0, 0⟩, ⟨0, 500000⟩]) = 500000 ∧
      tt_bpm (posix.target W iw)
          (tap_all (posix.target W iw) s [⟨0, 0⟩, ⟨0, 500000⟩]) = 120 ∧
      tt_period_us (posix.target W iw)
          (tt_tap (posix.target W iw) ⟨1, 0⟩
            (tap_all (posix.target W iw) s [⟨0, 0⟩, ⟨0, 500000⟩])) = 500000 ∧
      tt_period_us (posix.target W iw)
          (tt_reset (posix.target W iw)
            (tt_tap (posix.target W iw) ⟨1, 0⟩
              (tap_all (posix.target W iw) s [⟨0, 0⟩, ⟨0, 500000⟩]))) = 0) := by
  constructor
  · intro w iw mem s hw hmax hnew
    have hf := fresh_of_new _ mem s hnew
    have h2 := arduino.bpm_two_taps_ticks w iw s hf 0 500000 (by norm_num) (by omega) (by omega)
    have h3 := arduino.period_spaced_ticks w iw s hf [0, 500000, 1000000] 500000 (by decide)
      (by simp only [List.length_cons, List.length_nil]; push_cast; omega)
      (by intro x hx; simp only [List.mem_cons, List.mem_singleton, List.not_mem_nil,
            or_false] at hx; omega)
      (by decide)
    refine ⟨h2.1, ?_, h3, (queries_fresh _ _ (fresh_reset _ _)).1⟩
    rw [h2.2]; norm_num
  · intro W iw mem s hW hmax hnew
    have hf := fresh_of_new _ mem s hnew
    have hWi : ((1000000 : Nat) : Int) < 2 ^ W := by exact_mod_cast hW
    have h2 := posix.bpm_two_taps_tv W iw s hf ⟨0, 0⟩ ⟨0, 500000⟩ 500000 (by norm_num)
      (by decide) (by decide) (by decide) (by push_cast at hWi ⊢; omega) (by omega)
    have h3 := posix.period_spaced_tv W iw s hf [⟨0, 0⟩, ⟨0, 500000⟩, ⟨1, 0⟩] 500000 (by decide)
      (by simp only [List.length_cons, List.length_nil]; push_cast; omega)
      (by decide) (by decide)
      (by simp only [List.length_cons, List.length_nil]; push_cast at hWi ⊢; omega)
    refine ⟨h2.1, ?_, h3, (queries_fresh _ _ (fresh_reset _ _)).1⟩
    rw [h2.2]; norm_num

/-- Witness for C7: the scenario on an Arduino target with 32-bit `unsigned long` and
16-bit `int` and on a POSIX target with 64-bit `unsigned long` and 32-bit `int`. -/
theorem C7_scenario_witness :
    (tt_period_us (arduino.target 32 16)
        (tap_all (arduino.target 32 16) ⟨0, 456, -1⟩ [0, 500000]) = 500000 ∧
      tt_bpm (arduino.target 32 16)
        (tap_all (arduino.target 32 16) ⟨0, 456, -1⟩ [0, 500000]) = 120 ∧
      tt_period_us (arduino.target 32 16)
          (tt_tap (arduino.target 32 16) 1000000
            (tap_all (arduino.target 32 16) ⟨0, 456, -1⟩ [0, 500000])) = 500000 ∧
      tt_period_us (arduino.target 32 16)
          (tt_reset (arduino.target 32 16)
            (tt_tap (arduino.target 32 16) 1000000
              (tap_all (arduino.target 32 16) ⟨0, 456, -1⟩ [0, 500000]))) = 0) ∧
    (tt_period_us (posix.target 64 32)
        (tap_all (posix.target 64 32) ⟨⟨0, 0⟩, ⟨4, 5⟩, -1⟩ [⟨0, 0⟩, ⟨0, 500000⟩]) = 500000 ∧
      tt_bpm (posix.target 64 32)
        (tap_all (posix.target 64 32) ⟨⟨0, 0⟩, ⟨4, 5⟩, -1⟩ [⟨0, 0⟩, ⟨0, 500000⟩]) = 120 ∧
      tt_period_us (posix.target 64 32)
          (tt_tap (posix.target 64 32) ⟨1, 0⟩
            (tap_all (posix.target 64 32) ⟨⟨0, 0⟩, ⟨4, 5⟩, -1⟩ [⟨0, 0⟩, ⟨0, 500000⟩])) =
        500000 ∧
      tt_period_us (posix.target 64 32)
          (tt_reset (posix.target 64 32)
            (tt_tap (posix.target 64 32) ⟨1, 0⟩
              (tap_all (posix.target 64 32) ⟨⟨0, 0⟩, ⟨4, 5⟩, -1⟩ [⟨0, 0⟩, ⟨0, 500000⟩]))) =
        0) :=
  ⟨C7_scenario.1 32 16 (some ⟨123, 456, 789⟩) ⟨0, 456, -1⟩ (by norm_num)
      (by norm_num [INT_MAX]) rfl,
   C7_scenario.2 64 32 (some ⟨⟨1, 2⟩, ⟨4, 5⟩, 6⟩) ⟨⟨0, 0⟩, ⟨4, 5⟩, -1⟩ (by norm_num)
      (by norm_num [INT_MAX]) rfl⟩

/-- Claim C8: on every target and in every state, tt_period_us returns 0 when
taps < 1, and otherwise returns time_to_us(prd_sum) divided by taps, where the division
truncates: the result q satisfies q * taps ≤ time_to_us(prd_sum) < (q + 1) * taps. -/
theorem C8_period_is_truncated_quotient {τ : Type} (P : tt_platform τ) (s : tempo_tapper τ) :
    (s.taps < 1 → tt_period_us P s = 0) ∧
    (1 ≤ s.taps →
      tt_period_us P s = P.time_to_us s.prd_sum / s.taps.toNat ∧
      (tt_period_us P s : Int) * s.taps ≤ P.time_to_us s.prd_sum ∧
      (P.time_to_us s.prd_sum : Int) < ((tt_period_us P s : Int) + 1) * s.taps) :=
  ⟨period_zero_of_taps P s, period_bounds P s⟩

/-- Witness for C8: with no interval recorded the period is 0; with the sum 7 over
2 intervals the period is 3. -/
theorem C8_period_is_truncated_quotient_witness :
    tt_period_us (arduino.target 32 16) ⟨7, 0, 0⟩ = 0 ∧
    (tt_period_us (arduino.target 32 16) ⟨7, 0, 2⟩ = 7 / 2 ∧
      (tt_period_us (arduino.target 32 16) ⟨7, 0, 2⟩ : Int) * 2 ≤ (7 : Nat) ∧
      ((7 : Nat) : Int) < ((tt_period_us (arduino.target 32 16) ⟨7, 0, 2⟩ : Int) + 1) * 2) :=
  ⟨(C8_period_is_truncated_quotient (arduino.target 32 16) ⟨7, 0, 0⟩).1 (by decide),
   (C8_period_is_truncated_quotient (arduino.target 32 16) ⟨7, 0, 2⟩).2 (by decide)⟩

/-- Claim C9, amended: on every target and in every state, tt_bpm returns 0 when
tt_period_us returns 0 and otherwise the rational number 60000000 / tt_period_us.
Consequently, on both targets, after construct (or reset) and two taps separated by d
microseconds it is 60000000 / d, provided 1 ≤ d, d fits `unsigned long` (d < 2^w) and
`int` can hold 1. On the Arduino target the two readings are those of the tick counter
T and T + d microseconds after its start, wherever the counter stood, so also when it
wrapped between the taps. -/
theorem C9_bpm_is_sixty_million_over_period :
    (∀ (τ : Type) (P : tt_platform τ) (s : tempo_tapper τ),
      (tt_period_us P s = 0 → tt_bpm P s = 0) ∧
      (tt_period_us P s ≠ 0 → tt_bpm P s = 60000000 / (tt_period_us P s : ℚ))) ∧
    (∀ (w iw : Nat) (s : tempo_tapper Nat) (T d : Nat),
      fresh (arduino.target w iw) s → 1 ≤ d → d < 2 ^ w → 1 ≤ INT_MAX iw →
      tt_bpm (arduino.target w iw) (tap_all (arduino.target w iw) s
          [arduino.current_time w T, arduino.current_time w (T + d)]) =
        60000000 / (d : ℚ)) ∧
    (∀ (W iw : Nat) (s : tempo_tapper timeval) (a b : timeval) (d : Nat),
      fresh (posix.target W iw) s → 1 ≤ d → posix.normalised a → posix.normalised b →
      posix.usec_of b = posix.usec_of a + d → (d : Int) < 2 ^ W → 1 ≤ INT_MAX iw →
      tt_bpm (posix.target W iw) (tap_all (posix.target W iw) s [a, b]) =
        60000000 / (d : ℚ)) :=
  ⟨fun _ P s => ⟨bpm_zero_of_period P s, bpm_of_period P s⟩,
   fun w iw s T d hf hd hw hmax => (arduino.bpm_two_taps_wrapped w iw s hf T d hd hw hmax).2,
   fun W iw s a b d hf hd ha hb hab hW hmax =>
     (posix.bpm_two_taps_tv W iw s hf a b d hd ha hb hab hW hmax).2⟩

/-- Witness for C9: a state with period 0, a state with period 3, two taps 300
microseconds apart on an Arduino target whose 32-bit counter wraps between them (the
readings are 4294967196 and 200), and two taps 250000 microseconds apart on a POSIX
target. -/
theorem C9_bpm_is_sixty_million_over_period_witness :
    tt_bpm (arduino.target 32 16) ⟨7, 0, 0⟩ = 0 ∧
    tt_bpm (arduino.target 32 16) ⟨7, 0, 2⟩ =
      60000000 / (tt_period_us (arduino.target 32 16) ⟨7, 0, 2⟩ : ℚ) ∧
    tt_bpm (arduino.target 32 16)
        (tap_all (arduino.target 32 16) (tt_reset (arduino.target 32 16) ⟨5, 6, 7⟩)
          [arduino.current_time 32 4294967196, arduino.current_time 32 (4294967196 + 300)]) =
      60000000 / ((300 : Nat) : ℚ) ∧
    tt_bpm (posix.target 64 32)
        (tap_all (posix.target 64 32) (tt_reset (posix.target 64 32) ⟨⟨5, 6⟩, ⟨7, 8⟩, 9⟩)
          [⟨3, 900000⟩, ⟨4, 150000⟩]) = 60000000 / ((250000 : Nat) : ℚ) :=
  ⟨(C9_bpm_is_sixty_million_over_period.1 Nat (arduino.target 32 16) ⟨7, 0, 0⟩).1 (by decide),
   (C9_bpm_is_sixty_million_over_period.1 Nat (arduino.target 32 16) ⟨7, 0, 2⟩).2 (by decide),
   C9_bpm_is_sixty_million_over_period.2.1 32 16 _ 4294967196 300 (Or.inr ⟨_, rfl⟩) (by decide)
     (by norm_num) (by norm_num [INT_MAX]),
   C9_bpm_is_sixty_million_over_period.2.2 64 32 _ ⟨3, 900000⟩ ⟨4, 150000⟩ 250000
     (Or.inr ⟨_, rfl⟩) (by decide) (by decide) (by decide) (by decide) (by norm_num)
     (by norm_num [INT_MAX])⟩

/-- Counterexample for C9 as stated (two taps separated by any d ≥ 1): with 32-bit
`unsigned long` and d = 2^32 = 4294967296 microseconds, tt_bpm returns 0 and not
60000000 / d. On the POSIX target the taps are at the normalised readings 0 s and
4294 s 967296 us: prd_sum holds the interval, time_to_us converts it to 0, so the
period is 0. On the Arduino target the tick counter reads 0 at both taps. -/
theorem C9_fails_beyond_unsigned_long :
    ((1 : Nat) ≤ 4294967296 ∧
      posix.normalised ⟨0, 0⟩ ∧ posix.normalised ⟨4294, 967296⟩ ∧
      posix.usec_of ⟨4294, 967296⟩ = posix.usec_of ⟨0, 0⟩ + (4294967296 : Nat) ∧
      (tap_all (posix.target 32 32) (tt_reset (posix.target 32 32) ⟨⟨0, 0⟩, ⟨0, 0⟩, 0⟩)
          [⟨0, 0⟩, ⟨4294, 967296⟩]).prd_sum = ⟨4294, 967296⟩ ∧
      tt_period_us (posix.target 32 32)
        (tap_all (posix.target 32 32) (tt_reset (posix.target 32 32) ⟨⟨0, 0⟩, ⟨0, 0⟩, 0⟩)
          [⟨0, 0⟩, ⟨4294, 967296⟩]) = 0 ∧
      tt_bpm (posix.target 32 32)
        (tap_all (posix.target 32 32) (tt_reset (posix.target 32 32) ⟨⟨0, 0⟩, ⟨0, 0⟩, 0⟩)
          [⟨0, 0⟩, ⟨4294, 967296⟩]) = 0 ∧
      tt_bpm (posix.target 32 32)
        (tap_all (posix.target 32 32) (tt_reset (posix.target 32 32) ⟨⟨0, 0⟩, ⟨0, 0⟩, 0⟩)
          [⟨0, 0⟩, ⟨4294, 967296⟩]) ≠ 60000000 / ((4294967296 : Nat) : ℚ)) ∧
    (arduino.current_time 32 0 = 0 ∧ arduino.current_time 32 (0 + 4294967296) = 0 ∧
      tt_bpm (arduino.target 32 32)
        (tap_all (arduino.target 32 32) (tt_reset (arduino.target 32 32) ⟨0, 0, 0⟩)
          [arduino.current_time 32 0, arduino.current_time 32 (0 + 4294967296)]) = 0 ∧
      tt_bpm (arduino.target 32 32)
        (tap_all (arduino.target 32 32) (tt_reset (arduino.target 32 32) ⟨0, 0, 0⟩)
          [arduino.current_time 32 0, arduino.current_time 32 (0 + 4294967296)]) ≠
        60000000 / ((4294967296 : Nat) : ℚ)) := by
  have hp : tt_period_us (posix.target 32 32)
      (tap_all (posix.target 32 32) (tt_reset (posix.target 32 32) ⟨⟨0, 0⟩, ⟨0, 0⟩, 0⟩)
        [⟨0, 0⟩, ⟨4294, 967296⟩]) = 0 := by decide
  have ha : tt_period_us (arduino.target 32 32)
      (tap_all (arduino.target 32 32) (tt_reset (arduino.target 32 32) ⟨0, 0, 0⟩)
        [arduino.current_time 32 0, arduino.current_time 32 (0 + 4294967296)]) = 0 := by
    decide
  refine ⟨⟨by decide, by decide, by decide, by decide, by decide, hp, ?_, ?_⟩,
    by decide, by decide, ?_, ?_⟩
  · exact bpm_zero_of_period _ _ hp
  · rw [bpm_zero_of_period _ _ hp]
    norm_num
  · exact bpm_zero_of_period _ _ ha
  · rw [bpm_zero_of_period _ _ ha]
    norm_num

/-- Claim C10: the queries are total on every state of every target. With the
division of C, which has no result for a zero divisor, tt_period_us and tt_bpm still
return a result in every state, the one the embedding computes; tt_tap contains no
division. In states whose accumulated sum is below a tap count of at least 1 both
queries return 0, and so they do after any number of taps at one clock reading. -/
theorem C10_queries_are_total :
    (∀ (τ : Type) (P : tt_platform τ) (s : tempo_tapper τ),
      tt_period_us_checked P s = some (tt_period_us P s) ∧
      tt_bpm_checked P s = some (tt_bpm P s) ∧
      (1 ≤ s.taps → (P.time_to_us s.prd_sum : Int) < s.taps →
        tt_period_us P s = 0 ∧ tt_bpm P s = 0)) ∧
    (∀ (w iw : Nat) (s : tempo_tapper Nat) (t n : Nat),
      fresh (arduino.target w iw) s → t < 2 ^ w →
      tt_period_us (arduino.target w iw)
          (tap_all (arduino.target w iw) s (List.replicate n t)) = 0 ∧
      tt_bpm (arduino.target w iw)
          (tap_all (arduino.target w iw) s (List.replicate n t)) = 0) ∧
    (∀ (W iw : Nat) (s : tempo_tapper timeval) (t : timeval) (n : Nat),
      fresh (posix.target W iw) s →
      tt_period_us (posix.target W iw)
          (tap_all (posix.target W iw) s (List.replicate n t)) = 0 ∧
      tt_bpm (posix.target W iw)
          (tap_all (posix.target W iw) s (List.replicate n t)) = 0) := by
  refine ⟨fun _ P s => ⟨period_checked_eq P s, bpm_checked_eq P s,
    fun _ h => queries_zero_of_sum_lt P s h⟩, ?_, ?_⟩
  · intro w iw s t n hf ht
    obtain ⟨x, hx⟩ := fresh_prd_sum _ s hf
    have h0 : s.prd_sum = 0 := by rw [hx]; rfl
    have hsum := arduino.same_reading_sum_ticks w iw t ht n s h0
      (by intro h; rw [fresh_taps _ s hf] at h; exact absurd h (by decide))
    exact queries_zero_of_sum_zero _ _ (by rw [hsum]; rfl)
  · intro W iw s t n hf
    obtain ⟨x, hx⟩ := fresh_prd_sum _ s hf
    have h0 : s.prd_sum = ⟨0, 0⟩ := by rw [hx]; rfl
    have hsum := posix.same_reading_sum_tv W iw t n s h0
      (by intro h; rw [fresh_taps _ s hf] at h; exact absurd h (by decide))
    exact queries_zero_of_sum_zero _ _ (by rw [hsum]; simp [posix.target, posix.time_to_us])

/-- Witness for C10: a state with 3 intervals whose sum is 2, and three taps at the
reading 5 after a reset. -/
theorem C10_queries_are_total_witness :
    (tt_period_us (arduino.target 32 16) ⟨2, 9, 3⟩ = 0 ∧
      tt_bpm (arduino.target 32 16) ⟨2, 9, 3⟩ = 0) ∧
    (tt_period_us (arduino.target 32 16)
        (tap_all (arduino.target 32 16) (tt_reset (arduino.target 32 16) ⟨8, 9, 3⟩)
          (List.replicate 3 5)) = 0 ∧
      tt_bpm (arduino.target 32 16)
        (tap_all (arduino.target 32 16) (tt_reset (arduino.target 32 16) ⟨8, 9, 3⟩)
          (List.replicate 3 5)) = 0) ∧
    (tt_period_us (posix.target 64 32)
        (tap_all (posix.target 64 32) (tt_reset (posix.target 64 32) ⟨⟨8, 1⟩, ⟨9, 2⟩, 3⟩)
          (List.replicate 3 ⟨5, 5⟩)) = 0 ∧
      tt_bpm (posix.target 64 32)
        (tap_all (posix.target 64 32) (tt_reset (posix.target 64 32) ⟨⟨8, 1⟩, ⟨9, 2⟩, 3⟩)
          (List.replicate 3 ⟨5, 5⟩)) = 0) :=
  ⟨(C10_queries_are_total.1 Nat (arduino.target 32 16) ⟨2, 9, 3⟩).2.2 (by decide) (by decide),
   C10_queries_are_total.2.1 32 16 _ 5 3 (Or.inr ⟨_, rfl⟩) (by norm_num),
   C10_queries_are_total.2.2 64 32 _ ⟨5, 5⟩ 3 (Or.inr ⟨_, rfl⟩)⟩

/-! Auxiliary facts: the arithmetic of the adapters -/

theorem posix.time_to_us_eq (W : Nat) (t : timeval) :
    (posix.time_to_us W t : Int) = posix.usec_of t % 2 ^ W := by
  have hM : (0 : Int) < 2 ^ W := by positivity
  unfold posix.time_to_us posix.usec_of
  exact Int.toNat_of_nonneg (Int.emod_nonneg _ (ne_of_gt hM))

theorem posix.eq_of_usec_of_eq (a b : timeval) (ha : posix.normalised a)
    (hb : posix.normalised b) (h : posix.usec_of a = posix.usec_of b) : a = b := by
  unfold posix.normalised at ha hb
  unfold posix.usec_of S_TO_US at h
  push_cast at h
  obtain ⟨as, au⟩ := a
  obtain ⟨bs, bu⟩ := b
  simp only at ha hb h
  have h1 : as = bs := by omega
  have h2 : au = bu := by omega
  rw [h1, h2]

theorem posix.time_to_us_injective (W : Nat) (a b : timeval) (ha : posix.normalised a)
    (hb : posix.normalised b) (ha0 : 0 ≤ posix.usec_of a) (hb0 : 0 ≤ posix.usec_of b)
    (haW : posix.usec_of a < 2 ^ W) (hbW : posix.usec_of b < 2 ^ W)
    (h : posix.time_to_us W a = posix.time_to_us W b) : a = b := by
  have e1 := posix.time_to_us_of_lt W a ha0 haW
  have e2 := posix.time_to_us_of_lt W b hb0 hbW
  apply posix.eq_of_usec_of_eq a b ha hb
  rw [← e1, ← e2, h]

theorem posix.usec_of_nonneg (t : timeval) (hn : posix.normalised t) (hs : 0 ≤ t.tv_sec) :
    0 ≤ posix.usec_of t := by
  unfold posix.normalised at hn
  unfold posix.usec_of S_TO_US
  push_cast
  omega

theorem posix.time_to_us_add (W : Nat) (a b : timeval) (ha : posix.normalised a)
    (hb : posix.normalised b) :
    posix.time_to_us W (posix.add_time a b) =
      (posix.time_to_us W a + posix.time_to_us W b) % 2 ^ W := by
  have hadd := (posix.add_time_exact a b ha hb).2
  have h : ((posix.time_to_us W (posix.add_time a b) : Nat) : Int) =
      (((posix.time_to_us W a + posix.time_to_us W b) % 2 ^ W : Nat) : Int) := by
    push_cast
    rw [posix.time_to_us_eq, posix.time_to_us_eq, posix.time_to_us_eq, hadd]
    exact Int.add_emod _ _ _
  exact_mod_cast h

theorem posix.time_to_us_sub (W : Nat) (a b : timeval) (ha : posix.normalised a)
    (hb : posix.normalised b) (hb0 : 0 ≤ posix.usec_of b)
    (hba : posix.usec_of b ≤ posix.usec_of a) (haW : posix.usec_of a < 2 ^ W) :
    posix.time_to_us W b ≤ posix.time_to_us W a ∧
    posix.time_to_us W (posix.sub_time a b) = posix.time_to_us W a - posix.time_to_us W b := by
  have hsub := (posix.sub_time_exact a b ha hb).2
  have e1 := posix.time_to_us_of_lt W a (by omega) haW
  have e2 := posix.time_to_us_of_lt W b hb0 (by omega)
  have e3 := posix.time_to_us_of_lt W (posix.sub_time a b) (by omega) (by omega)
  omega

theorem posix.sub_add_cancel_tv (a b : timeval) (ha : posix.normalised a)
    (hb : posix.normalised b) : posix.sub_time (posix.add_time a b) b = a := by
  have hadd := posix.add_time_exact a b ha hb
  have hsub := posix.sub_time_exact (posix.add_time a b) b hadd.1 hb
  apply posix.eq_of_usec_of_eq _ _ hsub.1 ha
  rw [hsub.2, hadd.2]
  omega

theorem posix.add_zero_tv (a x : timeval) (h : a.tv_usec < 1000000) :
    posix.add_time a (posix.reset_time x) = a ∧ posix.add_time (posix.reset_time x) a = a := by
  have hn : ¬ a.tv_usec ≥ 1000000 := by omega
  constructor <;> simp [posix.add_time, posix.reset_time, timeradd, hn]

theorem int_wrap_of_representable (bits : Nat) (x : Int) (hb : 1 ≤ bits)
    (hlo : -(INT_MAX bits) - 1 ≤ x) (hhi : x ≤ INT_MAX bits) : int_wrap bits x = x := by
  unfold INT_MAX at hlo hhi
  exact int_wrap_of_mem_range bits x hb (by omega) (by omega)

theorem posix_fixed.add_zero_stored (tb ub : Nat) (a x : timeval) (htb : 1 ≤ tb)
    (hub : 1 ≤ ub) (hr : posix_fixed.representable tb ub a) (h : a.tv_usec < 1000000) :
    posix_fixed.add_time tb ub a (posix.reset_time x) = a ∧
    posix_fixed.add_time tb ub (posix.reset_time x) a = a := by
  obtain ⟨⟨hs1, hs2⟩, hu1, hu2⟩ := hr
  have hn : ¬ a.tv_usec ≥ 1000000 := by omega
  have es := int_wrap_of_representable tb a.tv_sec htb hs1 hs2
  have eu := int_wrap_of_representable ub a.tv_usec hub hu1 hu2
  constructor <;>
    simp [posix_fixed.add_time, posix.reset_time, timeradd_stored, es, eu, hn]

theorem arduino.sub_add_cancel_ticks (w a b : Nat) (ha : a < 2 ^ w) (hb : b < 2 ^ w) :
    arduino.sub_time w (arduino.add_time w a b) b = a := by
  unfold arduino.sub_time arduino.add_time
  rw [Nat.mod_eq_of_lt hb, Nat.mod_add_mod]
  have key : a + b + (2 ^ w - b) = a + 2 ^ w := by omega
  rw [key, Nat.add_mod_right, Nat.mod_eq_of_lt ha]

/-- Claim C11, amended: on the POSIX adapter time_to_us returns
tv_sec * 1000000 + tv_usec reduced to `unsigned long` (modulo 2^W), which is that number
itself whenever it lies in [0, 2^W), and it is injective on normalised values
(0 ≤ tv_usec < 1000000, tv_sec ≥ 0) whose microsecond count is below 2^W; on the
Arduino adapter it is the identity. -/
theorem C11_time_to_us_lossless_in_range :
    (∀ (W : Nat) (t : timeval),
      (posix.time_to_us W t : Int) = (t.tv_sec * 1000000 + t.tv_usec) % 2 ^ W) ∧
    (∀ (W : Nat) (t : timeval), 0 ≤ t.tv_sec * 1000000 + t.tv_usec →
      t.tv_sec * 1000000 + t.tv_usec < 2 ^ W →
      (posix.time_to_us W t : Int) = t.tv_sec * 1000000 + t.tv_usec) ∧
    (∀ (W : Nat) (a b : timeval), posix.normalised a → posix.normalised b →
      0 ≤ a.tv_sec → 0 ≤ b.tv_sec →
      a.tv_sec * 1000000 + a.tv_usec < 2 ^ W → b.tv_sec * 1000000 + b.tv_usec < 2 ^ W →
      posix.time_to_us W a = posix.time_to_us W b → a = b) ∧
    (∀ t : Nat, arduino.time_to_us t = t) := by
  refine ⟨fun W t => posix.time_to_us_eq W t, fun W t h0 hW => ?_,
    fun W a b ha hb ha0 hb0 haW hbW h => ?_, fun _ => rfl⟩
  · exact posix.time_to_us_of_lt W t h0 hW
  · exact posix.time_to_us_injective W a b ha hb (posix.usec_of_nonneg a ha ha0)
      (posix.usec_of_nonneg b hb hb0) haW hbW h

/-- Witness for C11: with 64-bit `unsigned long`, 5 seconds and 250 microseconds are
converted to 5000250, and a value with the same conversion is that value. -/
theorem C11_time_to_us_lossless_in_range_witness :
    (posix.time_to_us 64 ⟨5, 250⟩ : Int) = 5 * 1000000 + 250 ∧
    ((⟨5, 250⟩ : timeval) = ⟨5, 250⟩) :=
  ⟨C11_time_to_us_lossless_in_range.2.1 64 ⟨5, 250⟩ (by norm_num) (by norm_num),
   C11_time_to_us_lossless_in_range.2.2.1 64 ⟨5, 250⟩ ⟨5, 250⟩ (by decide) (by decide)
     (by decide) (by decide) (by norm_num) (by norm_num) rfl⟩

/-- Counterexample for C11 as stated: with 32-bit `unsigned long` the normalised values
0 s 0 us and 4294 s 967296 us (2^32 microseconds) are both converted to 0, so the
conversion is neither tv_sec * 1000000 + tv_usec nor injective; with 64-bit
`unsigned long` the same happens at 18446744073709 s 551616 us (2^64 microseconds). -/
theorem C11_fails_beyond_unsigned_long :
    (posix.normalised ⟨0, 0⟩ ∧ posix.normalised ⟨4294, 967296⟩ ∧
      (⟨0, 0⟩ : timeval) ≠ ⟨4294, 967296⟩ ∧
      posix.time_to_us 32 ⟨0, 0⟩ = 0 ∧ posix.time_to_us 32 ⟨4294, 967296⟩ = 0 ∧
      (posix.time_to_us 32 ⟨4294, 967296⟩ : Int) ≠ 4294 * 1000000 + 967296) ∧
    (posix.normalised ⟨18446744073709, 551616⟩ ∧
      (⟨0, 0⟩ : timeval) ≠ ⟨18446744073709, 551616⟩ ∧
      posix.time_to_us 64 ⟨0, 0⟩ = 0 ∧
      posix.time_to_us 64 ⟨18446744073709, 551616⟩ = 0) := by
  decide

/-- Claim C12, amended: add_time is exact modulo the range of `unsigned long`. For all
time values a and b (normalised, on the POSIX adapter) time_to_us(add_time(a, b)) is
time_to_us(a) + time_to_us(b) reduced modulo 2^w, and it equals
time_to_us(a) + time_to_us(b) whenever that sum is below 2^w. -/
theorem C12_add_time_exact_in_range :
    (∀ w a b : Nat,
      arduino.time_to_us (arduino.add_time w a b) =
        (arduino.time_to_us a + arduino.time_to_us b) % 2 ^ w ∧
      (arduino.time_to_us a + arduino.time_to_us b < 2 ^ w →
        arduino.time_to_us (arduino.add_time w a b) =
          arduino.time_to_us a + arduino.time_to_us b)) ∧
    (∀ (W : Nat) (a b : timeval), posix.normalised a → posix.normalised b →
      posix.time_to_us W (posix.add_time a b) =
        (posix.time_to_us W a + posix.time_to_us W b) % 2 ^ W ∧
      (posix.time_to_us W a + posix.time_to_us W b < 2 ^ W →
        posix.time_to_us W (posix.add_time a b) =
          posix.time_to_us W a + posix.time_to_us W b)) := by
  constructor
  · intro w a b
    exact ⟨rfl, fun h => Nat.mod_eq_of_lt h⟩
  · intro W a b ha hb
    have h := posix.time_to_us_add W a b ha hb
    exact ⟨h, fun hlt => by rw [h, Nat.mod_eq_of_lt hlt]⟩

/-- Witness for C12: 700 + 300 on the Arduino adapter, and 1 s 600000 us plus
2 s 700000 us on the POSIX adapter. -/
theorem C12_add_time_exact_in_range_witness :
    arduino.time_to_us (arduino.add_time 32 700 300) =
      arduino.time_to_us 700 + arduino.time_to_us 300 ∧
    posix.time_to_us 64 (posix.add_time ⟨1, 600000⟩ ⟨2, 700000⟩) =
      posix.time_to_us 64 ⟨1, 600000⟩ + posix.time_to_us 64 ⟨2, 700000⟩ :=
  ⟨(C12_add_time_exact_in_range.1 32 700 300).2 (by decide),
   (C12_add_time_exact_in_range.2 64 ⟨1, 600000⟩ ⟨2, 700000⟩ (by decide) (by decide)).2
     (by decide)⟩

/-- Counterexample for C12 as stated: on the Arduino adapter with 32-bit
`unsigned long`, add_time(4294967295, 1) is 0 and not 4294967296; on the POSIX adapter
with 32-bit `unsigned long`, twice 2147 s 483648 us (2^31 microseconds) is converted
to 0 and not to 2^32. -/
theorem C12_fails_on_wraparound :
    ((4294967295 : Nat) < 2 ^ 32 ∧ (1 : Nat) < 2 ^ 32 ∧
      arduino.time_to_us (arduino.add_time 32 4294967295 1) = 0 ∧
      arduino.time_to_us 4294967295 + arduino.time_to_us 1 = 4294967296) ∧
    (posix.normalised ⟨2147, 483648⟩ ∧
      posix.time_to_us 32 (posix.add_time ⟨2147, 483648⟩ ⟨2147, 483648⟩) = 0 ∧
      posix.time_to_us 32 ⟨2147, 483648⟩ + posix.time_to_us 32 ⟨2147, 483648⟩ =
        4294967296) := by
  decide

/-- Claim C13, amended: sub_time is exact under its precondition within the range of
`unsigned long`. On the Arduino adapter, for `unsigned long` values a ≥ b,
time_to_us(sub_time(a, b)) = time_to_us(a) - time_to_us(b). On the POSIX adapter the
same holds for normalised a ≥ b when b is not negative and the microsecond count of a is
below 2^W. On both adapters sub_time(add_time(a, b), b) = a for all `unsigned long`
values, respectively all normalised values, a and b. -/
theorem C13_sub_time_exact_in_range :
    (∀ w a b : Nat, b ≤ a → a < 2 ^ w →
      arduino.time_to_us (arduino.sub_time w a b) =
        arduino.time_to_us a - arduino.time_to_us b) ∧
    (∀ w a b : Nat, a < 2 ^ w → b < 2 ^ w →
      arduino.sub_time w (arduino.add_time w a b) b = a) ∧
    (∀ (W : Nat) (a b : timeval), posix.normalised a → posix.normalised b →
      0 ≤ posix.usec_of b → posix.not_before b a → posix.usec_of a < 2 ^ W →
      posix.time_to_us W b ≤ posix.time_to_us W a ∧
      posix.time_to_us W (posix.sub_time a b) =
        posix.time_to_us W a - posix.time_to_us W b) ∧
    (∀ a b : timeval, posix.normalised a → posix.normalised b →
      posix.sub_time (posix.add_time a b) b = a) :=
  ⟨fun w a b hba ha => arduino.sub_time_of_le w a b hba ha,
   fun w a b ha hb => arduino.sub_add_cancel_ticks w a b ha hb,
   fun W a b ha hb hb0 hba haW => posix.time_to_us_sub W a b ha hb hb0 hba haW,
   fun a b ha hb => posix.sub_add_cancel_tv a b ha hb⟩

/-- Witness for C13: 1000 - 300 and (700 + 300) - 300 on the Arduino adapter,
3 s 100000 us - 1 s 600000 us and the round trip on the POSIX adapter. -/
theorem C13_sub_time_exact_in_range_witness :
    arduino.time_to_us (arduino.sub_time 32 1000 300) =
      arduino.time_to_us 1000 - arduino.time_to_us 300 ∧
    arduino.sub_time 32 (arduino.add_time 32 700 300) 300 = 700 ∧
    (posix.time_to_us 64 ⟨1, 600000⟩ ≤ posix.time_to_us 64 ⟨3, 100000⟩ ∧
      posix.time_to_us 64 (posix.sub_time ⟨3, 100000⟩ ⟨1, 600000⟩) =
        posix.time_to_us 64 ⟨3, 100000⟩ - posix.time_to_us 64 ⟨1, 600000⟩) ∧
    posix.sub_time (posix.add_time ⟨3, 100000⟩ ⟨1, 900000⟩) ⟨1, 900000⟩ = ⟨3, 100000⟩ :=
  ⟨C13_sub_time_exact_in_range.1 32 1000 300 (by decide) (by decide),
   C13_sub_time_exact_in_range.2.1 32 700 300 (by decide) (by decide),
   C13_sub_time_exact_in_range.2.2.1 64 ⟨3, 100000⟩ ⟨1, 600000⟩ (by decide) (by decide)
     (by decide) (by decide) (by decide),
   C13_sub_time_exact_in_range.2.2.2 ⟨3, 100000⟩ ⟨1, 900000⟩ (by decide) (by decide)⟩

/-- Counterexample for C13 as stated: on the POSIX adapter with 32-bit `unsigned long`,
a = 4294 s 967296 us and b = 4294 s 967295 us are normalised with a ≥ b, and
time_to_us(sub_time(a, b)) = 1 while time_to_us(a) = 0 and time_to_us(b) = 4294967295.
With 64-bit `unsigned long`, a = 0 s and b = -1 s are normalised with a ≥ b, and
time_to_us(sub_time(a, b)) = 1000000 while time_to_us(a) = 0 and
time_to_us(b) = 2^64 - 1000000. -/
theorem C13_fails_beyond_unsigned_long :
    (posix.normalised ⟨4294, 967296⟩ ∧ posix.normalised ⟨4294, 967295⟩ ∧
      posix.not_before ⟨4294, 967295⟩ ⟨4294, 967296⟩ ∧
      posix.time_to_us 32 (posix.sub_time ⟨4294, 967296⟩ ⟨4294, 967295⟩) = 1 ∧
      posix.time_to_us 32 ⟨4294, 967296⟩ = 0 ∧
      posix.time_to_us 32 ⟨4294, 967295⟩ = 4294967295) ∧
    (posix.normalised ⟨0, 0⟩ ∧ posix.normalised ⟨-1, 0⟩ ∧
      posix.not_before ⟨-1, 0⟩ ⟨0, 0⟩ ∧
      posix.time_to_us 64 (posix.sub_time ⟨0, 0⟩ ⟨-1, 0⟩) = 1000000 ∧
      posix.time_to_us 64 ⟨0, 0⟩ = 0 ∧
      posix.time_to_us 64 ⟨-1, 0⟩ = 18446744073708551616) := by
  decide

/-- Claim C14: the value written by reset_time is the additive identity of add_time.
On the Arduino adapter, for every `unsigned long` value a, add_time(a, zero) = a and
add_time(zero, a) = a. On the POSIX adapter the same holds for every time value a, a
`struct timeval` with tv_usec < 1000000 as gettimeofday, timersub and timeradd
produce it (tv_usec may even be negative); it holds with the fields as integers and
with the fields stored in a `time_t` and a `suseconds_t` of any width that hold a. On
both adapters time_to_us(zero) = 0. -/
theorem C14_reset_time_is_additive_identity :
    (∀ w a x : Nat, a < 2 ^ w →
      arduino.add_time w a (arduino.reset_time x) = a ∧
      arduino.add_time w (arduino.reset_time x) a = a) ∧
    (∀ x : Nat, arduino.time_to_us (arduino.reset_time x) = 0) ∧
    (∀ a x : timeval, a.tv_usec < 1000000 →
      posix.add_time a (posix.reset_time x) = a ∧
      posix.add_time (posix.reset_time x) a = a) ∧
    (∀ (tb ub : Nat) (a x : timeval), 1 ≤ tb → 1 ≤ ub →
      posix_fixed.representable tb ub a → a.tv_usec < 1000000 →
      posix_fixed.add_time tb ub a (posix.reset_time x) = a ∧
      posix_fixed.add_time tb ub (posix.reset_time x) a = a) ∧
    (∀ (W : Nat) (x : timeval), posix.time_to_us W (posix.reset_time x) = 0) := by
  refine ⟨fun w a x ha => ?_, fun _ => rfl, fun a x h => posix.add_zero_tv a x h,
    fun tb ub a x htb hub hr h => posix_fixed.add_zero_stored tb ub a x htb hub hr h,
    fun W x => ?_⟩
  · constructor
    · simp [arduino.add_time, arduino.reset_time, Nat.mod_eq_of_lt ha]
    · simp [arduino.add_time, arduino.reset_time, Nat.mod_eq_of_lt ha]
  · simp [posix.time_to_us, posix.reset_time]

/-- Witness for C14: 12345 on the Arduino adapter and 7 s 999999 us on the POSIX
adapter, with zero written over arbitrary old content; on the POSIX adapter also with
64-bit fields. -/
theorem C14_reset_time_is_additive_identity_witness :
    (arduino.add_time 32 12345 (arduino.reset_time 99) = 12345 ∧
      arduino.add_time 32 (arduino.reset_time 99) 12345 = 12345) ∧
    (posix.add_time ⟨7, 999999⟩ (posix.reset_time ⟨3, 4⟩) = ⟨7, 999999⟩ ∧
      posix.add_time (posix.reset_time ⟨3, 4⟩) ⟨7, 999999⟩ = ⟨7, 999999⟩) ∧
    (posix_fixed.add_time 64 64 ⟨7, 999999⟩ (posix.reset_time ⟨3, 4⟩) = ⟨7, 999999⟩ ∧
      posix_fixed.add_time 64 64 (posix.reset_time ⟨3, 4⟩) ⟨7, 999999⟩ = ⟨7, 999999⟩) :=
  ⟨C14_reset_time_is_additive_identity.1 32 12345 99 (by decide),
   C14_reset_time_is_additive_identity.2.2.1 ⟨7, 999999⟩ ⟨3, 4⟩ (by decide),
   C14_reset_time_is_additive_identity.2.2.2.1 64 64 ⟨7, 999999⟩ ⟨3, 4⟩ (by decide)
     (by decide) (by decide) (by decide)⟩

/-- Claim C15, amended: on every target, for every state with taps ≥ 0 and every clock
reading t, tt_tap at t yields prd_sum' = add_time(prd_sum, sub_time(t, lst_t)) and
lst_t' = t, the one reading t serving for both; and taps' = taps + 1 provided
taps < INT_MAX, so that taps + 1 is a value of `int`. -/
theorem C15_tap_with_baseline {τ : Type} (P : tt_platform τ) (s : tempo_tapper τ) (t : τ)
    (h0 : 0 ≤ s.taps) :
    (tt_tap P t s).prd_sum = P.add_time s.prd_sum (P.sub_time t s.lst_t) ∧
    (tt_tap P t s).lst_t = t ∧
    (s.taps < INT_MAX P.int_bits → (tt_tap P t s).taps = s.taps + 1) := by
  refine ⟨by simp [tt_tap, h0], rfl, fun hmax => ?_⟩
  rw [tt_tap_of_nonneg P s t h0 (by omega)]

/-- Witness for C15: a tap at 1500 in a state with sum 700, last tap at 1000 and 2
intervals, on an Arduino target with 16-bit `int`. -/
theorem C15_tap_with_baseline_witness :
    (tt_tap (arduino.target 32 16) 1500 ⟨700, 1000, 2⟩).prd_sum =
      arduino.add_time 32 700 (arduino.sub_time 32 1500 1000) ∧
    (tt_tap (arduino.target 32 16) 1500 ⟨700, 1000, 2⟩).lst_t = 1500 ∧
    (tt_tap (arduino.target 32 16) 1500 ⟨700, 1000, 2⟩).taps = 2 + 1 :=
  ⟨(C15_tap_with_baseline (arduino.target 32 16) ⟨700, 1000, 2⟩ 1500 (by decide)).1,
   (C15_tap_with_baseline (arduino.target 32 16) ⟨700, 1000, 2⟩ 1500 (by decide)).2.1,
   (C15_tap_with_baseline (arduino.target 32 16) ⟨700, 1000, 2⟩ 1500 (by decide)).2.2
     (by norm_num [INT_MAX, arduino.target])⟩

/-- Counterexample for C15 as stated (every state with taps ≥ 0): with a 32-bit `int`
and taps = INT_MAX = 2147483647 the counter after tt_tap is -2147483648; no value of a
32-bit `int` equals taps + 1 = 2147483648. -/
theorem C15_fails_at_int_max :
    (0 : Int) ≤ (⟨0, 0, 2147483647⟩ : tempo_tapper Nat).taps ∧
    (tt_tap (arduino.target 32 32) 0 ⟨0, 0, 2147483647⟩).taps = -2147483648 ∧
    (tt_tap (arduino.target 32 32) 0 ⟨0, 0, 2147483647⟩).taps ≠
      (⟨0, 0, 2147483647⟩ : tempo_tapper Nat).taps + 1 ∧
    (∀ v : Int, v ≤ INT_MAX 32 → v ≠ 2147483647 + 1) := by
  refine ⟨by decide, by decide, by decide, fun v hv => ?_⟩
  norm_num [INT_MAX] at hv
  omega

/-- Claim C16: on every target (the `int` has at least one bit), for every state with
taps = -1 and every clock reading t, tt_tap at t leaves prd_sum unchanged, sets lst_t
to t and sets taps to 0; the content of lst_t before the call has no influence on the
result. -/
theorem C16_first_tap_sets_baseline {τ : Type} (P : tt_platform τ) (s : tempo_tapper τ)
    (t : τ) (h : s.taps = -1) (hb : 1 ≤ P.int_bits) :
    tt_tap P t s = { prd_sum := s.prd_sum, lst_t := t, taps := 0 } ∧
    (∀ l : τ, tt_tap P t { s with lst_t := l } = tt_tap P t s) := by
  have e : ∀ u : tempo_tapper τ, u.taps = -1 →
      tt_tap P t u = { prd_sum := u.prd_sum, lst_t := t, taps := 0 } := by
    intro u hu
    simp [tt_tap, hu, int_wrap_zero _ hb]
  exact ⟨e s h, fun l => by rw [e s h, e { s with lst_t := l } h]⟩

/-- Witness for C16: the first tap, at 1000, on a struct whose lst_t holds 424242. -/
theorem C16_first_tap_sets_baseline_witness :
    tt_tap (arduino.target 32 16) 1000 ⟨0, 424242, -1⟩ = ⟨0, 1000, 0⟩ ∧
    (∀ l : Nat, tt_tap (arduino.target 32 16) 1000 { (⟨0, 424242, -1⟩ : tempo_tapper Nat)
        with lst_t := l } = tt_tap (arduino.target 32 16) 1000 ⟨0, 424242, -1⟩) :=
  C16_first_tap_sets_baseline (arduino.target 32 16) ⟨0, 424242, -1⟩ 1000 rfl (by decide)

/-- Claim C17: on every target and for every state, tt_reset sets taps to -1 and
prd_sum to what reset_time writes, and leaves lst_t unchanged; on both adapters what
reset_time writes is the zero time value, and applying tt_reset twice gives the same
state as applying it once. -/
theorem C17_reset_effect :
    (∀ (τ : Type) (P : tt_platform τ) (s : tempo_tapper τ),
      (tt_reset P s).taps = -1 ∧
      (tt_reset P s).prd_sum = P.reset_time s.prd_sum ∧
      (tt_reset P s).lst_t = s.lst_t) ∧
    (∀ (w iw : Nat) (s : tempo_tapper Nat),
      tt_reset (arduino.target w iw) s = { prd_sum := 0, lst_t := s.lst_t, taps := -1 } ∧
      tt_reset (arduino.target w iw) (tt_reset (arduino.target w iw) s) =
        tt_reset (arduino.target w iw) s) ∧
    (∀ (W iw : Nat) (s : tempo_tapper timeval),
      tt_reset (posix.target W iw) s =
        { prd_sum := ⟨0, 0⟩, lst_t := s.lst_t, taps := -1 } ∧
      tt_reset (posix.target W iw) (tt_reset (posix.target W iw) s) =
        tt_reset (posix.target W iw) s) :=
  ⟨fun _ _ _ => ⟨rfl, rfl, rfl⟩, fun _ _ _ => ⟨rfl, rfl⟩, fun _ _ _ => ⟨rfl, rfl⟩⟩

/-! Auxiliary facts: sequences of calls and the state they reach -/

section call_facts

variable {τ : Type}

theorem apply_ops_snoc (P : tt_platform τ) (s : tempo_tapper τ) (ops : List (tt_op τ))
    (op : tt_op τ) : apply_ops P s (ops ++ [op]) = apply_op P (apply_ops P s ops) op := by
  simp [apply_ops, List.foldl_append]

theorem taps_since_reset_snoc_tap (ops : List (tt_op τ)) (t : τ) :
    taps_since_reset (ops ++ [tt_op.tap t]) = taps_since_reset ops + 1 := by
  simp [taps_since_reset, List.foldl_append]

theorem taps_since_reset_snoc_reset (ops : List (tt_op τ)) :
    taps_since_reset (ops ++ [tt_op.reset]) = 0 := by
  simp [taps_since_reset, List.foldl_append]

theorem apply_ops_map_tap (P : tt_platform τ) (ts : List τ) :
    ∀ s : tempo_tapper τ, apply_ops P s (ts.map tt_op.tap) = tap_all P s ts := by
  induction ts with
  | nil => intro s; rfl
  | cons t ts ih =>
    intro s
    have h := ih (tt_tap P t s)
    simpa [apply_ops, tap_all, apply_op] using h

theorem int_wrap_of_le_max (bits : Nat) (n : Nat) (hb : 1 ≤ bits)
    (h : (n : Int) ≤ INT_MAX bits) : int_wrap bits n = n := by
  unfold INT_MAX at h
  have hp : (0 : Int) < 2 ^ (bits - 1) := by positivity
  exact int_wrap_of_mem_range bits n hb (by omega) (by omega)

theorem apply_ops_taps (P : tt_platform τ) (s0 : tempo_tapper τ) (hf : fresh P s0)
    (hb : 1 ≤ P.int_bits) (ops : List (tt_op τ)) :
    (taps_since_reset ops : Int) - 1 ≤ INT_MAX P.int_bits →
      (apply_ops P s0 ops).taps = (taps_since_reset ops : Int) - 1 := by
  induction ops using List.reverseRecOn with
  | nil =>
    intro _
    show s0.taps = ((0 : Nat) : Int) - 1
    rw [fresh_taps P s0 hf]
    rfl
  | append_singleton ops op ih =>
    intro h
    rw [apply_ops_snoc]
    cases op with
    | tap t =>
      rw [taps_since_reset_snoc_tap] at h ⊢
      push_cast at h ⊢
      have hprev := ih (by omega)
      show int_wrap P.int_bits ((apply_ops P s0 ops).taps + 1) = _
      rw [hprev]
      have e : (taps_since_reset ops : Int) - 1 + 1 = ((taps_since_reset ops : Nat) : Int) := by
        omega
      rw [e, int_wrap_of_le_max _ _ hb (by omega)]
      omega
    | reset =>
      rw [taps_since_reset_snoc_reset]
      rfl

end call_facts

theorem arduino.intervals_length_ticks (ts : List Nat) :
    (arduino.intervals ts).length = ts.length - 1 := by
  induction ts with
  | nil => rfl
  | cons t ts ih =>
    cases ts with
    | nil => rfl
    | cons u us =>
      simp only [arduino.intervals, List.length_cons] at ih ⊢
      omega

theorem posix.intervals_length_tv (ts : List timeval) :
    (posix.intervals ts).length = ts.length - 1 := by
  induction ts with
  | nil => rfl
  | cons t ts ih =>
    cases ts with
    | nil => rfl
    | cons u us =>
      simp only [posix.intervals, List.length_cons] at ih ⊢
      omega

theorem arduino.state_after_taps_ticks (w iw : Nat) (s : tempo_tapper Nat)
    (hf : fresh (arduino.target w iw) s) (ts : List Nat) (hb : 1 ≤ iw)
    (hmax : (ts.length : Int) - 1 ≤ INT_MAX iw) (hw : ∀ t ∈ ts, t < 2 ^ w)
    (hs : ts.Pairwise (· ≤ ·)) :
    (tap_all (arduino.target w iw) s ts).taps = (ts.length : Int) - 1 ∧
    arduino.time_to_us (tap_all (arduino.target w iw) s ts).prd_sum =
      (arduino.intervals ts).sum := by
  obtain ⟨x, hx⟩ := fresh_prd_sum _ s hf
  have hp : s.prd_sum = 0 := by rw [hx]; rfl
  match ts with
  | [] => exact ⟨fresh_taps _ s hf, hp⟩
  | [t] =>
    rw [show tap_all (arduino.target w iw) s [t] = tt_tap (arduino.target w iw) t s from rfl,
      tt_tap_fresh _ s hf t hb]
    exact ⟨rfl, hp⟩
  | t :: u :: rest =>
    have hlen : ((t :: u :: rest).length : Int) = ((u :: rest).length : Int) + 1 := by simp
    rw [tap_all_fresh _ s hf t (u :: rest) (by simp) (by rw [hlen] at hmax; simpa using hmax)]
    have hsum := arduino.intervals_sum_ticks (u :: rest) t hs
    have hlast : (u :: rest).getLastD t < 2 ^ w := hw _ (getLastD_mem t (u :: rest))
    have hacc := arduino.accumulate_eq w iw (u :: rest) 0 t
      (fun y hy => hw y (List.mem_cons_of_mem _ hy)) hs (by omega)
    refine ⟨by rw [hlen]; simp, ?_⟩
    show accumulate (arduino.target w iw) s.prd_sum t (u :: rest) = _
    rw [hp, hacc]
    omega

theorem posix.state_after_taps_tv (W iw : Nat) (s : tempo_tapper timeval)
    (hf : fresh (posix.target W iw) s) (ts : List timeval) (hb : 1 ≤ iw)
    (hmax : (ts.length : Int) - 1 ≤ INT_MAX iw) (hn : ∀ t ∈ ts, posix.normalised t)
    (hs : ts.Pairwise posix.not_before) :
    (tap_all (posix.target W iw) s ts).taps = (ts.length : Int) - 1 ∧
    posix.normalised (tap_all (posix.target W iw) s ts).prd_sum ∧
    posix.usec_of (tap_all (posix.target W iw) s ts).prd_sum =
      ((posix.intervals ts).sum : Int) := by
  obtain ⟨x, hx⟩ := fresh_prd_sum _ s hf
  have hp : s.prd_sum = ⟨0, 0⟩ := by rw [hx]; rfl
  match ts with
  | [] =>
    refine ⟨fresh_taps _ s hf, ?_, ?_⟩
    · show posix.normalised s.prd_sum
      rw [hp]; exact posix.normalised_zero
    · show posix.usec_of s.prd_sum = _
      rw [hp]; exact posix.usec_of_zero
  | [t] =>
    rw [show tap_all (posix.target W iw) s [t] = tt_tap (posix.target W iw) t s from rfl,
      tt_tap_fresh _ s hf t hb]
    refine ⟨rfl, ?_, ?_⟩
    · show posix.normalised s.prd_sum
      rw [hp]; exact posix.normalised_zero
    · show posix.usec_of s.prd_sum = _
      rw [hp]; exact posix.usec_of_zero
  | t :: u :: rest =>
    have hlen : ((t :: u :: rest).length : Int) = ((u :: rest).length : Int) + 1 := by simp
    rw [tap_all_fresh _ s hf t (u :: rest) (by simp) (by rw [hlen] at hmax; simpa using hmax)]
    have hsum := posix.intervals_sum_tv (u :: rest) t hs
    have hacc := posix.accumulate_exact W iw (u :: rest) ⟨0, 0⟩ t posix.normalised_zero
      (hn t (List.mem_cons_self _ _)) (fun y hy => hn y (List.mem_cons_of_mem _ hy))
    refine ⟨by rw [hlen]; simp, ?_, ?_⟩
    · show posix.normalised (accumulate (posix.target W iw) s.prd_sum t (u :: rest))
      rw [hp]; exact hacc.1
    · show posix.usec_of (accumulate (posix.target W iw) s.prd_sum t (u :: rest)) = _
      rw [hp, hacc.2, hsum, posix.usec_of_zero]
      omega

/-- Claim C18, amended: on every target (the `int` has at least one bit), in every
state reached from a successful construct by a finite sequence of tt_tap and tt_reset
calls in which at most INT_MAX + 1 taps follow the last reset (or the construct),
taps ≥ -1 holds; taps is the number of taps since the last reset minus 1. -/
theorem C18_taps_at_least_minus_one {τ : Type} (P : tt_platform τ)
    (mem : Option (tempo_tapper τ)) (s0 : tempo_tapper τ) (ops : List (tt_op τ))
    (hnew : tt_new P mem = some s0) (hb : 1 ≤ P.int_bits)
    (hmax : (taps_since_reset ops : Int) - 1 ≤ INT_MAX P.int_bits) :
    -1 ≤ (apply_ops P s0 ops).taps ∧
    (apply_ops P s0 ops).taps = (taps_since_reset ops : Int) - 1 := by
  have h := apply_ops_taps P s0 (fresh_of_new P mem s0 hnew) hb ops hmax
  exact ⟨by rw [h]; omega, h⟩

/-- Witness for C18: construct, three taps, a reset and two taps on an Arduino target
with 16-bit `int` leave taps at 1. -/
theorem C18_taps_at_least_minus_one_witness :
    -1 ≤ (apply_ops (arduino.target 32 16) ⟨0, 456, -1⟩
        [tt_op.tap 10, tt_op.tap 20, tt_op.tap 30, tt_op.reset, tt_op.tap 40,
          tt_op.tap 50]).taps ∧
    (apply_ops (arduino.target 32 16) ⟨0, 456, -1⟩
        [tt_op.tap 10, tt_op.tap 20, tt_op.tap 30, tt_op.reset, tt_op.tap 40,
          tt_op.tap 50]).taps =
      ((taps_since_reset [tt_op.tap 10, tt_op.tap 20, tt_op.tap 30, tt_op.reset,
          tt_op.tap 40, tt_op.tap (50 : Nat)] : Nat) : Int) - 1 :=
  C18_taps_at_least_minus_one (arduino.target 32 16) (some ⟨123, 456, 789⟩) ⟨0, 456, -1⟩
    [tt_op.tap 10, tt_op.tap 20, tt_op.tap 30, tt_op.reset, tt_op.tap 40, tt_op.tap 50]
    rfl (by decide) (by norm_num [INT_MAX, arduino.target, taps_since_reset])

/-- Counterexample for C18 as stated (every reachable state): on a target with 32-bit
`int`, construct followed by 2^31 + 1 calls of tt_tap leaves taps at -2147483648,
which is below -1. -/
theorem C18_fails_after_int_max_taps :
    tt_new (arduino.target 32 32) (some ⟨0, 0, 0⟩) = some ⟨0, 0, -1⟩ ∧
    (apply_ops (arduino.target 32 32) ⟨0, 0, -1⟩
        ((List.replicate (2 ^ 31 + 1) 0).map tt_op.tap)).taps = -2147483648 ∧
    ¬ (-1 ≤ (apply_ops (arduino.target 32 32) ⟨0, 0, -1⟩
        ((List.replicate (2 ^ 31 + 1) 0).map tt_op.tap)).taps) := by
  have h : (apply_ops (arduino.target 32 32) ⟨0, 0, -1⟩
      ((List.replicate (2 ^ 31 + 1) 0).map tt_op.tap)).taps = -2147483648 := by
    rw [apply_ops_map_tap]
    have hw := (period_zero_of_wrapped (arduino.target 32 32) ⟨0, 0, -1⟩
      (Or.inl ⟨some ⟨0, 0, 0⟩, rfl⟩) (List.replicate (2 ^ 31 + 1) 0) (by decide)
      (by rw [List.length_replicate]
          show ((2 ^ 31 + 1 : Nat) : Int) = 2 ^ (32 - 1) + 1
          norm_num)).1
    rw [hw]
    show -(2 : Int) ^ (32 - 1) = -2147483648
    norm_num
  refine ⟨rfl, h, ?_⟩
  rw [h]
  decide

/-- Claim C19, amended: on both targets, in every state reached by reset (or construct)
followed by k ≥ 0 taps at non-decreasing clock readings, where the counter stays within
`int` (k - 1 ≤ INT_MAX), taps = k - 1, there are exactly max(taps, 0) intervals between
the consecutive readings of those taps, and time_to_us(prd_sum) equals their sum,
whatever the struct held before the reset: on the Arduino target always, on the POSIX
target when the sum fits `unsigned long`. -/
theorem C19_sum_reflects_intervals :
    (∀ (w iw : Nat) (s : tempo_tapper Nat) (ts : List Nat),
      fresh (arduino.target w iw) s → 1 ≤ iw →
      (ts.length : Int) - 1 ≤ INT_MAX iw →
      (∀ t ∈ ts, t < 2 ^ w) → ts.Pairwise (· ≤ ·) →
      (tap_all (arduino.target w iw) s ts).taps = (ts.length : Int) - 1 ∧
      (arduino.intervals ts).length =
        (max (tap_all (arduino.target w iw) s ts).taps 0).toNat ∧
      (arduino.target w iw).time_to_us (tap_all (arduino.target w iw) s ts).prd_sum =
        (arduino.intervals ts).sum) ∧
    (∀ (W iw : Nat) (s : tempo_tapper timeval) (ts : List timeval),
      fresh (posix.target W iw) s → 1 ≤ iw →
      (ts.length : Int) - 1 ≤ INT_MAX iw →
      (∀ t ∈ ts, posix.normalised t) → ts.Pairwise posix.not_before →
      (tap_all (posix.target W iw) s ts).taps = (ts.length : Int) - 1 ∧
      (posix.intervals ts).length =
        (max (tap_all (posix.target W iw) s ts).taps 0).toNat ∧
      (((posix.intervals ts).sum : Int) < 2 ^ W →
        (posix.target W iw).time_to_us (tap_all (posix.target W iw) s ts).prd_sum =
          (posix.intervals ts).sum)) := by
  constructor
  · intro w iw s ts hf hb hmax hw hs
    have h := arduino.state_after_taps_ticks w iw s hf ts hb hmax hw hs
    refine ⟨h.1, ?_, h.2⟩
    rw [h.1, arduino.intervals_length_ticks]
    omega
  · intro W iw s ts hf hb hmax hn hs
    have h := posix.state_after_taps_tv W iw s hf ts hb hmax hn hs
    refine ⟨h.1, ?_, fun hW => ?_⟩
    · rw [h.1, posix.intervals_length_tv]
      omega
    · have hto := posix.time_to_us_of_lt W (tap_all (posix.target W iw) s ts).prd_sum
        (by rw [h.2.2]; exact Int.natCast_nonneg _) (by rw [h.2.2]; exact hW)
      rw [h.2.2] at hto
      show posix.time_to_us W _ = _
      exact_mod_cast hto

/-- Witness for C19: a struct that holds a sum of 900 over 3 intervals is reset and
tapped at 10, 20 and 45; the sum is then 10 + 25 over 2 intervals. The same on the
POSIX target. -/
theorem C19_sum_reflects_intervals_witness :
    ((tap_all (arduino.target 32 16) (tt_reset (arduino.target 32 16) ⟨900, 77, 3⟩)
        [10, 20, 45]).taps = ((3 : Nat) : Int) - 1 ∧
      (arduino.intervals [10, 20, 45]).length =
        (max (tap_all (arduino.target 32 16) (tt_reset (arduino.target 32 16) ⟨900, 77, 3⟩)
          [10, 20, 45]).taps 0).toNat ∧
      (arduino.target 32 16).time_to_us
        (tap_all (arduino.target 32 16) (tt_reset (arduino.target 32 16) ⟨900, 77, 3⟩)
          [10, 20, 45]).prd_sum = (arduino.intervals [10, 20, 45]).sum) ∧
    (posix.target 64 32).time_to_us
        (tap_all (posix.target 64 32) (tt_reset (posix.target 64 32) ⟨⟨9, 1⟩, ⟨7, 7⟩, 3⟩)
          [⟨1, 999990⟩, ⟨2, 0⟩, ⟨2, 25⟩]).prd_sum =
      (posix.intervals [⟨1, 999990⟩, ⟨2, 0⟩, ⟨2, 25⟩]).sum :=
  ⟨C19_sum_reflects_intervals.1 32 16 _ [10, 20, 45] (Or.inr ⟨_, rfl⟩) (by decide)
      (by norm_num [INT_MAX]) (by decide) (by decide),
   (C19_sum_reflects_intervals.2 64 32 _ [⟨1, 999990⟩, ⟨2, 0⟩, ⟨2, 25⟩] (Or.inr ⟨_, rfl⟩)
      (by decide) (by norm_num [INT_MAX]) (by decide) (by decide)).2.2 (by decide)⟩

/-- Counterexample for C19 as stated (every k). First, on a target with 32-bit `int`,
reset followed by k = 2^31 + 1 taps at the non-decreasing readings 0, 2^31, ..., 2^31
leaves taps at -2147483648 and not at k - 1 = 2147483648. Second, on a POSIX target
with 32-bit `unsigned long`, three taps 2^31 microseconds apart leave taps at 2 and a
sum of two intervals of 4294967296 microseconds, while time_to_us(prd_sum) is 0. -/
theorem C19_fails_beyond_machine_range :
    ((∀ t ∈ 0 :: List.replicate (2 ^ 31) (2 ^ 31), t < 2 ^ 32) ∧
      (0 :: List.replicate (2 ^ 31) (2 ^ 31)).Pairwise (· ≤ ·) ∧
      (tap_all (arduino.target 32 32) (tt_reset (arduino.target 32 32) ⟨0, 0, 0⟩)
          (0 :: List.replicate (2 ^ 31) (2 ^ 31))).taps = -2147483648 ∧
      (((0 :: List.replicate (2 ^ 31) (2 ^ 31)).length : Nat) : Int) - 1 = 2147483648) ∧
    ((∀ t ∈ [(⟨0, 0⟩ : timeval), ⟨2147, 483648⟩, ⟨4294, 967296⟩], posix.normalised t) ∧
      [(⟨0, 0⟩ : timeval), ⟨2147, 483648⟩, ⟨4294, 967296⟩].Pairwise posix.not_before ∧
      (tap_all (posix.target 32 32) (tt_reset (posix.target 32 32) ⟨⟨0, 0⟩, ⟨0, 0⟩, 0⟩)
          [⟨0, 0⟩, ⟨2147, 483648⟩, ⟨4294, 967296⟩]).taps = 2 ∧
      (posix.target 32 32).time_to_us
          (tap_all (posix.target 32 32) (tt_reset (posix.target 32 32) ⟨⟨0, 0⟩, ⟨0, 0⟩, 0⟩)
            [⟨0, 0⟩, ⟨2147, 483648⟩, ⟨4294, 967296⟩]).prd_sum = 0 ∧
      (posix.intervals [⟨0, 0⟩, ⟨2147, 483648⟩, ⟨4294, 967296⟩]).sum = 4294967296) := by
  refine ⟨⟨?_, pairwise_cons_replicate 0 _ _ (Nat.zero_le _), ?_, ?_⟩, by decide⟩
  · intro t ht
    rcases List.mem_cons.mp ht with h | h
    · rw [h]; norm_num
    · rw [List.eq_of_mem_replicate h]; norm_num
  · have hw := (period_zero_of_wrapped (arduino.target 32 32)
      (tt_reset (arduino.target 32 32) ⟨0, 0, 0⟩) (Or.inr ⟨_, rfl⟩)
      (0 :: List.replicate (2 ^ 31) (2 ^ 31)) (by decide)
      (by rw [List.length_cons, List.length_replicate]
          show ((2 ^ 31 + 1 : Nat) : Int) = 2 ^ (32 - 1) + 1
          norm_num)).1
    rw [hw]
    show -(2 : Int) ^ (32 - 1) = -2147483648
    norm_num
  · rw [List.length_cons, List.length_replicate]
    norm_num

/-! Auxiliary facts: the telescoped sum -/

theorem arduino.period_telescoped_ticks (w iw : Nat) (s : tempo_tapper Nat)
    (hf : fresh (arduino.target w iw) s) (t1 : Nat) (rest : List Nat)
    (h1 : 1 ≤ rest.length) (hmax : (rest.length : Int) ≤ INT_MAX iw)
    (hw : ∀ t ∈ t1 :: rest, t < 2 ^ w) (hs : (t1 :: rest).Pairwise (· ≤ ·)) :
    tt_period_us (arduino.target w iw) (tap_all (arduino.target w iw) s (t1 :: rest)) =
      (rest.getLastD t1 - t1) / rest.length := by
  have hp := arduino.period_after_taps_ticks w iw s hf (t1 :: rest)
    (by simp only [List.length_cons]; omega)
    (by simp only [List.length_cons]; push_cast; omega) hw hs
  have hsum := arduino.intervals_sum_ticks rest t1 hs
  rw [hp]
  have e : (arduino.intervals (t1 :: rest)).sum = rest.getLastD t1 - t1 := by omega
  rw [e]
  simp

theorem posix.period_telescoped_tv (W iw : Nat) (s : tempo_tapper timeval)
    (hf : fresh (posix.target W iw) s) (t1 : timeval) (rest : List timeval)
    (h1 : 1 ≤ rest.length) (hmax : (rest.length : Int) ≤ INT_MAX iw)
    (hn : ∀ t ∈ t1 :: rest, posix.normalised t)
    (hs : (t1 :: rest).Pairwise posix.not_before)
    (hW : posix.usec_of (rest.getLastD t1) - posix.usec_of t1 < 2 ^ W) :
    tt_period_us (posix.target W iw) (tap_all (posix.target W iw) s (t1 :: rest)) =
      (posix.usec_of (rest.getLastD t1) - posix.usec_of t1).toNat / rest.length := by
  have hsum := posix.intervals_sum_tv rest t1 hs
  have hp := posix.period_after_taps_tv W iw s hf (t1 :: rest)
    (by simp only [List.length_cons]; omega)
    (by simp only [List.length_cons]; push_cast; omega) hn hs (by rw [hsum]; exact hW)
  rw [hp]
  have e : (posix.intervals (t1 :: rest)).sum =
      (posix.usec_of (rest.getLastD t1) - posix.usec_of t1).toNat := by
    rw [← hsum]; exact (Int.toNat_ofNat _).symm
  rw [e]
  simp

/-- Claim C20, amended: the accumulated sum telescopes. On both targets, for every
N ≥ 2 with N - 1 ≤ INT_MAX and non-decreasing clock readings t1..tN, after reset (or
construct) followed by taps at those readings tt_period_us is the floor of
(tN - t1) / (N - 1); on the POSIX target tN - t1 has to fit `unsigned long`. Two such
sequences with the same first reading, the same last reading and the same number of
taps give the same period, whatever their intermediate readings. The sequence is
written t1 :: rest, so that N - 1 is the length of rest. -/
theorem C20_period_telescopes :
    (∀ (w iw : Nat) (s : tempo_tapper Nat) (t1 : Nat) (rest : List Nat),
      fresh (arduino.target w iw) s → 1 ≤ rest.length →
      (rest.length : Int) ≤ INT_MAX iw →
      (∀ t ∈ t1 :: rest, t < 2 ^ w) → (t1 :: rest).Pairwise (· ≤ ·) →
      tt_period_us (arduino.target w iw) (tap_all (arduino.target w iw) s (t1 :: rest)) =
        (rest.getLastD t1 - t1) / rest.length) ∧
    (∀ (w iw : Nat) (s : tempo_tapper Nat) (t1 : Nat) (rest other : List Nat),
      fresh (arduino.target w iw) s → 1 ≤ rest.length →
      (rest.length : Int) ≤ INT_MAX iw →
      (∀ t ∈ t1 :: rest, t < 2 ^ w) → (t1 :: rest).Pairwise (· ≤ ·) →
      (∀ t ∈ t1 :: other, t < 2 ^ w) → (t1 :: other).Pairwise (· ≤ ·) →
      other.length = rest.length → other.getLastD t1 = rest.getLastD t1 →
      tt_period_us (arduino.target w iw) (tap_all (arduino.target w iw) s (t1 :: other)) =
        tt_period_us (arduino.target w iw)
          (tap_all (arduino.target w iw) s (t1 :: rest))) ∧
    (∀ (W iw : Nat) (s : tempo_tapper timeval) (t1 : timeval) (rest : List timeval),
      fresh (posix.target W iw) s → 1 ≤ rest.length →
      (rest.length : Int) ≤ INT_MAX iw →
      (∀ t ∈ t1 :: rest, posix.normalised t) → (t1 :: rest).Pairwise posix.not_before →
      posix.usec_of (rest.getLastD t1) - posix.usec_of t1 < 2 ^ W →
      tt_period_us (posix.target W iw) (tap_all (posix.target W iw) s (t1 :: rest)) =
        (posix.usec_of (rest.getLastD t1) - posix.usec_of t1).toNat / rest.length) ∧
    (∀ (W iw : Nat) (s : tempo_tapper timeval) (t1 : timeval) (rest other : List timeval),
      fresh (posix.target W iw) s → 1 ≤ rest.length →
      (rest.length : Int) ≤ INT_MAX iw →
      (∀ t ∈ t1 :: rest, posix.normalised t) → (t1 :: rest).Pairwise posix.not_before →
      (∀ t ∈ t1 :: other, posix.normalised t) → (t1 :: other).Pairwise posix.not_before →
      posix.usec_of (rest.getLastD t1) - posix.usec_of t1 < 2 ^ W →
      other.length = rest.length → other.getLastD t1 = rest.getLastD t1 →
      tt_period_us (posix.target W iw) (tap_all (posix.target W iw) s (t1 :: other)) =
        tt_period_us (posix.target W iw)
          (tap_all (posix.target W iw) s (t1 :: rest))) := by
  refine ⟨fun w iw s t1 rest hf h1 hmax hw hs =>
      arduino.period_telescoped_ticks w iw s hf t1 rest h1 hmax hw hs, ?_,
    fun W iw s t1 rest hf h1 hmax hn hs hW =>
      posix.period_telescoped_tv W iw s hf t1 rest h1 hmax hn hs hW, ?_⟩
  · intro w iw s t1 rest other hf h1 hmax hw hs hw2 hs2 hlen hlast
    rw [arduino.period_telescoped_ticks w iw s hf t1 rest h1 hmax hw hs,
      arduino.period_telescoped_ticks w iw s hf t1 other (by omega) (by omega) hw2 hs2,
      hlen, hlast]
  · intro W iw s t1 rest other hf h1 hmax hn hs hn2 hs2 hW hlen hlast
    rw [posix.period_telescoped_tv W iw s hf t1 rest h1 hmax hn hs hW,
      posix.period_telescoped_tv W iw s hf t1 other (by omega) (by omega) hn2 hs2
        (by rw [hlast]; exact hW),
      hlen, hlast]

/-- Witness for C20: four taps from 100 to 1000 give the floor of 900 / 3 = 300, with
the intermediate readings 200, 300 as with 650, 990; three taps from 1 s 500000 us to
4 s 0 us give the floor of 2500000 / 2. -/
theorem C20_period_telescopes_witness :
    tt_period_us (arduino.target 32 16)
        (tap_all (arduino.target 32 16) (tt_reset (arduino.target 32 16) ⟨7, 9, 4⟩)
          (100 :: [200, 300, 1000])) = (1000 - 100) / 3 ∧
    tt_period_us (arduino.target 32 16)
        (tap_all (arduino.target 32 16) (tt_reset (arduino.target 32 16) ⟨7, 9, 4⟩)
          (100 :: [650, 990, 1000])) =
      tt_period_us (arduino.target 32 16)
        (tap_all (arduino.target 32 16) (tt_reset (arduino.target 32 16) ⟨7, 9, 4⟩)
          (100 :: [200, 300, 1000])) ∧
    tt_period_us (posix.target 64 32)
        (tap_all (posix.target 64 32) (tt_reset (posix.target 64 32) ⟨⟨7, 9⟩, ⟨1, 2⟩, 4⟩)
          (⟨1, 500000⟩ :: [⟨1, 500001⟩, ⟨4, 0⟩])) = 2500000 / 2 ∧
    tt_period_us (posix.target 64 32)
        (tap_all (posix.target 64 32) (tt_reset (posix.target 64 32) ⟨⟨7, 9⟩, ⟨1, 2⟩, 4⟩)
          (⟨1, 500000⟩ :: [⟨3, 999999⟩, ⟨4, 0⟩])) =
      tt_period_us (posix.target 64 32)
        (tap_all (posix.target 64 32) (tt_reset (posix.target 64 32) ⟨⟨7, 9⟩, ⟨1, 2⟩, 4⟩)
          (⟨1, 500000⟩ :: [⟨1, 500001⟩, ⟨4, 0⟩])) :=
  ⟨C20_period_telescopes.1 32 16 _ 100 [200, 300, 1000] (Or.inr ⟨_, rfl⟩) (by decide)
      (by norm_num [INT_MAX]) (by decide) (by decide),
   C20_period_telescopes.2.1 32 16 _ 100 [200, 300, 1000] [650, 990, 1000]
      (Or.inr ⟨_, rfl⟩) (by decide) (by norm_num [INT_MAX]) (by decide) (by decide)
      (by decide) (by decide) rfl rfl,
   C20_period_telescopes.2.2.1 64 32 _ ⟨1, 500000⟩ [⟨1, 500001⟩, ⟨4, 0⟩] (Or.inr ⟨_, rfl⟩)
      (by decide) (by norm_num [INT_MAX]) (by decide) (by decide) (by decide),
   C20_period_telescopes.2.2.2 64 32 _ ⟨1, 500000⟩ [⟨1, 500001⟩, ⟨4, 0⟩]
      [⟨3, 999999⟩, ⟨4, 0⟩] (Or.inr ⟨_, rfl⟩) (by decide) (by norm_num [INT_MAX])
      (by decide) (by decide) (by decide) (by decide) (by decide) rfl rfl⟩

/-- Counterexample for C20 as stated (every N ≥ 2). First, on a target with 32-bit
`int` and 32-bit `unsigned long`, N = 2^31 + 1 taps at the non-decreasing readings
0, 2^31, ..., 2^31 give tt_period_us = 0, while the floor of (tN - t1) / (N - 1) is 1.
Second, on a POSIX target with 32-bit `unsigned long`, three taps at 0, 2^31 and 2^32
microseconds give tt_period_us = 0, while the floor of (tN - t1) / (N - 1) is
2147483648. -/
theorem C20_fails_beyond_machine_range :
    ((∀ t ∈ 0 :: List.replicate (2 ^ 31) (2 ^ 31), t < 2 ^ 32) ∧
      (0 :: List.replicate (2 ^ 31) (2 ^ 31)).Pairwise (· ≤ ·) ∧
      tt_period_us (arduino.target 32 32)
          (tap_all (arduino.target 32 32) (tt_reset (arduino.target 32 32) ⟨0, 0, 0⟩)
            (0 :: List.replicate (2 ^ 31) (2 ^ 31))) = 0 ∧
      ((List.replicate (2 ^ 31) (2 ^ 31)).getLastD 0 - 0) /
          (List.replicate (2 ^ 31) (2 ^ 31)).length = 1) ∧
    ((∀ t ∈ [(⟨0, 0⟩ : timeval), ⟨2147, 483648⟩, ⟨4294, 967296⟩], posix.normalised t) ∧
      [(⟨0, 0⟩ : timeval), ⟨2147, 483648⟩, ⟨4294, 967296⟩].Pairwise posix.not_before ∧
      tt_period_us (posix.target 32 32)
          (tap_all (posix.target 32 32) (tt_reset (posix.target 32 32) ⟨⟨0, 0⟩, ⟨0, 0⟩, 0⟩)
            (⟨0, 0⟩ :: [⟨2147, 483648⟩, ⟨4294, 967296⟩])) = 0 ∧
      (posix.usec_of ([(⟨2147, 483648⟩ : timeval), ⟨4294, 967296⟩].getLastD ⟨0, 0⟩) -
          posix.usec_of ⟨0, 0⟩).toNat /
        [(⟨2147, 483648⟩ : timeval), ⟨4294, 967296⟩].length = 2147483648) := by
  refine ⟨⟨?_, pairwise_cons_replicate 0 _ _ (Nat.zero_le _), ?_, ?_⟩, by decide⟩
  · intro t ht
    rcases List.mem_cons.mp ht with h | h
    · rw [h]; norm_num
    · rw [List.eq_of_mem_replicate h]; norm_num
  · exact (period_zero_of_wrapped (arduino.target 32 32)
      (tt_reset (arduino.target 32 32) ⟨0, 0, 0⟩) (Or.inr ⟨_, rfl⟩)
      (0 :: List.replicate (2 ^ 31) (2 ^ 31)) (by decide)
      (by rw [List.length_cons, List.length_replicate]
          show ((2 ^ 31 + 1 : Nat) : Int) = 2 ^ (32 - 1) + 1
          norm_num)).2
  · have e : (2 : Nat) ^ 31 = 2147483647 + 1 := by norm_num
    rw [List.length_replicate, e, getLastD_replicate]

/-! Auxiliary facts: the smallest and the largest interval -/

theorem smallest_le_of_mem (l : List Nat) : ∀ x ∈ l, smallest l ≤ x := by
  induction l with
  | nil => intro x hx; simp at hx
  | cons a l ih =>
    intro x hx
    cases l with
    | nil =>
      simp only [List.mem_singleton] at hx
      rw [hx]; exact le_refl _
    | cons b rest =>
      simp only [smallest]
      rcases List.mem_cons.mp hx with e | e
      · rw [e]; exact Nat.min_le_left _ _
      · exact le_trans (Nat.min_le_right _ _) (ih x e)

theorem le_largest_of_mem (l : List Nat) : ∀ x ∈ l, x ≤ largest l := by
  induction l with
  | nil => intro x hx; simp at hx
  | cons a l ih =>
    intro x hx
    cases l with
    | nil =>
      simp only [List.mem_singleton] at hx
      rw [hx]; exact le_refl _
    | cons b rest =>
      simp only [largest]
      rcases List.mem_cons.mp hx with e | e
      · rw [e]; exact Nat.le_max_left _ _
      · exact le_trans (ih x e) (Nat.le_max_right _ _)

theorem smallest_mem (l : List Nat) (h : l ≠ []) : smallest l ∈ l := by
  induction l with
  | nil => exact absurd rfl h
  | cons a l ih =>
    cases l with
    | nil => simp [smallest]
    | cons b rest =>
      simp only [smallest]
      rcases Nat.le_total a (smallest (b :: rest)) with hle | hle
      · rw [Nat.min_eq_left hle]; exact List.mem_cons_self _ _
      · rw [Nat.min_eq_right hle]
        exact List.mem_cons_of_mem _ (ih (List.cons_ne_nil _ _))

theorem length_mul_le_sum (l : List Nat) (m : Nat) (h : ∀ x ∈ l, m ≤ x) :
    l.length * m ≤ l.sum := by
  induction l with
  | nil => simp
  | cons a l ih =>
    have ha := h a (List.mem_cons_self _ _)
    have := ih (fun x hx => h x (List.mem_cons_of_mem _ hx))
    simp only [List.length_cons, List.sum_cons]
    rw [Nat.add_mul]
    omega

theorem sum_le_length_mul (l : List Nat) (m : Nat) (h : ∀ x ∈ l, x ≤ m) :
    l.sum ≤ l.length * m := by
  induction l with
  | nil => simp
  | cons a l ih =>
    have ha := h a (List.mem_cons_self _ _)
    have := ih (fun x hx => h x (List.mem_cons_of_mem _ hx))
    simp only [List.length_cons, List.sum_cons]
    rw [Nat.add_mul]
    omega

theorem mean_between (l : List Nat) (h : 1 ≤ l.length) :
    smallest l ≤ l.sum / l.length ∧ l.sum / l.length ≤ largest l := by
  constructor
  · rw [Nat.le_div_iff_mul_le (by omega)]
    rw [Nat.mul_comm]
    exact length_mul_le_sum l _ (smallest_le_of_mem l)
  · exact Nat.div_le_of_le_mul (sum_le_length_mul l _ (le_largest_of_mem l))

theorem arduino.spaced_intervals_mem_ticks (d : Nat) (ts : List Nat)
    (h : arduino.spaced d ts) : ∀ x ∈ arduino.intervals ts, x = d := by
  induction ts with
  | nil => intro x hx; simp [arduino.intervals] at hx
  | cons t ts ih =>
    cases ts with
    | nil => intro x hx; simp [arduino.intervals] at hx
    | cons u us =>
      obtain ⟨h1, h2⟩ := h
      intro x hx
      simp only [arduino.intervals, List.mem_cons] at hx
      rcases hx with e | e
      · rw [e, h1]; omega
      · exact ih h2 x e

theorem arduino.period_between_ticks (w iw : Nat) (s : tempo_tapper Nat)
    (hf : fresh (arduino.target w iw) s) (ts : List Nat) (hN : 2 ≤ ts.length)
    (hmax : (ts.length : Int) - 1 ≤ INT_MAX iw) (hw : ∀ t ∈ ts, t < 2 ^ w)
    (hs : ts.Pairwise (· ≤ ·)) :
    smallest (arduino.intervals ts) ≤
      tt_period_us (arduino.target w iw) (tap_all (arduino.target w iw) s ts) ∧
    tt_period_us (arduino.target w iw) (tap_all (arduino.target w iw) s ts) ≤
      largest (arduino.intervals ts) := by
  rw [arduino.period_after_taps_ticks w iw s hf ts hN hmax hw hs]
  have hl := arduino.intervals_length_ticks ts
  have := mean_between (arduino.intervals ts) (by omega)
  rw [hl] at this
  exact this

theorem posix.period_between_tv (W iw : Nat) (s : tempo_tapper timeval)
    (hf : fresh (posix.target W iw) s) (ts : List timeval) (hN : 2 ≤ ts.length)
    (hmax : (ts.length : Int) - 1 ≤ INT_MAX iw) (hn : ∀ t ∈ ts, posix.normalised t)
    (hs : ts.Pairwise posix.not_before) (hW : ((posix.intervals ts).sum : Int) < 2 ^ W) :
    smallest (posix.intervals ts) ≤
      tt_period_us (posix.target W iw) (tap_all (posix.target W iw) s ts) ∧
    tt_period_us (posix.target W iw) (tap_all (posix.target W iw) s ts) ≤
      largest (posix.intervals ts) := by
  rw [posix.period_after_taps_tv W iw s hf ts hN hmax hn hs hW]
  have hl := posix.intervals_length_tv ts
  have := mean_between (posix.intervals ts) (by omega)
  rw [hl] at this
  exact this

/-- Claim C21, amended: on both targets, for every N ≥ 2 with N - 1 ≤ INT_MAX and
non-decreasing clock readings, the period reported after construct (or reset) and N taps
lies between the smallest and the largest of the N - 1 measured inter-tap intervals:
min(di) ≤ tt_period_us ≤ max(di). On the POSIX target the sum of the intervals has to
fit `unsigned long`; on the Arduino target it always does. -/
theorem C21_period_between_extremes :
    (∀ (w iw : Nat) (s : tempo_tapper Nat) (ts : List Nat),
      fresh (arduino.target w iw) s → 2 ≤ ts.length →
      (ts.length : Int) - 1 ≤ INT_MAX iw →
      (∀ t ∈ ts, t < 2 ^ w) → ts.Pairwise (· ≤ ·) →
      smallest (arduino.intervals ts) ≤
        tt_period_us (arduino.target w iw) (tap_all (arduino.target w iw) s ts) ∧
      tt_period_us (arduino.target w iw) (tap_all (arduino.target w iw) s ts) ≤
        largest (arduino.intervals ts)) ∧
    (∀ (W iw : Nat) (s : tempo_tapper timeval) (ts : List timeval),
      fresh (posix.target W iw) s → 2 ≤ ts.length →
      (ts.length : Int) - 1 ≤ INT_MAX iw →
      (∀ t ∈ ts, posix.normalised t) → ts.Pairwise posix.not_before →
      ((posix.intervals ts).sum : Int) < 2 ^ W →
      smallest (posix.intervals ts) ≤
        tt_period_us (posix.target W iw) (tap_all (posix.target W iw) s ts) ∧
      tt_period_us (posix.target W iw) (tap_all (posix.target W iw) s ts) ≤
        largest (posix.intervals ts)) :=
  ⟨fun w iw s ts hf hN hmax hw hs => arduino.period_between_ticks w iw s hf ts hN hmax hw hs,
   fun W iw s ts hf hN hmax hn hs hW =>
     posix.period_between_tv W iw s hf ts hN hmax hn hs hW⟩

/-- Witness for C21: taps at 10, 20, 45 and 50 have the intervals 10, 25 and 5; the
period 13 lies between 5 and 25. The same intervals on the POSIX target. -/
theorem C21_period_between_extremes_witness :
    (smallest (arduino.intervals [10, 20, 45, 50]) ≤
        tt_period_us (arduino.target 32 16)
          (tap_all (arduino.target 32 16) (tt_reset (arduino.target 32 16) ⟨7, 9, 4⟩)
            [10, 20, 45, 50]) ∧
      tt_period_us (arduino.target 32 16)
          (tap_all (arduino.target 32 16) (tt_reset (arduino.target 32 16) ⟨7, 9, 4⟩)
            [10, 20, 45, 50]) ≤ largest (arduino.intervals [10, 20, 45, 50])) ∧
    (smallest (posix.intervals [⟨1, 999990⟩, ⟨2, 0⟩, ⟨2, 25⟩, ⟨2, 30⟩]) ≤
        tt_period_us (posix.target 64 32)
          (tap_all (posix.target 64 32) (tt_reset (posix.target 64 32) ⟨⟨7, 9⟩, ⟨1, 2⟩, 4⟩)
            [⟨1, 999990⟩, ⟨2, 0⟩, ⟨2, 25⟩, ⟨2, 30⟩]) ∧
      tt_period_us (posix.target 64 32)
          (tap_all (posix.target 64 32) (tt_reset (posix.target 64 32) ⟨⟨7, 9⟩, ⟨1, 2⟩, 4⟩)
            [⟨1, 999990⟩, ⟨2, 0⟩, ⟨2, 25⟩, ⟨2, 30⟩]) ≤
        largest (posix.intervals [⟨1, 999990⟩, ⟨2, 0⟩, ⟨2, 25⟩, ⟨2, 30⟩])) :=
  ⟨C21_period_between_extremes.1 32 16 _ [10, 20, 45, 50] (Or.inr ⟨_, rfl⟩) (by decide)
      (by norm_num [INT_MAX]) (by decide) (by decide),
   C21_period_between_extremes.2 64 32 _ [⟨1, 999990⟩, ⟨2, 0⟩, ⟨2, 25⟩, ⟨2, 30⟩]
      (Or.inr ⟨_, rfl⟩) (by decide) (by norm_num [INT_MAX]) (by decide) (by decide)
      (by decide)⟩

/-- Counterexample for C21 as stated (every N ≥ 2). First, on a target with 32-bit
`int` and 32-bit `unsigned long`, 2^31 + 1 taps at the readings 0, 1, 2, ..., 2^31 have
intervals that are all 1, so the smallest is 1, while tt_period_us returns 0. Second, on
a POSIX target with 32-bit `unsigned long`, three taps 2^31 microseconds apart have the
smallest interval 2147483648, while tt_period_us returns 0. -/
theorem C21_fails_beyond_machine_range :
    (2 ≤ (List.range' 0 (2 ^ 31 + 1) 1).length ∧
      (∀ t ∈ List.range' 0 (2 ^ 31 + 1) 1, t < 2 ^ 32) ∧
      (List.range' 0 (2 ^ 31 + 1) 1).Pairwise (· ≤ ·) ∧
      smallest (arduino.intervals (List.range' 0 (2 ^ 31 + 1) 1)) = 1 ∧
      tt_period_us (arduino.target 32 32)
          (tap_all (arduino.target 32 32) (tt_reset (arduino.target 32 32) ⟨0, 0, 0⟩)
            (List.range' 0 (2 ^ 31 + 1) 1)) = 0) ∧
    (2 ≤ [(⟨0, 0⟩ : timeval), ⟨2147, 483648⟩, ⟨4294, 967296⟩].length ∧
      (∀ t ∈ [(⟨0, 0⟩ : timeval), ⟨2147, 483648⟩, ⟨4294, 967296⟩], posix.normalised t) ∧
      [(⟨0, 0⟩ : timeval), ⟨2147, 483648⟩, ⟨4294, 967296⟩].Pairwise posix.not_before ∧
      smallest (posix.intervals [⟨0, 0⟩, ⟨2147, 483648⟩, ⟨4294, 967296⟩]) = 2147483648 ∧
      tt_period_us (posix.target 32 32)
          (tap_all (posix.target 32 32) (tt_reset (posix.target 32 32) ⟨⟨0, 0⟩, ⟨0, 0⟩, 0⟩)
            [⟨0, 0⟩, ⟨2147, 483648⟩, ⟨4294, 967296⟩]) = 0) := by
  have hsp : arduino.spaced 1 (List.range' 0 (2 ^ 31 + 1) 1) := arduino.spaced_range 1 _ 0
  have hlen : (List.range' 0 (2 ^ 31 + 1) 1).length = 2 ^ 31 + 1 := List.length_range' _ _ _
  refine ⟨⟨?_, ?_, arduino.spaced_pairwise_ticks 1 _ hsp, ?_, ?_⟩, by decide⟩
  · rw [hlen]; norm_num
  · intro t ht
    obtain ⟨i, hi, rfl⟩ := List.mem_range'.mp ht
    have : (2 : Nat) ^ 31 + 1 < 2 ^ 32 := by norm_num
    omega
  · apply arduino.spaced_intervals_mem_ticks 1 _ hsp
    apply smallest_mem
    intro hnil
    have h0 := arduino.intervals_length_ticks (List.range' 0 (2 ^ 31 + 1) 1)
    rw [hnil, hlen] at h0
    simp at h0
  · refine (period_zero_of_wrapped (arduino.target 32 32) _ (Or.inr ⟨_, rfl⟩) _ ?_ ?_).2
    · show 1 ≤ 32
      norm_num
    · rw [hlen]
      show ((2 ^ 31 + 1 : Nat) : Int) = 2 ^ (32 - 1) + 1
      norm_num

/-- Claim C22: on the Arduino adapter, with time values as w-bit unsigned integers,
sub_time(now, last) equals the true elapsed microseconds e between the two readings
whenever e is below 2^w, wherever the tick counter stood at the first reading, so also
when it wrapped past 2^w in between and now is numerically below last. A tt_tap with a
baseline then adds exactly e to prd_sum (modulo 2^w). -/
theorem C22_sub_time_across_wrap (w elapsed0 e : Nat) (he : e < 2 ^ w) :
    arduino.sub_time w (arduino.current_time w (elapsed0 + e))
      (arduino.current_time w elapsed0) = e ∧
    (∀ (iw : Nat) (s : tempo_tapper Nat), 0 ≤ s.taps →
      s.lst_t = arduino.current_time w elapsed0 →
      (tt_tap (arduino.target w iw) (arduino.current_time w (elapsed0 + e)) s).prd_sum =
        arduino.add_time w s.prd_sum e) := by
  have h := arduino.sub_time_across_wrap w elapsed0 e he
  refine ⟨h, fun iw s h0 hl => ?_⟩
  simp only [tt_tap, ge_iff_le, h0, if_true, hl]
  show arduino.add_time w s.prd_sum (arduino.sub_time w _ _) = _
  rw [h]

/-- Witness for C22: with a 32-bit counter, the first reading is taken 100
microseconds before the counter wraps and the second 300 microseconds later; the
second reading, 200, is numerically below the first, 4294967196, and sub_time
returns 300. -/
theorem C22_sub_time_across_wrap_witness :
    arduino.current_time 32 (4294967196 + 300) = 200 ∧
    arduino.current_time 32 4294967196 = 4294967196 ∧
    arduino.sub_time 32 (arduino.current_time 32 (4294967196 + 300))
      (arduino.current_time 32 4294967196) = 300 :=
  ⟨by decide, by decide, (C22_sub_time_across_wrap 32 4294967196 300 (by decide)).1⟩

/-! Auxiliary facts: normalisation on the POSIX adapter -/

theorem posix.tv_sec_nonneg (d : timeval) (hn : posix.normalised d)
    (h0 : 0 ≤ posix.usec_of d) : 0 ≤ d.tv_sec := by
  unfold posix.normalised at hn
  unfold posix.usec_of S_TO_US at h0
  push_cast at h0
  omega

theorem int_max_nonneg (bits : Nat) : 0 ≤ INT_MAX bits := by
  unfold INT_MAX
  have : (1 : Int) ≤ 2 ^ (bits - 1) := one_le_pow₀ (by norm_num)
  omega

theorem timersub_stored_eq (tb ub : Nat) (a b : timeval) (htb : 1 ≤ tb)
    (hub : 2000000 ≤ INT_MAX ub) (ha : posix.normalised a) (hb : posix.normalised b)
    (hlo : -(INT_MAX tb) ≤ a.tv_sec - b.tv_sec) (hhi : a.tv_sec - b.tv_sec ≤ INT_MAX tb) :
    timersub_stored tb ub a b = timersub a b := by
  have hub1 : 1 ≤ ub := by
    have := int_max_pos_bits ub (by omega)
    omega
  unfold posix.normalised at ha hb
  have e1 := int_wrap_of_representable tb (a.tv_sec - b.tv_sec) htb (by omega) hhi
  have e2 := int_wrap_of_representable ub (a.tv_usec - b.tv_usec) hub1 (by omega) (by omega)
  unfold timersub_stored timersub
  simp only [e1, e2]
  by_cases h : a.tv_usec - b.tv_usec < 0
  · have e3 := int_wrap_of_representable tb (a.tv_sec - b.tv_sec - 1) htb (by omega)
      (by omega)
    have e4 := int_wrap_of_representable ub (a.tv_usec - b.tv_usec + 1000000) hub1
      (by omega) (by omega)
    simp only [h, if_true, e3, e4]
  · simp only [h, if_false]

theorem timeradd_stored_eq (tb ub : Nat) (a b : timeval) (htb : 1 ≤ tb)
    (hub : 2000000 ≤ INT_MAX ub) (ha : posix.normalised a) (hb : posix.normalised b)
    (hlo : -(INT_MAX tb) - 1 ≤ a.tv_sec + b.tv_sec)
    (hhi : (timeradd a b).tv_sec ≤ INT_MAX tb) :
    timeradd_stored tb ub a b = timeradd a b := by
  have hub1 : 1 ≤ ub := by
    have := int_max_pos_bits ub (by omega)
    omega
  unfold posix.normalised at ha hb
  have e2 := int_wrap_of_representable ub (a.tv_usec + b.tv_usec) hub1 (by omega) (by omega)
  unfold timeradd at hhi
  unfold timeradd_stored timeradd
  by_cases h : a.tv_usec + b.tv_usec ≥ 1000000
  · simp only [h, if_true] at hhi
    have e1 := int_wrap_of_representable tb (a.tv_sec + b.tv_sec) htb hlo (by omega)
    have e3 := int_wrap_of_representable tb (a.tv_sec + b.tv_sec + 1) htb (by omega) hhi
    have e4 := int_wrap_of_representable ub (a.tv_usec + b.tv_usec - 1000000) hub1
      (by omega) (by omega)
    simp only [e1, e2, h, if_true, e3, e4]
  · simp only [h, if_false] at hhi
    have e1 := int_wrap_of_representable tb (a.tv_sec + b.tv_sec) htb hlo hhi
    simp only [e1, e2, h, if_false]

theorem posix.tv_sec_le_of_usec_le (a b : timeval) (ha : posix.normalised a)
    (hb : posix.normalised b) (h : posix.usec_of a ≤ posix.usec_of b) :
    a.tv_sec ≤ b.tv_sec := by
  unfold posix.normalised at ha hb
  unfold posix.usec_of S_TO_US at h
  push_cast at h
  omega

theorem posix.tv_sec_le_of_usec_add_le (r f t : timeval) (hr : posix.normalised r)
    (hf : posix.normalised f) (ht : posix.normalised t)
    (h : posix.usec_of r + posix.usec_of f ≤ posix.usec_of t) :
    r.tv_sec ≤ t.tv_sec - f.tv_sec := by
  unfold posix.normalised at hr hf ht
  unfold posix.usec_of S_TO_US at h
  push_cast at h
  omega

/-- One call of tt_tap on a struct in which prd_sum is normalised and not negative and
lies, together with a floor reading f, below lst_t: when the reading t is at most
INT_MAX seconds above f, the stored fields do not leave the range of `time_t` and
`suseconds_t`, and the call computes what it computes on unbounded fields. -/
theorem posix_fixed.tap_stored_eq (W iw tb ub : Nat) (htb : 1 ≤ tb)
    (hub : 2000000 ≤ INT_MAX ub) (f t : timeval) (hf : posix.normalised f)
    (ht : posix.normalised t) (hspan : t.tv_sec - f.tv_sec ≤ INT_MAX tb)
    (s : tempo_tapper timeval) (hp : posix.normalised s.prd_sum)
    (h0 : 0 ≤ s.prd_sum.tv_sec)
    (hl : 0 ≤ s.taps → posix.normalised s.lst_t ∧
      posix.usec_of s.prd_sum + posix.usec_of f ≤ posix.usec_of s.lst_t ∧
      posix.usec_of s.lst_t ≤ posix.usec_of t) :
    tt_tap (posix_fixed.target W iw tb ub) t s = tt_tap (posix.target W iw) t s ∧
    tap_delta (posix_fixed.target W iw tb ub) t s = tap_delta (posix.target W iw) t s := by
  by_cases hc : 0 ≤ s.taps
  · obtain ⟨hln, hfl, hlt⟩ := hl hc
    have hp0 : 0 ≤ posix.usec_of s.prd_sum := posix.usec_of_nonneg s.prd_sum hp h0
    have hsub := posix.sub_time_exact t s.lst_t ht hln
    have hd0 : 0 ≤ posix.usec_of (posix.sub_time t s.lst_t) := by rw [hsub.2]; omega
    have hdsec := posix.tv_sec_nonneg _ hsub.1 hd0
    have hadd := posix.add_time_exact s.prd_sum (posix.sub_time t s.lst_t) hp hsub.1
    have hmax := int_max_nonneg tb
    have h1 : s.lst_t.tv_sec ≤ t.tv_sec := posix.tv_sec_le_of_usec_le _ _ hln ht hlt
    have h2 : f.tv_sec ≤ s.lst_t.tv_sec :=
      posix.tv_sec_le_of_usec_le _ _ hf hln (by omega)
    have esub : timersub_stored tb ub t s.lst_t = timersub t s.lst_t :=
      timersub_stored_eq tb ub t s.lst_t htb hub ht hln (by omega) (by omega)
    have h3 : (posix.add_time s.prd_sum (posix.sub_time t s.lst_t)).tv_sec ≤
        t.tv_sec - f.tv_sec :=
      posix.tv_sec_le_of_usec_add_le _ f t hadd.1 hf ht (by rw [hadd.2, hsub.2]; omega)
    have eadd : timeradd_stored tb ub s.prd_sum (timersub t s.lst_t) =
        timeradd s.prd_sum (timersub t s.lst_t) :=
      timeradd_stored_eq tb ub s.prd_sum (timersub t s.lst_t) htb hub hp hsub.1
        (by have : 0 ≤ (timersub t s.lst_t).tv_sec := hdsec
            omega)
        (le_trans h3 hspan)
    constructor
    · simp only [tt_tap, ge_iff_le, hc, if_true, posix_fixed.target, posix.target,
        posix_fixed.add_time, posix_fixed.sub_time, posix.add_time, posix.sub_time, esub,
        eadd]
    · simp only [tap_delta, ge_iff_le, hc, if_true, posix_fixed.target, posix.target,
        posix_fixed.sub_time, posix.sub_time, esub]
  · constructor
    · simp only [tt_tap, ge_iff_le, hc, if_false, posix_fixed.target, posix.target]
    · simp only [tap_delta, ge_iff_le, hc, if_false]

/-- The two POSIX adapters agree on every sequence of tt_tap and tt_reset calls whose
readings are normalised, non-decreasing, not before a floor reading f and at most
INT_MAX seconds above it: the structs and the deltas are the same, so what is proved
for unbounded fields holds for the stored fields. -/
theorem posix_fixed.run_stored_eq (W iw tb ub : Nat) (htb : 1 ≤ tb)
    (hub : 2000000 ≤ INT_MAX ub) (f : timeval) (hf : posix.normalised f)
    (ops : List (tt_op timeval)) :
    ∀ s : tempo_tapper timeval, posix.normalised s.prd_sum → 0 ≤ s.prd_sum.tv_sec →
      (∀ t ∈ readings ops, posix.usec_of s.prd_sum + posix.usec_of f ≤ posix.usec_of t) →
      (0 ≤ s.taps → posix.normalised s.lst_t ∧
        posix.usec_of s.prd_sum + posix.usec_of f ≤ posix.usec_of s.lst_t ∧
        ∀ t ∈ readings ops, posix.not_before s.lst_t t) →
      (∀ t ∈ readings ops, posix.normalised t) →
      (∀ t ∈ readings ops, posix.not_before f t) →
      (∀ t ∈ readings ops, t.tv_sec - f.tv_sec ≤ INT_MAX tb) →
      (readings ops).Pairwise posix.not_before →
      apply_ops (posix_fixed.target W iw tb ub) s ops =
        apply_ops (posix.target W iw) s ops ∧
      deltas (posix_fixed.target W iw tb ub) s ops = deltas (posix.target W iw) s ops := by
  induction ops with
  | nil =>
    intro s _ _ _ _ _ _ _ _
    exact ⟨rfl, rfl⟩
  | cons op ops ih =>
    intro s hp h0 hA hB hn hfl hspan hs
    cases op with
    | reset =>
      have hr : readings (tt_op.reset :: ops) = readings ops := rfl
      rw [hr] at hA hB hn hfl hspan hs
      have := ih (tt_reset (posix.target W iw) s) posix.normalised_zero (le_refl _)
        (fun t ht => by
          have := hfl t ht
          unfold posix.not_before at this
          show posix.usec_of ⟨0, 0⟩ + posix.usec_of f ≤ posix.usec_of t
          rw [posix.usec_of_zero]
          omega)
        (fun h => absurd (show (0 : Int) ≤ -1 from h) (by decide)) hn hfl hspan hs
      exact this
    | tap t =>
      have hr : readings (tt_op.tap t :: ops) = t :: readings ops := rfl
      rw [hr] at hA hB hn hfl hspan hs
      have ht : posix.normalised t := hn t (List.mem_cons_self _ _)
      have hAt := hA t (List.mem_cons_self _ _)
      have hs1 := (List.pairwise_cons.mp hs).1
      have hs2 := (List.pairwise_cons.mp hs).2
      have hstep := posix_fixed.tap_stored_eq W iw tb ub htb hub f t hf ht
        (hspan t (List.mem_cons_self _ _)) s hp h0
        (fun hc => ⟨(hB hc).1, (hB hc).2.1, (hB hc).2.2 t (List.mem_cons_self _ _)⟩)
      have hstepF : apply_ops (posix_fixed.target W iw tb ub) s (tt_op.tap t :: ops) =
          apply_ops (posix_fixed.target W iw tb ub)
            (tt_tap (posix_fixed.target W iw tb ub) t s) ops := rfl
      have hstepI : apply_ops (posix.target W iw) s (tt_op.tap t :: ops) =
          apply_ops (posix.target W iw) (tt_tap (posix.target W iw) t s) ops := rfl
      have hdelF : deltas (posix_fixed.target W iw tb ub) s (tt_op.tap t :: ops) =
          (tap_delta (posix_fixed.target W iw tb ub) t s).toList ++
            deltas (posix_fixed.target W iw tb ub)
              (tt_tap (posix_fixed.target W iw tb ub) t s) ops := rfl
      have hdelI : deltas (posix.target W iw) s (tt_op.tap t :: ops) =
          (tap_delta (posix.target W iw) t s).toList ++
            deltas (posix.target W iw) (tt_tap (posix.target W iw) t s) ops := rfl
      rw [hstepF, hstepI, hdelF, hdelI, hstep.1, hstep.2]
      have hl2 : (tt_tap (posix.target W iw) t s).lst_t = t := rfl
      have hnext : posix.normalised (tt_tap (posix.target W iw) t s).prd_sum ∧
          0 ≤ (tt_tap (posix.target W iw) t s).prd_sum.tv_sec ∧
          posix.usec_of (tt_tap (posix.target W iw) t s).prd_sum + posix.usec_of f ≤
            posix.usec_of t := by
        by_cases hc : 0 ≤ s.taps
        · obtain ⟨hln, hfl2, hlb⟩ := hB hc
          have hlt : posix.usec_of s.lst_t ≤ posix.usec_of t := hlb t (List.mem_cons_self _ _)
          have hsub := posix.sub_time_exact t s.lst_t ht hln
          have hadd := posix.add_time_exact s.prd_sum (posix.sub_time t s.lst_t) hp hsub.1
          have hp0 : 0 ≤ posix.usec_of s.prd_sum := posix.usec_of_nonneg s.prd_sum hp h0
          have hprd : (tt_tap (posix.target W iw) t s).prd_sum =
              posix.add_time s.prd_sum (posix.sub_time t s.lst_t) := by
            simp [tt_tap, hc, posix.target]
          rw [hprd]
          refine ⟨hadd.1, posix.tv_sec_nonneg _ hadd.1 (by rw [hadd.2, hsub.2]; omega), ?_⟩
          rw [hadd.2, hsub.2]
          omega
        · have hprd : (tt_tap (posix.target W iw) t s).prd_sum = s.prd_sum := by
            simp [tt_tap, hc]
          rw [hprd]
          exact ⟨hp, h0, hAt⟩
      have := ih (tt_tap (posix.target W iw) t s) hnext.1 hnext.2.1
        (fun r hr => by
          have := hs1 r hr
          unfold posix.not_before at this
          have := hnext.2.2
          omega)
        (fun _ => ⟨ht, hnext.2.2, hs1⟩)
        (fun r hr => hn r (List.mem_cons_of_mem _ hr))
        (fun r hr => hfl r (List.mem_cons_of_mem _ hr))
        (fun r hr => hspan r (List.mem_cons_of_mem _ hr)) hs2
      exact ⟨this.1, by rw [this.2]⟩

/-- After a successful construct the two POSIX adapters agree on every sequence of
calls whose readings are normalised, non-decreasing and span at most INT_MAX seconds. -/
theorem posix_fixed.run_fresh_eq (W iw tb ub : Nat) (htb : 1 ≤ tb)
    (hub : 2000000 ≤ INT_MAX ub) (s0 : tempo_tapper timeval)
    (hf : fresh (posix.target W iw) s0) (ops : List (tt_op timeval))
    (hn : ∀ t ∈ readings ops, posix.normalised t)
    (hs : (readings ops).Pairwise posix.not_before)
    (hspan : ∀ a ∈ readings ops, ∀ b ∈ readings ops, b.tv_sec - a.tv_sec ≤ INT_MAX tb) :
    apply_ops (posix_fixed.target W iw tb ub) s0 ops =
      apply_ops (posix.target W iw) s0 ops ∧
    deltas (posix_fixed.target W iw tb ub) s0 ops = deltas (posix.target W iw) s0 ops := by
  obtain ⟨x, hx⟩ := fresh_prd_sum _ s0 hf
  have hp : s0.prd_sum = ⟨0, 0⟩ := by rw [hx]; rfl
  have ht := fresh_taps _ s0 hf
  have hB : 0 ≤ s0.taps → posix.normalised s0.lst_t ∧
      posix.usec_of s0.prd_sum + posix.usec_of (⟨0, 0⟩ : timeval) ≤ posix.usec_of s0.lst_t ∧
      ∀ t ∈ readings ops, posix.not_before s0.lst_t t :=
    fun h0 => by rw [ht] at h0; exact absurd h0 (by decide)
  cases hro : readings ops with
  | nil =>
    have hn0 : ∀ t ∈ readings ops, False := fun t h => by rw [hro] at h; simp at h
    exact posix_fixed.run_stored_eq W iw tb ub htb hub ⟨0, 0⟩ posix.normalised_zero ops s0
      (by rw [hp]; exact posix.normalised_zero) (by rw [hp])
      (fun t h => (hn0 t h).elim) hB hn (fun t h => (hn0 t h).elim)
      (fun t h => (hn0 t h).elim) hs
  | cons r0 rest =>
    have hr0 : r0 ∈ readings ops := by rw [hro]; exact List.mem_cons_self _ _
    have hfl : ∀ t ∈ readings ops, posix.not_before r0 t := by
      intro t h
      rw [hro] at h hs
      rcases List.mem_cons.mp h with e | e
      · rw [e]; exact le_refl _
      · exact (List.pairwise_cons.mp hs).1 t e
    exact posix_fixed.run_stored_eq W iw tb ub htb hub r0 (hn r0 hr0) ops s0
      (by rw [hp]; exact posix.normalised_zero) (by rw [hp])
      (fun t h => by
        have := hfl t h
        unfold posix.not_before at this
        rw [hp, posix.usec_of_zero]
        omega)
      (fun h0 => by rw [ht] at h0; exact absurd h0 (by decide)) hn hfl
      (fun t h => hspan r0 hr0 t h) hs

theorem readings_map_tap {τ : Type} (ts : List τ) : readings (ts.map tt_op.tap) = ts := by
  induction ts with
  | nil => rfl
  | cons t ts ih => simp only [List.map_cons, readings, ih]

/-- After construct or reset the two POSIX adapters leave the same struct after taps
at normalised non-decreasing readings that span at most INT_MAX seconds, so the
statements about `tap_all` on unbounded fields hold for the stored fields. -/
theorem posix_fixed.tap_all_stored_eq (W iw tb ub : Nat) (htb : 1 ≤ tb)
    (hub : 2000000 ≤ INT_MAX ub) (s : tempo_tapper timeval)
    (hf : fresh (posix.target W iw) s) (ts : List timeval)
    (hn : ∀ t ∈ ts, posix.normalised t) (hs : ts.Pairwise posix.not_before)
    (hspan : ∀ a ∈ ts, ∀ b ∈ ts, b.tv_sec - a.tv_sec ≤ INT_MAX tb) :
    tap_all (posix_fixed.target W iw tb ub) s ts = tap_all (posix.target W iw) s ts := by
  have h := (posix_fixed.run_fresh_eq W iw tb ub htb hub s hf (ts.map tt_op.tap)
    (by rw [readings_map_tap]; exact hn) (by rw [readings_map_tap]; exact hs)
    (by rw [readings_map_tap]; exact hspan)).1
  rw [apply_ops_map_tap, apply_ops_map_tap] at h
  exact h

/-- The period on the POSIX adapter with stored field widths: after construct (or
reset) and N ≥ 2 taps at normalised non-decreasing readings that span at most INT_MAX
seconds and whose interval sum fits `unsigned long`, tt_period_us returns the
truncated mean interval, as on unbounded fields. -/
theorem posix_fixed.period_after_taps_stored (W iw tb ub : Nat) (htb : 1 ≤ tb)
    (hub : 2000000 ≤ INT_MAX ub) (s : tempo_tapper timeval)
    (hf : fresh (posix.target W iw) s) (ts : List timeval) (hN : 2 ≤ ts.length)
    (hmax : (ts.length : Int) - 1 ≤ INT_MAX iw) (hn : ∀ t ∈ ts, posix.normalised t)
    (hs : ts.Pairwise posix.not_before)
    (hspan : ∀ a ∈ ts, ∀ b ∈ ts, b.tv_sec - a.tv_sec ≤ INT_MAX tb)
    (hW : ((posix.intervals ts).sum : Int) < 2 ^ W) :
    tt_period_us (posix_fixed.target W iw tb ub)
        (tap_all (posix_fixed.target W iw tb ub) s ts) =
      (posix.intervals ts).sum / (ts.length - 1) := by
  rw [posix_fixed.tap_all_stored_eq W iw tb ub htb hub s hf ts hn hs hspan]
  exact posix.period_after_taps_tv W iw s hf ts hN hmax hn hs hW

end TempoTapper
